import Mathlib

/-!
Dogee cluster control plane: the Sync Manager of the master.

A shallow embedding of `MasterZone::SyncManager` from `src/Dogee/DogeeRemote.cpp`
(barriers, counting semaphores and events living on the master), followed by
theorems about it.

Modelling conventions.

* The C++ `int` fields `val` and `data` are integers in `Int`; every `++` and `--`
  is followed by `wrap32`, the two's complement reduction to 32 bits, and every
  conversion of a 64-bit store word to `int` goes through `toInt32`.
* `std::unordered_map<ObjectKey, SyncNode*>` is a function from keys to optional
  records; mutation through the stored pointer is a `Function.update` at the key.
* The union of `waitlist` (a vector) and `waitqueue` (a queue) is one list field,
  oldest entry first: `push_back` and `push` append at the end, `front` and `pop`
  act on the head.
* `RcWakeRemoteThread(dest, thread_id)` is recorded by appending the pair to the
  wake trace of the call; every operation returns the new registry and its trace.
* The mutex held for the duration of each operation makes the operations atomic,
  so an execution of the manager is a sequence of calls.
-/

namespace Dogee

/-! ## Machine integers -/

/-- Conversion of an unsigned store word to a C++ `int`: the low 32 bits read as a
two's complement number (`(int)x`, the implicit conversion, and `*(int*)&x` on a
little-endian machine all compute this). -/
def toInt32 (w : Nat) : Int :=
  if w % 4294967296 < 2147483648 then ((w % 4294967296 : Nat) : Int)
  else ((w % 4294967296 : Nat) : Int) - 4294967296

/-- Reduction of an integer to the range of a 32-bit two's complement `int`. -/
def wrap32 (i : Int) : Int := (i + 2147483648) % 4294967296 - 2147483648

/-! ## Data model -/

/-- Object keys name the sync primitives (`uint64_t` in the source). -/
abbrev ObjectKey := Nat

/-- One waiter: the node that sent the request and the thread id on that node. -/
structure SyncThreadNode where
  machine : Int
  thread_id : Int
deriving DecidableEq, Repr

/-- The tag of `SyncNode`. -/
inductive SyncKind where
  | Barrier
  | Semaphore
  | Event
deriving DecidableEq, Repr

/-- The record `SyncNode`. For a barrier `val` is the count and `data` the
threshold; for a semaphore `val` is the value and `data` the value it was created
with; for an event `val` is the signaled flag and `data` the auto-reset flag. The two
members of the union are the one field `waitlist`; this is what the source does
where an operation meets a record of its own `Kind`. The source tests no `Kind`, and
an operation that meets a record of another `Kind` is outside this model (see
`kindAgrees`). -/
structure SyncNode where
  Kind : SyncKind
  val : Int
  data : Int
  waitlist : List SyncThreadNode
deriving DecidableEq, Repr

/-- The other member of the union: the same container seen as a queue. -/
@[reducible, simp] def SyncNode.waitqueue (node : SyncNode) : List SyncThreadNode := node.waitlist

/-- The map `sync_data`. -/
abbrev Registry := ObjectKey → Option SyncNode

/-- What the manager reads from outside: `get` is `DogeeEnv::cache->get(key, slot)`
(64-bit words), `deref a` is the word found in memory at address `a`, which only
the materialization inside `SemaphoreLeaveMsg` looks at (`*(int*)val`). -/
structure Env where
  get : ObjectKey → Nat → Nat
  deref : Nat → Nat

/-- The effect of `RcWakeRemoteThread(dest, thread_id)` on the wake trace. -/
def RcWakeRemoteThread (trace : List SyncThreadNode) (dest thread_id : Int) :
    List SyncThreadNode :=
  trace ++ [⟨dest, thread_id⟩]

/-- The loop `for (i = 0; i < waitlist->size(); i++) RcWakeRemoteThread(...)` of
`BarrierMsg`: wakes the entries from index 0 upwards. -/
def wakeWaitlist : List SyncThreadNode → List SyncThreadNode → List SyncThreadNode
  | trace, [] => trace
  | trace, th :: rest => wakeWaitlist (RcWakeRemoteThread trace th.machine th.thread_id) rest

/-! ## Barrier -/

/-- `SyncManager::BarrierMsg(src, b_id, thread_id)`. -/
def BarrierMsg (env : Env) (sync_data : Registry) (src : Int) (b_id : ObjectKey)
    (thread_id : Int) : Registry × List SyncThreadNode :=
  let node : SyncNode :=
    match sync_data b_id with
    | none =>
      { Kind := SyncKind.Barrier, data := toInt32 (env.get b_id 0), val := 0, waitlist := [] }
    | some n => n
  let node := { node with val := wrap32 (node.val + 1) }
  if node.val ≥ node.data then
    let node := { node with val := 0 }
    let trace := RcWakeRemoteThread [] src thread_id
    let trace := wakeWaitlist trace node.waitlist
    let node := { node with waitlist := [] }
    (Function.update sync_data b_id (some node), trace)
  else
    let th : SyncThreadNode := ⟨src, thread_id⟩
    let node := { node with waitlist := node.waitlist ++ [th] }
    (Function.update sync_data b_id (some node), [])

/-- The record a barrier call works on: the one found under the key, or the one
materialized from store slot 0 when the key is absent. -/
def barrierRecord (env : Env) (sync_data : Registry) (b_id : ObjectKey) : SyncNode :=
  match sync_data b_id with
  | none =>
    { Kind := SyncKind.Barrier, data := toInt32 (env.get b_id 0), val := 0, waitlist := [] }
  | some n => n

/-- The arrivals of a sequence of `BarrierMsg` calls on one key, processed in order;
the result is the final registry and the concatenated wake trace. -/
def runBarrier (env : Env) (b_id : ObjectKey) :
    Registry → List SyncThreadNode → Registry × List SyncThreadNode
  | sync_data, [] => (sync_data, [])
  | sync_data, th :: rest =>
    let r := BarrierMsg env sync_data th.machine b_id th.thread_id
    let r2 := runBarrier env b_id r.1 rest
    (r2.1, r.2 ++ r2.2)

/-- The `i`-th group of `k` consecutive arrivals. -/
def arrivalGroup (k : Nat) (arrivals : List SyncThreadNode) (i : Nat) : List SyncThreadNode :=
  (arrivals.drop (i * k)).take k

/-- The arrival sequence cut into its full groups of `k`, each group listed with
its last arrival first and the other `k - 1` behind it in arrival order. -/
def tripOrder (k : Nat) (arrivals : List SyncThreadNode) : List SyncThreadNode :=
  (List.range (arrivals.length / k)).flatMap fun i =>
    (arrivalGroup k arrivals i).drop (k - 1) ++ (arrivalGroup k arrivals i).take (k - 1)

/-! ## Semaphore -/

/-- `SyncManager::SemaphoreMsg(src, b_id, thread_id)`. -/
def SemaphoreMsg (env : Env) (sync_data : Registry) (src : Int) (b_id : ObjectKey)
    (thread_id : Int) : Registry × List SyncThreadNode :=
  let node : SyncNode :=
    match sync_data b_id with
    | none =>
      let val := env.get b_id 0
      let data := toInt32 val
      { Kind := SyncKind.Semaphore, data := data, val := data, waitlist := [] }
    | some n => n
  let node := { node with val := wrap32 (node.val - 1) }
  if node.val ≥ 0 then
    (Function.update sync_data b_id (some node), RcWakeRemoteThread [] src thread_id)
  else
    let th : SyncThreadNode := ⟨src, thread_id⟩
    let node := { node with waitlist := node.waitqueue ++ [th] }
    (Function.update sync_data b_id (some node), [])

/-- `SyncManager::SemaphoreLeaveMsg(src, b_id, thread_id)`. When the key is absent
the record is created from `*(int*)val`: the store word is used as an address. -/
def SemaphoreLeaveMsg (env : Env) (sync_data : Registry) (_src : Int) (b_id : ObjectKey)
    (_thread_id : Int) : Registry × List SyncThreadNode :=
  let node : SyncNode :=
    match sync_data b_id with
    | none =>
      let val := env.get b_id 0
      let data := toInt32 (env.deref val)
      { Kind := SyncKind.Semaphore, data := data, val := data, waitlist := [] }
    | some n => n
  let node := { node with val := wrap32 (node.val + 1) }
  if node.val ≥ 0 then
    match node.waitqueue with
    | [] => (Function.update sync_data b_id (some node), [])
    | th :: rest =>
      let trace := RcWakeRemoteThread [] th.machine th.thread_id
      let node := { node with waitlist := rest }
      (Function.update sync_data b_id (some node), trace)
  else
    (Function.update sync_data b_id (some node), [])

/-- The record `SemaphoreMsg` works on: the one found under the key, or the one
materialized from store slot 0 when the key is absent. -/
def semaphoreRecord (env : Env) (sync_data : Registry) (b_id : ObjectKey) : SyncNode :=
  match sync_data b_id with
  | none =>
    { Kind := SyncKind.Semaphore, data := toInt32 (env.get b_id 0),
      val := toInt32 (env.get b_id 0), waitlist := [] }
  | some n => n

/-- One request to a semaphore. -/
inductive SemCall where
  | enter (src thread_id : Int)
  | leave (src thread_id : Int)
deriving DecidableEq, Repr

/-- Whether a request is a leave. -/
def SemCall.isLeave : SemCall → Bool
  | SemCall.enter _ _ => false
  | SemCall.leave _ _ => true

/-- Dispatch of one semaphore request, as the master listener and the local calls do. -/
def semCall (env : Env) (b_id : ObjectKey) (sync_data : Registry) :
    SemCall → Registry × List SyncThreadNode
  | SemCall.enter src thread_id => SemaphoreMsg env sync_data src b_id thread_id
  | SemCall.leave src thread_id => SemaphoreLeaveMsg env sync_data src b_id thread_id

/-- A sequence of semaphore requests on one key, processed in order; the result is
the final registry and the concatenated wake trace. -/
def runSem (env : Env) (b_id : ObjectKey) :
    Registry → List SemCall → Registry × List SyncThreadNode
  | sync_data, [] => (sync_data, [])
  | sync_data, c :: rest =>
    let r := semCall env b_id sync_data c
    let r2 := runSem env b_id r.1 rest
    (r2.1, r.2 ++ r2.2)

/-! ## Semaphore used as a mutex

Threads that call `RcEnterSemaphore(okey, ∞)` once and `RcLeaveSemaphore(okey)` once
after the enter has returned: a thread sends its enter at most once, and sends its
leave at most once and only after the manager has woken it. -/

/-- The manager together with the bookkeeping of the scenario: who has sent an
enter, who has been woken, who has sent a leave. -/
structure MutexSys where
  sync_data : Registry
  entered : List SyncThreadNode
  woken : List SyncThreadNode
  left : List SyncThreadNode

/-- A message of the scenario reaching the manager. -/
inductive MutexOp where
  | enter (t : SyncThreadNode)
  | leave (t : SyncThreadNode)
deriving DecidableEq, Repr

/-- One message; `none` when the sender would break the discipline. -/
def mutexStep (env : Env) (okey : ObjectKey) (s : MutexSys) : MutexOp → Option MutexSys
  | MutexOp.enter t =>
    if t ∈ s.entered then none
    else
      let r := SemaphoreMsg env s.sync_data t.machine okey t.thread_id
      some { sync_data := r.1, entered := s.entered ++ [t], woken := s.woken ++ r.2,
             left := s.left }
  | MutexOp.leave t =>
    if t ∈ s.woken ∧ t ∉ s.left then
      let r := SemaphoreLeaveMsg env s.sync_data t.machine okey t.thread_id
      some { sync_data := r.1, entered := s.entered, woken := s.woken ++ r.2,
             left := s.left ++ [t] }
    else none

/-- A schedule of messages, in the order in which they reach the manager. -/
def mutexRun (env : Env) (okey : ObjectKey) : MutexSys → List MutexOp → Option MutexSys
  | s, [] => some s
  | s, op :: rest =>
    match mutexStep env okey s op with
    | none => none
    | some s1 => mutexRun env okey s1 rest

/-- The threads that have been woken and have not yet sent their leave. -/
def holders (s : MutexSys) : List SyncThreadNode :=
  s.woken.filter fun t => decide (t ∉ s.left)

/-- The start of the scenario: nothing sent yet. -/
def mutexStart (sync_data : Registry) : MutexSys :=
  { sync_data := sync_data, entered := [], woken := [], left := [] }

/-- The invariant of the mutex scenario on key `okey`, for a semaphore created with
value 1. The record is the one under the key (the one about to be materialized while
the key is still absent). -/
structure MutexInv (env : Env) (okey : ObjectKey) (s : MutexSys) : Prop where
  absent : s.sync_data okey = none → s.woken = []
  left_woken : ∀ t ∈ s.left, t ∈ s.woken
  woken_entered : ∀ t ∈ s.woken, t ∈ s.entered
  queue_entered : ∀ t ∈ (semaphoreRecord env s.sync_data okey).waitqueue, t ∈ s.entered
  queue_woken : ∀ t ∈ (semaphoreRecord env s.sync_data okey).waitqueue, t ∉ s.woken
  woken_nodup : s.woken.Nodup
  queue_nodup : (semaphoreRecord env s.sync_data okey).waitqueue.Nodup
  conserve : (semaphoreRecord env s.sync_data okey).val +
      ((semaphoreRecord env s.sync_data okey).waitqueue.length : Int) +
      ((holders s).length : Int) = 1
  nonneg : 0 ≤ (semaphoreRecord env s.sync_data okey).val +
      ((semaphoreRecord env s.sync_data okey).waitqueue.length : Int)
  lower : 1 - (s.entered.length : Int) ≤ (semaphoreRecord env s.sync_data okey).val

/-! ## Event -/

/-- `SyncManager::CreateEventNode(b_id)`: the registry after the lookup and the
record found or created. -/
def CreateEventNode (env : Env) (sync_data : Registry) (b_id : ObjectKey) :
    Registry × SyncNode :=
  match sync_data b_id with
  | none =>
    let node : SyncNode :=
      { Kind := SyncKind.Event, data := toInt32 (env.get b_id 0),
        val := toInt32 (env.get b_id 2), waitlist := [] }
    (Function.update sync_data b_id (some node), node)
  | some n => (sync_data, n)

/-- `SyncManager::EventWaitMsg(src, b_id, thread_id)`. -/
def EventWaitMsg (env : Env) (sync_data : Registry) (src : Int) (b_id : ObjectKey)
    (thread_id : Int) : Registry × List SyncThreadNode :=
  let c := CreateEventNode env sync_data b_id
  let node := c.2
  if node.val ≠ 0 then
    let trace := RcWakeRemoteThread [] src thread_id
    if node.data ≠ 0 then
      (Function.update c.1 b_id (some { node with val := 0 }), trace)
    else
      (c.1, trace)
  else
    let th : SyncThreadNode := ⟨src, thread_id⟩
    (Function.update c.1 b_id (some { node with waitlist := node.waitqueue ++ [th] }), [])

/-- The loop `while (!waitqueue->empty()) { front; pop; RcWakeRemoteThread }` of
`SetEventMsg`: returns the queue left over and the trace. -/
def drainWaitqueue :
    List SyncThreadNode → List SyncThreadNode → List SyncThreadNode × List SyncThreadNode
  | [], trace => ([], trace)
  | th :: rest, trace => drainWaitqueue rest (RcWakeRemoteThread trace th.machine th.thread_id)

/-- `SyncManager::SetEventMsg(src, b_id)`. -/
def SetEventMsg (env : Env) (sync_data : Registry) (_src : Int) (b_id : ObjectKey) :
    Registry × List SyncThreadNode :=
  let c := CreateEventNode env sync_data b_id
  let node : SyncNode := { c.2 with val := 1 }
  if node.data ≠ 0 then
    match node.waitqueue with
    | [] =>
      let node := { node with val := 1 }
      (Function.update c.1 b_id (some node), [])
    | th :: rest =>
      let node := { node with val := 0, waitlist := rest }
      (Function.update c.1 b_id (some node), RcWakeRemoteThread [] th.machine th.thread_id)
  else
    let d := drainWaitqueue node.waitqueue []
    (Function.update c.1 b_id (some { node with waitlist := d.1 }), d.2)

/-- `SyncManager::ResetEventMsg(src, b_id)`. -/
def ResetEventMsg (env : Env) (sync_data : Registry) (_src : Int) (b_id : ObjectKey) :
    Registry × List SyncThreadNode :=
  let c := CreateEventNode env sync_data b_id
  (Function.update c.1 b_id (some { c.2 with val := 0 }), [])

/-- The record an event call works on: the one found under the key, or the one
materialized from store slots 0 and 2 when the key is absent. -/
def eventRecord (env : Env) (sync_data : Registry) (b_id : ObjectKey) : SyncNode :=
  (CreateEventNode env sync_data b_id).2

/-! ## Concrete data used in the examples -/

/-- A store whose every slot holds `w`; memory reads give 0. -/
def constEnv (w : Nat) : Env := ⟨fun _ _ => w, fun _ => 0⟩

/-- A store describing an event: slot 0 holds `autoReset`, slot 2 holds `signaled`. -/
def eventEnv (autoReset signaled : Nat) : Env :=
  ⟨fun _ slot => if slot = 0 then autoReset else if slot = 2 then signaled else 0, fun _ => 0⟩

/-- The registry with no record at all. -/
def emptyRegistry : Registry := fun _ => none

/-- The registry holding one record, under `b_id`. -/
def singleRegistry (b_id : ObjectKey) (node : SyncNode) : Registry :=
  Function.update emptyRegistry b_id (some node)

/-! ## Sequences of event calls -/

/-- One request to an event. -/
inductive EvCall where
  | wait (src thread_id : Int)
  | set (src : Int)
  | reset (src : Int)
deriving DecidableEq, Repr

/-- Whether a request is a set. -/
def EvCall.isSet : EvCall → Bool
  | EvCall.set _ => true
  | _ => false

/-- Whether a request is a reset. -/
def EvCall.isReset : EvCall → Bool
  | EvCall.reset _ => true
  | _ => false

/-- Dispatch of one event request, as the master listener and the local calls do. -/
def evCall (env : Env) (b_id : ObjectKey) (sync_data : Registry) :
    EvCall → Registry × List SyncThreadNode
  | EvCall.wait src thread_id => EventWaitMsg env sync_data src b_id thread_id
  | EvCall.set src => SetEventMsg env sync_data src b_id
  | EvCall.reset src => ResetEventMsg env sync_data src b_id

/-- A sequence of event requests on one key, processed in order; the result is the
final registry and the concatenated wake trace. -/
def runEvent (env : Env) (b_id : ObjectKey) :
    Registry → List EvCall → Registry × List SyncThreadNode
  | sync_data, [] => (sync_data, [])
  | sync_data, c :: rest =>
    let r := evCall env b_id sync_data c
    let r2 := runEvent env b_id r.1 rest
    (r2.1, r.2 ++ r2.2)

/-- The number of set requests of a run that reach the event while it is already
signaled. -/
def absorbedSets (env : Env) (b_id : ObjectKey) : Registry → List EvCall → Nat
  | _, [] => 0
  | sync_data, c :: rest =>
    (if c.isSet = true ∧ (eventRecord env sync_data b_id).val ≠ 0 then 1 else 0) +
      absorbedSets env b_id (evCall env b_id sync_data c).1 rest

/-! ## Wait sets and queue order -/

/-- The wait set of a key: the waitlist of its record, empty while the key is absent. -/
def waitset (sync_data : Registry) (b_id : ObjectKey) : List SyncThreadNode :=
  match sync_data b_id with
  | none => []
  | some n => n.waitlist

/-- The queue log of a run of semaphore requests: first the callers of the enters
that were not woken by their own call (they are the ones enqueued), in order; second
the threads woken by the leaves (they are the ones taken from the queue), in order. -/
def semQueueLog (env : Env) (b_id : ObjectKey) :
    Registry → List SemCall → List SyncThreadNode × List SyncThreadNode
  | _, [] => ([], [])
  | sync_data, c :: rest =>
    let r := semCall env b_id sync_data c
    let l := semQueueLog env b_id r.1 rest
    match c with
    | SemCall.enter src thread_id =>
      (if r.2 = [] then (⟨src, thread_id⟩ : SyncThreadNode) :: l.1 else l.1, l.2)
    | SemCall.leave _ _ => (l.1, r.2 ++ l.2)

/-- The queue log of a run of event requests: first the callers of the waits that
were not woken by their own call, in order; second the threads woken by the sets,
in order. -/
def evQueueLog (env : Env) (b_id : ObjectKey) :
    Registry → List EvCall → List SyncThreadNode × List SyncThreadNode
  | _, [] => ([], [])
  | sync_data, c :: rest =>
    let r := evCall env b_id sync_data c
    let l := evQueueLog env b_id r.1 rest
    match c with
    | EvCall.wait src thread_id =>
      (if r.2 = [] then (⟨src, thread_id⟩ : SyncThreadNode) :: l.1 else l.1, l.2)
    | EvCall.set _ => (l.1, r.2 ++ l.2)
    | EvCall.reset _ => l

/-! ## The Sync Manager as a whole -/

/-- One operation of the Sync Manager, with the arguments the master listener or a
local call passes. -/
inductive SyncOp where
  | barrier (src : Int) (b_id : ObjectKey) (thread_id : Int)
  | semEnter (src : Int) (b_id : ObjectKey) (thread_id : Int)
  | semLeave (src : Int) (b_id : ObjectKey) (thread_id : Int)
  | eventWait (src : Int) (b_id : ObjectKey) (thread_id : Int)
  | eventSet (src : Int) (b_id : ObjectKey)
  | eventReset (src : Int) (b_id : ObjectKey)
deriving DecidableEq, Repr

/-- The key an operation refers to. -/
def SyncOp.key : SyncOp → ObjectKey
  | SyncOp.barrier _ k _ => k
  | SyncOp.semEnter _ k _ => k
  | SyncOp.semLeave _ k _ => k
  | SyncOp.eventWait _ k _ => k
  | SyncOp.eventSet _ k => k
  | SyncOp.eventReset _ k => k

/-- The dispatch of `RcMasterListen` and of the local calls. -/
def syncStep (env : Env) (sync_data : Registry) : SyncOp → Registry × List SyncThreadNode
  | SyncOp.barrier src k tid => BarrierMsg env sync_data src k tid
  | SyncOp.semEnter src k tid => SemaphoreMsg env sync_data src k tid
  | SyncOp.semLeave src k tid => SemaphoreLeaveMsg env sync_data src k tid
  | SyncOp.eventWait src k tid => EventWaitMsg env sync_data src k tid
  | SyncOp.eventSet src k => SetEventMsg env sync_data src k
  | SyncOp.eventReset src k => ResetEventMsg env sync_data src k

/-- A sequence of operations, each one paired with the store contents at the time
it is processed; the wake trace records, for every wake, the key of the operation
that did it. -/
def runSync : Registry → List (Env × SyncOp) → Registry × List (ObjectKey × SyncThreadNode)
  | sync_data, [] => (sync_data, [])
  | sync_data, (env, op) :: rest =>
    let r := syncStep env sync_data op
    let r2 := runSync r.1 rest
    (r2.1, r.2.map (fun th => (op.key, th)) ++ r2.2)

/-- The `Kind` of the records an operation creates and is written for. -/
def SyncOp.Kind : SyncOp → SyncKind
  | SyncOp.barrier _ _ _ => SyncKind.Barrier
  | SyncOp.semEnter _ _ _ => SyncKind.Semaphore
  | SyncOp.semLeave _ _ _ => SyncKind.Semaphore
  | SyncOp.eventWait _ _ _ => SyncKind.Event
  | SyncOp.eventSet _ _ => SyncKind.Event
  | SyncOp.eventReset _ _ => SyncKind.Event

/-- Whether an operation finds under its key no record or a record of its own
`Kind`. No operation of the source looks at `Kind`: `BarrierMsg` uses the union
member `waitlist` and the other five use `waitqueue`, whatever the record holds. On
a record created by a barrier the queue operations read a `std::vector*` as a
`std::queue*`, and `BarrierMsg` on a queue record does the reverse, which C++
leaves undefined. -/
def kindAgrees (sync_data : Registry) (op : SyncOp) : Bool :=
  match sync_data op.key with
  | none => true
  | some n => decide (n.Kind = op.Kind)

/-- The dispatch restricted to the calls `kindAgrees` admits: `none` when the
operation meets a record of another `Kind`, for which no result is given here. -/
def syncStepDefined (env : Env) (sync_data : Registry) (op : SyncOp) :
    Option (Registry × List SyncThreadNode) :=
  if kindAgrees sync_data op then some (syncStep env sync_data op) else none

/-- A sequence of operations as in `runSync`, `none` as soon as one of them meets a
record of another `Kind`. -/
def runSyncDefined :
    Registry → List (Env × SyncOp) → Option (Registry × List (ObjectKey × SyncThreadNode))
  | sync_data, [] => some (sync_data, [])
  | sync_data, (env, op) :: rest =>
    match syncStepDefined env sync_data op with
    | none => none
    | some r =>
      match runSyncDefined r.1 rest with
      | none => none
      | some r2 => some (r2.1, r.2.map (fun th => (op.key, th)) ++ r2.2)

/-- The record the creation code of `BarrierMsg`, of `SemaphoreMsg` and of
`CreateEventNode` builds from the store for the key of an operation: threshold,
initial value and auto_reset are slot 0, the signaled flag is slot 2. -/
def materializedRecord (env : Env) (op : SyncOp) : SyncNode :=
  match op.Kind with
  | SyncKind.Barrier =>
    { Kind := SyncKind.Barrier, data := toInt32 (env.get op.key 0), val := 0, waitlist := [] }
  | SyncKind.Semaphore =>
    { Kind := SyncKind.Semaphore, data := toInt32 (env.get op.key 0),
      val := toInt32 (env.get op.key 0), waitlist := [] }
  | SyncKind.Event =>
    { Kind := SyncKind.Event, data := toInt32 (env.get op.key 0),
      val := toInt32 (env.get op.key 2), waitlist := [] }

/-! ## Handshake

The byte streams of the control connection are lists of bytes (numbers below 256);
a host name is the list of the bytes of its `std::string`. -/

/-- The magic number `RC_MAGIC_MASTER`. -/
def RC_MAGIC_MASTER : Int := 305356511

/-- The magic number `RC_MAGIC_SLAVE`. -/
def RC_MAGIC_SLAVE : Int := 865406734

/-- The four bytes of a `uint32_t` in memory, in the byte order of the host
(little-endian; the cluster is homogeneous and no byte order is translated). -/
def enc32 (n : Nat) : List Nat :=
  [n % 256, n / 256 % 256, n / 65536 % 256, n / 16777216 % 256]

/-- The `uint32_t` stored in four bytes. -/
def dec32 : List Nat → Nat
  | [a, b, c, d] => a + 256 * b + 65536 * c + 16777216 * d
  | _ => 0

/-- Conversion of an `int` to `uint32_t`. -/
def toU32 (i : Int) : Nat := (i % 4294967296).toNat

/-- Modelled from the spec: `RcRecv(s, buf, n)` of `DogeeSocket.h`, which is not among
the sources. It blocks until `n` bytes have been transferred or an error occurs; the
result is the `n` bytes read and the rest of the stream, or `none` for a short read
(the stream ends before `n` bytes). -/
def RcRecv (stream : List Nat) (n : Nat) : Option (List Nat × List Nat) :=
  if n ≤ stream.length then some (stream.take n, stream.drop n) else none

/-- The struct `MasterInfo` (4-byte packing, eight 4-byte fields). Modelled from the
spec: `BackendType` and `CacheType` are declared outside the sources; the spec gives
both fields as `u32`. -/
structure MasterInfo where
  magic : Int
  num_mem_server : Nat
  num_nodes : Nat
  node_id : Nat
  localport : Int
  backty : Nat
  cachety : Nat
  checkpoint : Int
deriving DecidableEq, Repr

/-- The 32 bytes of a `MasterInfo` as `RcSend(s, &mi, sizeof(mi))` puts them on the
wire. -/
def MasterInfo.bytes (mi : MasterInfo) : List Nat :=
  enc32 (toU32 mi.magic) ++ enc32 mi.num_mem_server ++ enc32 mi.num_nodes ++
    enc32 mi.node_id ++ enc32 (toU32 mi.localport) ++ enc32 mi.backty ++ enc32 mi.cachety ++
    enc32 (toU32 mi.checkpoint)

/-- The `MasterInfo` that `RcRecv(s, &mi, sizeof(mi))` leaves in memory. -/
def MasterInfo.ofBytes (b : List Nat) : MasterInfo :=
  { magic := toInt32 (dec32 (b.take 4)),
    num_mem_server := dec32 ((b.drop 4).take 4),
    num_nodes := dec32 ((b.drop 8).take 4),
    node_id := dec32 ((b.drop 12).take 4),
    localport := toInt32 (dec32 ((b.drop 16).take 4)),
    backty := dec32 ((b.drop 20).take 4),
    cachety := dec32 ((b.drop 24).take 4),
    checkpoint := toInt32 (dec32 ((b.drop 28).take 4)) }

/-- The body of the two loops of `RcMasterHello` for one table entry: the bytes sent
(length field, `sendl` bytes of `c_str()`, port) and the host string as the loop
leaves it (a name of 255 bytes or more gets a NUL written at index 254). -/
def sendEntry (host : List Nat) (port : Int) : List Nat × List Nat :=
  let sendl := (host.length + 1) % 4294967296
  if sendl > 255 then
    let sendl := 255
    let host := host.set 254 0
    (enc32 sendl ++ (host ++ [0]).take sendl ++ enc32 (toU32 port), host)
  else
    (enc32 sendl ++ (host ++ [0]).take sendl ++ enc32 (toU32 port), host)

/-- A loop of `RcMasterHello` over the entries of a table, in index order: the bytes
sent and the host strings as the loop leaves them. An index past the end of `ports`
is undefined behaviour in the source; here it reads 0. -/
def sendTable : List (List Nat) → List Int → List Nat × List (List Nat)
  | [], _ => ([], [])
  | host :: hosts, ports =>
    let e := sendEntry host (ports.headD 0)
    let r := sendTable hosts ports.tail
    (e.1 ++ r.1, e.2 :: r.2)

/-- The function `RcMasterHello`: `fromSlave` is what the socket delivers to the
master; the result is the return code, the bytes sent, and the two host tables as
the call leaves them. -/
def RcMasterHello (fromSlave : List Nat) (hosts : List (List Nat)) (ports : List Int)
    (memhosts : List (List Nat)) (memports : List Int) (node_id backty cachety : Nat)
    (checkpoint : Int) : Nat × List Nat × List (List Nat) × List (List Nat) :=
  let mem_cnt := memhosts.length % 4294967296
  let host_cnt := hosts.length % 4294967296
  match RcRecv fromSlave 4 with
  | none => (1, [], hosts, memhosts)
  | some (si, _) =>
    if toInt32 (dec32 si) ≠ RC_MAGIC_SLAVE then (2, [], hosts, memhosts)
    else
      let mi : MasterInfo :=
        ⟨RC_MAGIC_MASTER, mem_cnt, host_cnt, node_id, ports.headD 0, backty, cachety, checkpoint⟩
      let t1 := sendTable ((hosts.take host_cnt).drop 1) (ports.drop 1)
      let t2 := sendTable (memhosts.take mem_cnt) memports
      (0, mi.bytes ++ t1.1 ++ t2.1, hosts.take 1 ++ t1.2 ++ hosts.drop host_cnt,
        t2.2 ++ memhosts.drop mem_cnt)

/-- The result of a receiving step: an error number (the value of `err` at the jump
to `ERR`) or a value. -/
inductive Recv (α : Type) where
  | error (err : Nat)
  | ok (a : α)
deriving DecidableEq, Repr

/-- The body of the two receive loops of `RcSlave` for one table entry. `buf` is the
255-byte buffer, which keeps what earlier entries left in it; the host is
`std::string(buf)`, the bytes of `buf` before its first NUL. The result is the entry,
the buffer and the rest of the stream. -/
def recvEntry (buf stream : List Nat) : Recv ((List Nat × Int) × List Nat × List Nat) :=
  match RcRecv stream 4 with
  | none => Recv.error 5
  | some (lenb, s1) =>
    let len := dec32 lenb
    if len > 255 then Recv.error 6
    else
      match RcRecv s1 len with
      | none => Recv.error 7
      | some (data, s2) =>
        let buf := data ++ buf.drop len
        match RcRecv s2 4 with
        | none => Recv.error 8
        | some (portb, s3) =>
          Recv.ok ((buf.takeWhile fun b => decide (b ≠ 0), toInt32 (dec32 portb)), buf, s3)

/-- A receive loop of `RcSlave` with `n` iterations. -/
def recvTable : Nat → List Nat → List Nat → Recv (List (List Nat × Int) × List Nat × List Nat)
  | 0, buf, stream => Recv.ok ([], buf, stream)
  | n + 1, buf, stream =>
    match recvEntry buf stream with
    | Recv.error e => Recv.error e
    | Recv.ok (entry, buf1, s1) =>
      match recvTable n buf1 s1 with
      | Recv.error e => Recv.error e
      | Recv.ok (entries, buf2, s2) => Recv.ok (entry :: entries, buf2, s2)

/-- What the handshake of `RcSlave` hands to `InitStorage` and to the slave loop. -/
structure SlaveTables where
  num_nodes : Nat
  node_id : Nat
  hosts : List (List Nat)
  ports : List Int
  memhosts : List (List Nat)
  memports : List Int
  backty : Nat
  cachety : Nat
  checkpoint : Int
deriving DecidableEq, Repr

/-- The bytes `RcSlave` sends first: its `SlaveInfo`. -/
def slaveHello : List Nat := enc32 (toU32 RC_MAGIC_SLAVE)

/-- The handshake of `RcSlave` after its `SlaveInfo` has been sent: `master` is the
address `get_peer_ip_port` reports for the connection, `buf0` the initial contents of
the buffer, `stream` what the socket delivers. Error 0 is a short or wrong
`MasterInfo`. -/
def RcSlaveHandshake (master buf0 stream : List Nat) : Recv SlaveTables :=
  match RcRecv stream 32 with
  | none => Recv.error 0
  | some (mib, s1) =>
    let mi := MasterInfo.ofBytes mib
    if mi.magic ≠ RC_MAGIC_MASTER then Recv.error 0
    else
      match recvTable (mi.num_nodes - 1) buf0 s1 with
      | Recv.error e => Recv.error e
      | Recv.ok (peers, buf1, s2) =>
        match recvTable mi.num_mem_server buf1 s2 with
        | Recv.error e => Recv.error e
        | Recv.ok (mems, _, _) =>
          Recv.ok
            { num_nodes := mi.num_nodes, node_id := mi.node_id,
              hosts := master :: peers.map (fun e => e.1),
              ports := mi.localport :: peers.map (fun e => e.2),
              memhosts := mems.map (fun e => e.1), memports := mems.map (fun e => e.2),
              backty := mi.backty, cachety := mi.cachety, checkpoint := mi.checkpoint }

/-- The address tables of a handshake result: number of nodes, hosts, ports, memory
server hosts and ports. -/
def Recv.tables : Recv SlaveTables →
    Recv (Nat × List (List Nat) × List Int × List (List Nat) × List Int)
  | Recv.error e => Recv.error e
  | Recv.ok t => Recv.ok (t.num_nodes, t.hosts, t.ports, t.memhosts, t.memports)

/-- The host name a receive step of the handshake decoded, if the step succeeded. -/
def decodedHost : Recv ((List Nat × Int) × List Nat × List Nat) → Option (List Nat)
  | Recv.error _ => none
  | Recv.ok r => some r.1.1

/-! ## Command packets, remote thread creation and the slave loop -/

/-- Modelled from the spec: the struct `RcCommandPack` is declared outside the sources;
the spec gives `{u32 cmd; u32 param; u32 param2; u64 param3; u32 param4}` with 4-byte
packing, 24 bytes in all. -/
structure RcCommandPack where
  cmd : Nat
  param : Nat
  param2 : Nat
  param3 : Nat
  param4 : Nat
deriving DecidableEq, Repr

/-- The command code `RcCmdClose`. -/
def RcCmdClose : Nat := 1

/-- The command code `RcCmdCreateThread`. -/
def RcCmdCreateThread : Nat := 2

/-- The command code `RcCmdWakeSync`. -/
def RcCmdWakeSync : Nat := 8

/-- The command code `RcCmdAlive`. -/
def RcCmdAlive : Nat := 15

/-- The command code `RcCmdRestart`. -/
def RcCmdRestart : Nat := 16

/-- The eight bytes of a `uint64_t` in memory (little-endian). -/
def enc64 (n : Nat) : List Nat := enc32 (n % 4294967296) ++ enc32 (n / 4294967296)

/-- The `uint64_t` stored in eight bytes. -/
def dec64 (b : List Nat) : Nat := dec32 (b.take 4) + 4294967296 * dec32 (b.drop 4)

/-- The 24 bytes of a command packet on the wire. -/
def RcCommandPack.bytes (c : RcCommandPack) : List Nat :=
  enc32 c.cmd ++ enc32 c.param ++ enc32 c.param2 ++ enc64 c.param3 ++ enc32 c.param4

/-- The command packet that `RcRecv(s, &cmd, sizeof(cmd))` leaves in memory. -/
def RcCommandPack.ofBytes (b : List Nat) : RcCommandPack :=
  { cmd := dec32 (b.take 4),
    param := dec32 ((b.drop 4).take 4),
    param2 := dec32 ((b.drop 8).take 4),
    param3 := dec64 ((b.drop 12).take 8),
    param4 := dec32 ((b.drop 20).take 4) }

/-- `RcCreateThread(node_id, idx, param, okey)`, the form without payload: the bytes
sent on the connection of the node. `idx` and `param` pass through an `int`. -/
def RcCreateThread (idx param okey : Nat) : List Nat :=
  (⟨RcCmdCreateThread, toU32 (toInt32 idx), toU32 (toInt32 param), okey, 0⟩ :
    RcCommandPack).bytes

/-- `RcCreateThread(node_id, idx, param, okey, data, len)`, the form with payload:
the bytes sent in one `RcSend`, header and the first `len` bytes of `data`; `none`
when `assert(len <= 2048)` fails. -/
def RcCreateThreadData (idx param okey : Nat) (data : List Nat) (len : Nat) :
    Option (List Nat) :=
  if len ≤ 2048 then
    some ((⟨RcCmdCreateThread, toU32 (toInt32 idx), toU32 (toInt32 param), okey, len⟩ :
      RcCommandPack).bytes ++ data.take len)
  else none

/-- What the slave loop does for a command: the calls it makes, with the arguments
the callee receives. `ThThreadEntry(int thread_id, int index, uint32_t param,
ObjectKey okey)`, `ThThreadEntryObject` (the same with `char* data`, the owned copy
of the payload) and `RcSetRemoteEvent(int local_thread_id)` take the `uint32_t`
field `cmd.param` as an `int`. The constant first argument `0` of the two thread
entries is left out. -/
inductive SlaveAction where
  | ThThreadEntry (index : Int) (param okey : Nat)
  | ThThreadEntryObject (index : Int) (param okey : Nat) (data : List Nat)
  | RcSetRemoteEvent (local_thread_id : Int)
  | RcSend (cmd : RcCommandPack)
  | RestartCurrentProcess
deriving DecidableEq, Repr

/-- How the slave loop ends: by a `Close` command, by a short read of a command
header, or (in the model only) by running out of fuel. -/
inductive LoopExit where
  | close
  | socketError
  | fuel
deriving DecidableEq, Repr

/-- A run of the slave loop: the calls made, in order, and the way it ended. -/
structure SlaveRun where
  actions : List SlaveAction
  exit : LoopExit
deriving DecidableEq, Repr

/-- A run that starts with one more call. -/
def SlaveRun.after (a : SlaveAction) (r : SlaveRun) : SlaveRun :=
  { actions := a :: r.actions, exit := r.exit }

/-- The loop `for (;;)` of `RcSlaveMainLoop` on the bytes the control socket delivers;
every iteration takes a header of 24 bytes, so a fuel above the length of the stream
is never used up. A short read of a payload leaves the `switch` only; the connection
has ended then and nothing more can be received. An oversized `param4` leaves the
`switch` before the payload is read. `RestartCurrentProcess` is followed by `break`,
so the loop goes on if that call returns. -/
def slaveLoop : Nat → List Nat → SlaveRun
  | 0, _ => ⟨[], LoopExit.fuel⟩
  | fuel + 1, stream =>
    match RcRecv stream 24 with
    | none => ⟨[], LoopExit.socketError⟩
    | some (hdr, s1) =>
      let cmd := RcCommandPack.ofBytes hdr
      if cmd.cmd = RcCmdClose then ⟨[], LoopExit.close⟩
      else if cmd.cmd = RcCmdCreateThread then
        if cmd.param4 ≠ 0 then
          if cmd.param4 > 2048 then slaveLoop fuel s1
          else
            match RcRecv s1 cmd.param4 with
            | none => slaveLoop fuel []
            | some (data, s2) =>
              (slaveLoop fuel s2).after
                (SlaveAction.ThThreadEntryObject (toInt32 cmd.param) cmd.param2 cmd.param3
                  data)
        else
          (slaveLoop fuel s1).after
            (SlaveAction.ThThreadEntry (toInt32 cmd.param) cmd.param2 cmd.param3)
      else if cmd.cmd = RcCmdWakeSync then
        (slaveLoop fuel s1).after (SlaveAction.RcSetRemoteEvent (toInt32 cmd.param))
      else if cmd.cmd = RcCmdAlive then (slaveLoop fuel s1).after (SlaveAction.RcSend cmd)
      else if cmd.cmd = RcCmdRestart then
        (slaveLoop fuel s1).after SlaveAction.RestartCurrentProcess
      else slaveLoop fuel s1

/-- `RcSlaveMainLoop` from its first receive on. -/
def RcSlaveMainLoop (stream : List Nat) : SlaveRun :=
  slaveLoop (stream.length + 1) stream

/-- The handshake of `RcSlave` as `RcSlaveHandshake`, together with the bytes of the
stream that it has not read. -/
def RcSlaveHandshakeStream (master buf0 stream : List Nat) : Recv (SlaveTables × List Nat) :=
  match RcRecv stream 32 with
  | none => Recv.error 0
  | some (mib, s1) =>
    let mi := MasterInfo.ofBytes mib
    if mi.magic ≠ RC_MAGIC_MASTER then Recv.error 0
    else
      match recvTable (mi.num_nodes - 1) buf0 s1 with
      | Recv.error e => Recv.error e
      | Recv.ok (peers, buf1, s2) =>
        match recvTable mi.num_mem_server buf1 s2 with
        | Recv.error e => Recv.error e
        | Recv.ok (mems, _, s3) =>
          Recv.ok
            ({ num_nodes := mi.num_nodes, node_id := mi.node_id,
               hosts := master :: peers.map (fun e => e.1),
               ports := mi.localport :: peers.map (fun e => e.2),
               memhosts := mems.map (fun e => e.1), memports := mems.map (fun e => e.2),
               backty := mi.backty, cachety := mi.cachety, checkpoint := mi.checkpoint }, s3)

/-- `RcSlave` from the handshake on. `dataReady` is the outcome of the data-socket
initialization (`AcSlaveInitDataConnections` and `AcWaitForReady`). The result is
the run of the slave loop, or `none` when the loop is skipped (the jump to `ERR`). -/
def RcSlave (master buf0 : List Nat) (dataReady : Bool) (stream : List Nat) :
    Option SlaveRun :=
  match RcSlaveHandshakeStream master buf0 stream with
  | Recv.error _ => none
  | Recv.ok (_, rest) => if dataReady then some (RcSlaveMainLoop rest) else none

/-! ## Restart -/

/-- What one call of `RestartCluster` does: the value of `restart_lock` it leaves,
the nodes on whose socket it called `RcSend` with the `Restart` packet (in order),
its two exclusion lists as it leaves them, and the arguments of
`RestartCurrentProcess` when it invokes it. -/
structure RestartOutcome where
  restart_lock : Int
  sent : List Nat
  excludes_ip : List (List Nat)
  excludes_ports : List Int
  restarted : Option (List (List Nat) × List Int)
deriving DecidableEq, Repr

/-- The loop `for (i = 1; i < num_nodes; i++)` of `RestartCluster` over the nodes
given: a node whose `RcSend` fails has its host and port pushed on the exclusion
lists. An index past the end of the tables is undefined behaviour in the source;
here it reads the empty name and port 0. -/
def restartSendLoop (hosts : List (List Nat)) (ports : List Int) (sendFails : Nat → Bool) :
    List Nat → List (List Nat) → List Int → List (List Nat) × List Int
  | [], excludes_ip, excludes_ports => (excludes_ip, excludes_ports)
  | i :: rest, excludes_ip, excludes_ports =>
    if sendFails i then
      restartSendLoop hosts ports sendFails rest (excludes_ip ++ [hosts.getD i []])
        (excludes_ports ++ [ports.getD i 0])
    else restartSendLoop hosts ports sendFails rest excludes_ip excludes_ports

/-- `RestartCluster(excludes_ip, excludes_ports)`: `hosts`, `ports` are the tables of
`MasterZone`, `num_nodes` is `DogeeEnv::num_nodes`, `sendFails i` tells whether
`RcSend` on the socket of node `i` returns `SOCKET_ERROR`, `restart_lock` is the value
of the atomic before the call. -/
def RestartCluster (hosts : List (List Nat)) (ports : List Int) (num_nodes : Nat)
    (sendFails : Nat → Bool) (restart_lock : Int) (excludes_ip : List (List Nat))
    (excludes_ports : List Int) : RestartOutcome :=
  let old := restart_lock
  if old = 1 then
    { restart_lock := 1, sent := [], excludes_ip := excludes_ip,
      excludes_ports := excludes_ports, restarted := none }
  else
    let ex := restartSendLoop hosts ports sendFails (List.range' 1 (num_nodes - 1))
      excludes_ip excludes_ports
    { restart_lock := 1, sent := List.range' 1 (num_nodes - 1), excludes_ip := ex.1,
      excludes_ports := ex.2, restarted := some ex }

/-- A sequence of `RestartCluster` calls in one process, in the order of their
atomic exchanges on `restart_lock`; every call comes with the send failures it meets
and with its own exclusion lists. -/
def runRestart (hosts : List (List Nat)) (ports : List Int) (num_nodes : Nat) :
    Int → List ((Nat → Bool) × List (List Nat) × List Int) → List RestartOutcome
  | _, [] => []
  | restart_lock, c :: rest =>
    let o := RestartCluster hosts ports num_nodes c.1 restart_lock c.2.1 c.2.2
    o :: runRestart hosts ports num_nodes o.restart_lock rest

/-! ## Theorems -/

theorem wakeWaitlist_eq (trace l : List SyncThreadNode) : wakeWaitlist trace l = trace ++ l := by
  induction l generalizing trace with
  | nil => simp [wakeWaitlist]
  | cons th rest ih => simp [wakeWaitlist, ih, RcWakeRemoteThread]

theorem wrap32_of_range (i : Int) (h1 : -2147483648 ≤ i) (h2 : i < 2147483648) :
    wrap32 i = i := by
  unfold wrap32; omega

theorem toInt32_of_lt (w : Nat) (h : w < 2147483648) : toInt32 w = (w : Int) := by
  unfold toInt32; split <;> omega

/-! ### Barrier -/

theorem BarrierMsg_present (env : Env) (reg : Registry) (src : Int) (key : ObjectKey)
    (tid : Int) (n : SyncNode) (h : reg key = some n) :
    BarrierMsg env reg src key tid =
      if wrap32 (n.val + 1) ≥ n.data then
        (Function.update reg key (some { n with val := 0, waitlist := [] }),
          (⟨src, tid⟩ : SyncThreadNode) :: n.waitlist)
      else
        (Function.update reg key
          (some { n with val := wrap32 (n.val + 1), waitlist := n.waitlist ++ [⟨src, tid⟩] }), []) := by
  simp only [BarrierMsg, h, wakeWaitlist_eq, RcWakeRemoteThread]
  split <;> simp

theorem BarrierMsg_absent (env : Env) (reg : Registry) (src : Int) (key : ObjectKey)
    (tid : Int) (h : reg key = none) :
    BarrierMsg env reg src key tid =
      BarrierMsg env (Function.update reg key (some (barrierRecord env reg key))) src key tid := by
  simp [BarrierMsg, barrierRecord, h]

/-- C1: `BarrierMsg(src, key, tid)` increments the count of the record it works on
(the record under the key, or the freshly materialized one). If the incremented
count reaches the threshold, the count is reset to 0, the wake trace is the caller
followed by the waitlist in insertion order and the waitlist is emptied; otherwise
the caller is appended at the end of the waitlist and the trace is empty. The
increment is the 32-bit one, which is `+ 1` for every count below `INT_MAX`. -/
theorem BarrierMsg_contract (env : Env) (sync_data : Registry) (src : Int) (b_id : ObjectKey)
    (thread_id : Int) :
    (-2147483648 ≤ (barrierRecord env sync_data b_id).val →
      (barrierRecord env sync_data b_id).val < 2147483647 →
      wrap32 ((barrierRecord env sync_data b_id).val + 1) =
        (barrierRecord env sync_data b_id).val + 1) ∧
    (wrap32 ((barrierRecord env sync_data b_id).val + 1) ≥ (barrierRecord env sync_data b_id).data →
      (BarrierMsg env sync_data src b_id thread_id).1 b_id =
        some { barrierRecord env sync_data b_id with val := 0, waitlist := [] } ∧
      (BarrierMsg env sync_data src b_id thread_id).2 =
        ⟨src, thread_id⟩ :: (barrierRecord env sync_data b_id).waitlist) ∧
    (wrap32 ((barrierRecord env sync_data b_id).val + 1) < (barrierRecord env sync_data b_id).data →
      (BarrierMsg env sync_data src b_id thread_id).1 b_id =
        some { barrierRecord env sync_data b_id with
                val := wrap32 ((barrierRecord env sync_data b_id).val + 1),
                waitlist := (barrierRecord env sync_data b_id).waitlist ++ [⟨src, thread_id⟩] } ∧
      (BarrierMsg env sync_data src b_id thread_id).2 = []) := by
  refine ⟨fun h1 h2 => wrap32_of_range _ (by omega) (by omega), ?_, ?_⟩
  · intro hge
    cases h : sync_data b_id with
    | none =>
      rw [BarrierMsg_absent env sync_data src b_id thread_id h,
        BarrierMsg_present env _ src b_id thread_id (barrierRecord env sync_data b_id) (by simp)]
      simp [hge]
    | some n =>
      have hn : barrierRecord env sync_data b_id = n := by simp [barrierRecord, h]
      rw [hn] at hge ⊢
      rw [BarrierMsg_present env _ src b_id thread_id n h]
      simp [hge]
  · intro hlt
    cases h : sync_data b_id with
    | none =>
      rw [BarrierMsg_absent env sync_data src b_id thread_id h,
        BarrierMsg_present env _ src b_id thread_id (barrierRecord env sync_data b_id) (by simp)]
      simp [not_le.mpr hlt]
    | some n =>
      have hn : barrierRecord env sync_data b_id = n := by simp [barrierRecord, h]
      rw [hn] at hlt ⊢
      rw [BarrierMsg_present env _ src b_id thread_id n h]
      simp [not_le.mpr hlt]

/-- C1, at a fresh key with threshold 2: the first arrival is put on the waitlist. -/
theorem BarrierMsg_contract_witness :
    (BarrierMsg (constEnv 2) emptyRegistry 0 7 1).1 7 =
        some ⟨SyncKind.Barrier, 1, 2, [⟨0, 1⟩]⟩ ∧
      (BarrierMsg (constEnv 2) emptyRegistry 0 7 1).2 = [] :=
  (BarrierMsg_contract (constEnv 2) emptyRegistry 0 7 1).2.2 (by decide)

theorem runBarrier_append (env : Env) (key : ObjectKey) (reg : Registry)
    (l1 l2 : List SyncThreadNode) :
    runBarrier env key reg (l1 ++ l2) =
      ((runBarrier env key (runBarrier env key reg l1).1 l2).1,
        (runBarrier env key reg l1).2 ++ (runBarrier env key (runBarrier env key reg l1).1 l2).2) := by
  induction l1 generalizing reg with
  | nil => simp [runBarrier]
  | cons th rest ih => simp [runBarrier, ih, List.append_assoc]

/-- Arrivals that do not complete a group pile up on the waitlist and wake nobody. -/
theorem runBarrier_short (env : Env) (key : ObjectKey) (K : SyncKind) (k : Nat)
    (hk : k < 2147483648) (c : List SyncThreadNode) :
    ∀ (reg : Registry) (w : List SyncThreadNode),
      reg key = some ⟨K, (w.length : Int), (k : Int), w⟩ → w.length + c.length < k →
      (runBarrier env key reg c).1 key =
          some ⟨K, ((w ++ c).length : Int), (k : Int), w ++ c⟩ ∧
        (runBarrier env key reg c).2 = [] := by
  induction c with
  | nil => intro reg w h _; simpa [runBarrier] using h
  | cons th rest ih =>
    intro reg w h hlen
    simp only [List.length_cons] at hlen
    have hw : wrap32 ((w.length : Int) + 1) = (w.length : Int) + 1 :=
      wrap32_of_range _ (by omega) (by omega)
    have hstep := BarrierMsg_present env reg th.machine key th.thread_id _ h
    simp only [hw] at hstep
    rw [if_neg (by simp only [ge_iff_le, not_le]; omega)] at hstep
    have h2 := ih (BarrierMsg env reg th.machine key th.thread_id).1 (w ++ [th])
      (by rw [hstep]; simp) (by simp; omega)
    simp only [runBarrier, hstep, List.nil_append]
    rw [hstep] at h2
    simpa using h2

/-- A full group of `k` arrivals at an idle barrier: the last one trips it, the
trace is the last arrival followed by the others, and the barrier is idle again. -/
theorem runBarrier_trip (env : Env) (key : ObjectKey) (K : SyncKind) (k : Nat)
    (hk : k < 2147483648) (reg : Registry) (t : List SyncThreadNode) (x : SyncThreadNode)
    (h : reg key = some ⟨K, 0, (k : Int), []⟩) (hg : t.length + 1 = k) :
    (runBarrier env key reg (t ++ [x])).1 key = some ⟨K, 0, (k : Int), []⟩ ∧
      (runBarrier env key reg (t ++ [x])).2 = x :: t := by
  have hshort := runBarrier_short env key K k hk t reg []
    (by simpa using h) (by simp; omega)
  simp only [List.nil_append] at hshort
  have hlen : (t.length : Int) = (k : Int) - 1 := by omega
  rw [hlen] at hshort
  have hw : wrap32 ((k : Int) - 1 + 1) = (k : Int) := by
    rw [wrap32_of_range _ (by omega) (by omega)]; omega
  have hstep := BarrierMsg_present env (runBarrier env key reg t).1
    x.machine key x.thread_id _ hshort.1
  simp only [hw, ge_iff_le, le_refl, if_true] at hstep
  rw [runBarrier_append]
  simp [runBarrier, hstep, hshort.2]

theorem runBarrier_group (env : Env) (key : ObjectKey) (K : SyncKind) (k : Nat)
    (hk1 : 1 ≤ k) (hk : k < 2147483648) (reg : Registry) (g : List SyncThreadNode)
    (h : reg key = some ⟨K, 0, (k : Int), []⟩) (hg : g.length = k) :
    (runBarrier env key reg g).1 key = some ⟨K, 0, (k : Int), []⟩ ∧
      (runBarrier env key reg g).2 = g.drop (k - 1) ++ g.take (k - 1) := by
  obtain ⟨x, hx⟩ : ∃ x, g.drop (k - 1) = [x] := by
    have hl : (g.drop (k - 1)).length = 1 := by simp [hg]; omega
    match hd : g.drop (k - 1), hl with
    | [x], _ => exact ⟨x, rfl⟩
  have hsplit : g = g.take (k - 1) ++ [x] := by
    rw [← hx]; exact (List.take_append_drop _ _).symm
  have ht : (g.take (k - 1)).length + 1 = k := by simp [hg]; omega
  have := runBarrier_trip env key K k hk reg (g.take (k - 1)) x h ht
  rw [← hsplit] at this
  rw [hx]
  simpa using this

theorem arrivalGroup_zero (k : Nat) (l : List SyncThreadNode) :
    arrivalGroup k l 0 = l.take k := by
  simp [arrivalGroup]

theorem arrivalGroup_succ (k : Nat) (l : List SyncThreadNode) (i : Nat) :
    arrivalGroup k l (i + 1) = arrivalGroup k (l.drop k) i := by
  simp [arrivalGroup, List.drop_drop, Nat.succ_mul, Nat.add_comm]

/-- Unfolding of `tripOrder` at the first full group. -/
theorem tripOrder_step (k : Nat) (hk1 : 1 ≤ k) (l : List SyncThreadNode) (h : k ≤ l.length) :
    tripOrder k l =
      ((l.take k).drop (k - 1) ++ (l.take k).take (k - 1)) ++ tripOrder k (l.drop k) := by
  have hdiv : l.length / k = (l.drop k).length / k + 1 := by
    rw [List.length_drop, ← Nat.sub_add_cancel h]
    simp [Nat.add_div_right _ (by omega : 0 < k)]
  unfold tripOrder
  rw [hdiv, List.range_succ_eq_map]
  simp [List.flatMap_cons, arrivalGroup_zero, arrivalGroup_succ, List.flatMap_map]

theorem tripOrder_short (k : Nat) (l : List SyncThreadNode) (h : l.length < k) :
    tripOrder k l = [] := by
  simp [tripOrder, Nat.div_eq_of_lt h]

theorem tripOrder_length (k : Nat) (hk1 : 1 ≤ k) :
    ∀ (n : Nat) (l : List SyncThreadNode), l.length ≤ n →
      (tripOrder k l).length = k * (l.length / k) := by
  intro n
  induction n with
  | zero =>
    intro l hl
    have : l.length < k := by omega
    simp [tripOrder_short k l this, Nat.div_eq_of_lt this]
  | succ n ih =>
    intro l hl
    by_cases hlt : l.length < k
    · simp [tripOrder_short k l hlt, Nat.div_eq_of_lt hlt]
    · have hge : k ≤ l.length := by omega
      have hdiv : l.length / k = (l.drop k).length / k + 1 := by
        rw [List.length_drop, ← Nat.sub_add_cancel hge]
        simp [Nat.add_div_right _ (by omega : 0 < k)]
      rw [tripOrder_step k hk1 l hge, List.length_append, ih (l.drop k) (by simp; omega), hdiv]
      have h1 : ((l.take k).drop (k - 1) ++ (l.take k).take (k - 1)).length = k := by
        simp; omega
      rw [h1, Nat.mul_add]; omega

theorem runBarrier_tripOrder (env : Env) (key : ObjectKey) (K : SyncKind) (k : Nat)
    (hk1 : 1 ≤ k) (hk : k < 2147483648) :
    ∀ (n : Nat) (l : List SyncThreadNode) (reg : Registry), l.length ≤ n →
      reg key = some ⟨K, 0, (k : Int), []⟩ →
      (runBarrier env key reg l).2 = tripOrder k l := by
  intro n
  induction n with
  | zero =>
    intro l reg hl h
    have : l.length < k := by omega
    rw [tripOrder_short k l this]
    exact (runBarrier_short env key K k hk l reg [] (by simpa using h) (by simpa using this)).2
  | succ n ih =>
    intro l reg hl h
    by_cases hlt : l.length < k
    · rw [tripOrder_short k l hlt]
      exact (runBarrier_short env key K k hk l reg [] (by simpa using h) (by simpa using hlt)).2
    · have hge : k ≤ l.length := by omega
      have hg := runBarrier_group env key K k hk1 hk reg (l.take k) h (by simp; omega)
      have hrest := ih (l.drop k) (runBarrier env key reg (l.take k)).1 (by simp; omega) hg.1
      rw [tripOrder_step k hk1 l hge, ← hrest, ← hg.2]
      conv_lhs => rw [← List.take_append_drop k l, runBarrier_append]

/-- C2, counterexample: with threshold 2, three arrivals wake two threads, not
three; and two arrivals are woken last arrival first, not in arrival order. -/
theorem barrier_trip_count_counterexample :
    (runBarrier (constEnv 2) 7 emptyRegistry [⟨0, 1⟩, ⟨1, 2⟩, ⟨1, 3⟩]).2.length ≠ 3 ∧
      (runBarrier (constEnv 2) 7 emptyRegistry [⟨0, 1⟩, ⟨1, 2⟩]).2 ≠ [⟨0, 1⟩, ⟨1, 2⟩] := by
  decide

/-- The record after a run of arrivals at an idle barrier: the count is the size of
the incomplete last group, and the waitlist holds that group in arrival order. -/
theorem runBarrier_waitlist (env : Env) (key : ObjectKey) (K : SyncKind) (k : Nat)
    (hk1 : 1 ≤ k) (hk : k < 2147483648) :
    ∀ (n : Nat) (l : List SyncThreadNode) (reg : Registry), l.length ≤ n →
      reg key = some ⟨K, 0, (k : Int), []⟩ →
      (runBarrier env key reg l).1 key =
        some ⟨K, ((l.length % k : Nat) : Int), (k : Int), l.drop (k * (l.length / k))⟩ := by
  intro n
  induction n with
  | zero =>
    intro l reg hl h
    have hlt : l.length < k := by omega
    have := (runBarrier_short env key K k hk l reg [] (by simpa using h) (by simpa using hlt)).1
    rw [this, Nat.mod_eq_of_lt hlt, Nat.div_eq_of_lt hlt]
    simp
  | succ n ih =>
    intro l reg hl h
    by_cases hlt : l.length < k
    · have := (runBarrier_short env key K k hk l reg [] (by simpa using h)
        (by simpa using hlt)).1
      rw [this, Nat.mod_eq_of_lt hlt, Nat.div_eq_of_lt hlt]
      simp
    · have hge : k ≤ l.length := by omega
      have hg := runBarrier_group env key K k hk1 hk reg (l.take k) h (by simp; omega)
      have hrest := ih (l.drop k) (runBarrier env key reg (l.take k)).1 (by simp; omega) hg.1
      have hsplit : (runBarrier env key reg l).1 =
          (runBarrier env key (runBarrier env key reg (l.take k)).1 (l.drop k)).1 := by
        conv_lhs => rw [← List.take_append_drop k l, runBarrier_append]
      have hdiv : l.length / k = (l.length - k) / k + 1 := by
        conv_lhs => rw [← Nat.sub_add_cancel hge]
        exact Nat.add_div_right _ (by omega)
      have hmod : (l.length - k) % k = l.length % k := by
        conv_rhs => rw [← Nat.sub_add_cancel hge]
        exact (Nat.add_mod_right _ _).symm
      rw [hsplit, hrest, List.length_drop, hmod, List.drop_drop, hdiv]
      congr 3
      ring

/-- C2, amended: for a sequence of `N` `BarrierMsg` calls on a previously unused key
whose store slot 0 holds `k` with `1 ≤ k < 2^31`, the wake trace is the arrival
sequence cut into its `N / k` full groups of `k`, each group woken with its last
arrival (the caller that trips the barrier) first and the other `k - 1` behind it in
arrival order; `k * (N / k)` threads are woken, which is all `N` exactly when `k`
divides `N`; the arrivals of an incomplete last group stay on the waitlist: after
the sequence the waitlist is the last `N mod k` arrivals, in arrival order, and the
count of the record is `N mod k`. -/
theorem barrier_trip_order (env : Env) (sync_data : Registry) (b_id : ObjectKey) (k : Nat)
    (arrivals : List SyncThreadNode) (habs : sync_data b_id = none)
    (hslot : env.get b_id 0 = k) (hk1 : 1 ≤ k) (hk : k < 2147483648) :
    (runBarrier env b_id sync_data arrivals).2 = tripOrder k arrivals ∧
      (runBarrier env b_id sync_data arrivals).2.length = k * (arrivals.length / k) ∧
      ((runBarrier env b_id sync_data arrivals).2.length = arrivals.length ↔
        k ∣ arrivals.length) ∧
      waitset (runBarrier env b_id sync_data arrivals).1 b_id =
        arrivals.drop (k * (arrivals.length / k)) ∧
      (waitset (runBarrier env b_id sync_data arrivals).1 b_id).length = arrivals.length % k ∧
      (arrivals ≠ [] →
        (runBarrier env b_id sync_data arrivals).1 b_id =
          some ⟨SyncKind.Barrier, ((arrivals.length % k : Nat) : Int), (k : Int),
            arrivals.drop (k * (arrivals.length / k))⟩) := by
  have h0 : ∀ th rest, runBarrier env b_id sync_data (th :: rest) =
      runBarrier env b_id (Function.update sync_data b_id
        (some ⟨SyncKind.Barrier, 0, (k : Int), []⟩)) (th :: rest) := by
    intro th rest
    have hrec : barrierRecord env sync_data b_id = ⟨SyncKind.Barrier, 0, (k : Int), []⟩ := by
      simp [barrierRecord, habs, hslot, toInt32_of_lt k hk]
    simp only [runBarrier]
    rw [BarrierMsg_absent env sync_data th.machine b_id th.thread_id habs, hrec]
  have key : (runBarrier env b_id sync_data arrivals).2 = tripOrder k arrivals := by
    cases arrivals with
    | nil => simp [runBarrier, tripOrder]
    | cons th rest =>
      rw [h0]
      exact runBarrier_tripOrder env b_id SyncKind.Barrier k hk1 hk _ _ _ (le_refl _) (by simp)
  have hrecord : arrivals ≠ [] →
      (runBarrier env b_id sync_data arrivals).1 b_id =
        some ⟨SyncKind.Barrier, ((arrivals.length % k : Nat) : Int), (k : Int),
          arrivals.drop (k * (arrivals.length / k))⟩ := by
    intro hne
    cases arrivals with
    | nil => exact absurd rfl hne
    | cons th rest =>
      rw [h0]
      exact runBarrier_waitlist env b_id SyncKind.Barrier k hk1 hk _ _ _ (le_refl _) (by simp)
  have hwait : waitset (runBarrier env b_id sync_data arrivals).1 b_id =
      arrivals.drop (k * (arrivals.length / k)) := by
    by_cases hne : arrivals = []
    · subst hne
      simp [runBarrier, waitset, habs]
    · simp only [waitset]
      rw [hrecord hne]
  refine ⟨key, ?_, ?_, hwait, ?_, hrecord⟩
  · rw [key]; exact tripOrder_length k hk1 _ _ (le_refl _)
  · rw [key, tripOrder_length k hk1 _ _ (le_refl _)]
    constructor
    · intro h; exact ⟨arrivals.length / k, h.symm⟩
    · intro h; exact Nat.mul_div_cancel' h
  · rw [hwait, List.length_drop]
    have := Nat.div_add_mod arrivals.length k
    omega

/-- C2, amended, at threshold 3 and seven arrivals: two groups are woken, the
seventh arrival waits on the waitlist. -/
theorem barrier_trip_order_witness :
    (runBarrier (constEnv 3) 7 emptyRegistry
        [⟨0, 1⟩, ⟨1, 2⟩, ⟨1, 3⟩, ⟨1, 4⟩, ⟨1, 5⟩, ⟨1, 6⟩, ⟨1, 7⟩]).2 =
      [⟨1, 3⟩, ⟨0, 1⟩, ⟨1, 2⟩, ⟨1, 6⟩, ⟨1, 4⟩, ⟨1, 5⟩] ∧
    waitset (runBarrier (constEnv 3) 7 emptyRegistry
        [⟨0, 1⟩, ⟨1, 2⟩, ⟨1, 3⟩, ⟨1, 4⟩, ⟨1, 5⟩, ⟨1, 6⟩, ⟨1, 7⟩]).1 7 = [⟨1, 7⟩] := by
  have h := barrier_trip_order (constEnv 3) emptyRegistry 7 3
    [⟨0, 1⟩, ⟨1, 2⟩, ⟨1, 3⟩, ⟨1, 4⟩, ⟨1, 5⟩, ⟨1, 6⟩, ⟨1, 7⟩] rfl rfl (by decide) (by decide)
  exact ⟨h.1.trans (by decide), h.2.2.2.1.trans (by decide)⟩

/-! ### Semaphore: one call -/

theorem SemaphoreMsg_eq (env : Env) (reg : Registry) (src : Int) (key : ObjectKey) (tid : Int) :
    SemaphoreMsg env reg src key tid =
      if wrap32 ((semaphoreRecord env reg key).val - 1) ≥ 0 then
        (Function.update reg key
          (some { semaphoreRecord env reg key with
                  val := wrap32 ((semaphoreRecord env reg key).val - 1) }),
          [(⟨src, tid⟩ : SyncThreadNode)])
      else
        (Function.update reg key
          (some { semaphoreRecord env reg key with
                  val := wrap32 ((semaphoreRecord env reg key).val - 1),
                  waitlist := (semaphoreRecord env reg key).waitlist ++ [⟨src, tid⟩] }), []) := by
  simp only [SemaphoreMsg, semaphoreRecord, RcWakeRemoteThread, SyncNode.waitqueue]
  cases reg key <;> simp

theorem SemaphoreLeaveMsg_present (env : Env) (reg : Registry) (src : Int) (key : ObjectKey)
    (tid : Int) (n : SyncNode) (h : reg key = some n) :
    SemaphoreLeaveMsg env reg src key tid =
      if wrap32 (n.val + 1) ≥ 0 then
        (Function.update reg key
          (some { n with val := wrap32 (n.val + 1), waitlist := n.waitlist.tail }),
          n.waitlist.take 1)
      else
        (Function.update reg key (some { n with val := wrap32 (n.val + 1) }), []) := by
  simp only [SemaphoreLeaveMsg, h, RcWakeRemoteThread]
  split
  · cases hq : n.waitlist <;> simp [hq]
  · simp

theorem SemaphoreLeaveMsg_absent (env : Env) (reg : Registry) (src : Int) (key : ObjectKey)
    (tid : Int) (h : reg key = none) :
    SemaphoreLeaveMsg env reg src key tid =
      SemaphoreLeaveMsg env (Function.update reg key
        (some ⟨SyncKind.Semaphore, toInt32 (env.deref (env.get key 0)),
          toInt32 (env.deref (env.get key 0)), []⟩)) src key tid := by
  simp [SemaphoreLeaveMsg, h]

theorem toInt32_range (w : Nat) : -2147483648 ≤ toInt32 w ∧ toInt32 w < 2147483648 := by
  unfold toInt32; split <;> omega

/-- C3: `SemaphoreMsg(src, key, tid)`. On an absent key the record is materialized
with value = initial = store slot 0 read as a signed 32-bit integer and an empty
queue; on a present key the record found is used. The value is then decremented; if
the decremented value is `≥ 0` the trace is exactly the caller and the queue is
unchanged, otherwise the trace is empty and the caller is appended at the tail of
the queue. The decrement is the 32-bit one, which is `- 1` above `INT_MIN`. -/
theorem SemaphoreMsg_contract (env : Env) (sync_data : Registry) (src : Int) (b_id : ObjectKey)
    (thread_id : Int) :
    (sync_data b_id = none →
      semaphoreRecord env sync_data b_id =
        ⟨SyncKind.Semaphore, toInt32 (env.get b_id 0), toInt32 (env.get b_id 0), []⟩) ∧
    (∀ n, sync_data b_id = some n → semaphoreRecord env sync_data b_id = n) ∧
    (-2147483648 < (semaphoreRecord env sync_data b_id).val →
      (semaphoreRecord env sync_data b_id).val < 2147483648 →
      wrap32 ((semaphoreRecord env sync_data b_id).val - 1) =
        (semaphoreRecord env sync_data b_id).val - 1) ∧
    (wrap32 ((semaphoreRecord env sync_data b_id).val - 1) ≥ 0 →
      (SemaphoreMsg env sync_data src b_id thread_id).1 b_id =
        some { semaphoreRecord env sync_data b_id with
                val := wrap32 ((semaphoreRecord env sync_data b_id).val - 1) } ∧
      (SemaphoreMsg env sync_data src b_id thread_id).2 = [⟨src, thread_id⟩]) ∧
    (wrap32 ((semaphoreRecord env sync_data b_id).val - 1) < 0 →
      (SemaphoreMsg env sync_data src b_id thread_id).1 b_id =
        some { semaphoreRecord env sync_data b_id with
                val := wrap32 ((semaphoreRecord env sync_data b_id).val - 1),
                waitlist := (semaphoreRecord env sync_data b_id).waitqueue ++
                  [⟨src, thread_id⟩] } ∧
      (SemaphoreMsg env sync_data src b_id thread_id).2 = []) := by
  refine ⟨fun h => by simp [semaphoreRecord, h], fun n h => by simp [semaphoreRecord, h],
    fun h1 h2 => wrap32_of_range _ (by omega) (by omega), ?_, ?_⟩
  · intro hge
    rw [SemaphoreMsg_eq, if_pos hge]; simp
  · intro hlt
    rw [SemaphoreMsg_eq, if_neg (not_le.mpr hlt)]; simp

/-- C3, at a fresh key whose slot 0 holds 1: the record is created with value 1,
the value drops to 0 and the caller is woken. -/
theorem SemaphoreMsg_contract_witness :
    (SemaphoreMsg (constEnv 1) emptyRegistry 0 7 1).1 7 =
        some ⟨SyncKind.Semaphore, 0, 1, []⟩ ∧
      (SemaphoreMsg (constEnv 1) emptyRegistry 0 7 1).2 = [⟨0, 1⟩] :=
  (SemaphoreMsg_contract (constEnv 1) emptyRegistry 0 7 1).2.2.2.1 (by decide)

/-- C4, counterexample: thread 5 of node 0 is queued on a semaphore of value -1 and
then sends the leave itself; the call pops the head of the queue, which is the
caller, and wakes it. -/
theorem SemaphoreLeaveMsg_caller_counterexample :
    (SemaphoreLeaveMsg (constEnv 0)
        (SemaphoreMsg (constEnv 0) emptyRegistry 0 7 5).1 0 7 5).2 = [⟨0, 5⟩] ∧
      (SemaphoreMsg (constEnv 0) emptyRegistry 0 7 5).1 7 =
        some ⟨SyncKind.Semaphore, -1, 0, [⟨0, 5⟩]⟩ := by
  decide

/-- C4, amended: on a key whose semaphore exists, `SemaphoreLeaveMsg(src, key, tid)`
increments the value (32-bit increment, `+ 1` below `INT_MAX`); if the incremented
value is `≥ 0` and the queue is non-empty the head of the queue is removed and is
the only thread woken; otherwise nobody is woken and the queue is unchanged. In
every case at most one thread is woken, it is the former head of the queue whatever
`src` and `tid` are (so the caller is woken only when it is itself that head), and
the queue left is the old queue without the woken entry, in the same order. -/
theorem SemaphoreLeaveMsg_contract (env : Env) (sync_data : Registry) (src : Int)
    (b_id : ObjectKey) (thread_id : Int) (node : SyncNode) (h : sync_data b_id = some node) :
    (-2147483648 ≤ node.val → node.val < 2147483647 → wrap32 (node.val + 1) = node.val + 1) ∧
    (∀ th rest, wrap32 (node.val + 1) ≥ 0 → node.waitqueue = th :: rest →
      (SemaphoreLeaveMsg env sync_data src b_id thread_id).1 b_id =
        some { node with val := wrap32 (node.val + 1), waitlist := rest } ∧
      (SemaphoreLeaveMsg env sync_data src b_id thread_id).2 = [th]) ∧
    (wrap32 (node.val + 1) < 0 ∨ node.waitqueue = [] →
      (SemaphoreLeaveMsg env sync_data src b_id thread_id).1 b_id =
        some { node with val := wrap32 (node.val + 1) } ∧
      (SemaphoreLeaveMsg env sync_data src b_id thread_id).2 = []) ∧
    (SemaphoreLeaveMsg env sync_data src b_id thread_id).2.length ≤ 1 ∧
    (∀ t ∈ (SemaphoreLeaveMsg env sync_data src b_id thread_id).2,
      node.waitqueue.head? = some t) ∧
    (∃ n2, (SemaphoreLeaveMsg env sync_data src b_id thread_id).1 b_id = some n2 ∧
      node.waitqueue = (SemaphoreLeaveMsg env sync_data src b_id thread_id).2 ++ n2.waitqueue) ∧
    (∀ src2 tid2, SemaphoreLeaveMsg env sync_data src2 b_id tid2 =
      SemaphoreLeaveMsg env sync_data src b_id thread_id) := by
  rw [SemaphoreLeaveMsg_present env sync_data src b_id thread_id node h]
  refine ⟨fun h1 h2 => wrap32_of_range _ (by omega) (by omega), ?_, ?_, ?_, ?_, ?_, ?_⟩
  · intro th rest hge hq
    simp only [SyncNode.waitqueue] at hq
    rw [if_pos hge]; simp [hq]
  · rintro (hlt | hq)
    · rw [if_neg (not_le.mpr hlt)]; simp
    · simp only [SyncNode.waitqueue] at hq
      split <;> simp [hq]
  · split
    · simp only [List.length_take]; omega
    · simp
  · intro t ht
    split at ht
    · cases hq : node.waitlist with
      | nil => simp [hq] at ht
      | cons a l => simp [hq] at ht; simp [hq, ht]
    · simp at ht
  · split
    · refine ⟨_, Function.update_same _ _ _, ?_⟩
      cases hq : node.waitlist <;> simp [hq]
    · exact ⟨_, Function.update_same _ _ _, by simp⟩
  · intro src2 tid2
    rw [SemaphoreLeaveMsg_present env sync_data src2 b_id tid2 node h]

/-- C4, amended, on a semaphore of value -1 with two queued threads: the leave of a
third thread raises the value to 0 and wakes the head of the queue only. -/
theorem SemaphoreLeaveMsg_contract_witness :
    (SemaphoreLeaveMsg (constEnv 0)
        (singleRegistry 7 ⟨SyncKind.Semaphore, -1, 1, [⟨0, 2⟩, ⟨1, 3⟩]⟩) 0 7 1).1 7 =
        some ⟨SyncKind.Semaphore, 0, 1, [⟨1, 3⟩]⟩ ∧
      (SemaphoreLeaveMsg (constEnv 0)
        (singleRegistry 7 ⟨SyncKind.Semaphore, -1, 1, [⟨0, 2⟩, ⟨1, 3⟩]⟩) 0 7 1).2 = [⟨0, 2⟩] := by
  have h := (SemaphoreLeaveMsg_contract (constEnv 0)
    (singleRegistry 7 ⟨SyncKind.Semaphore, -1, 1, [⟨0, 2⟩, ⟨1, 3⟩]⟩) 0 7 1
    ⟨SyncKind.Semaphore, -1, 1, [⟨0, 2⟩, ⟨1, 3⟩]⟩ (by decide)).2.1 ⟨0, 2⟩ [⟨1, 3⟩]
    (by decide) rfl
  exact ⟨h.1.trans (by decide), h.2⟩

/-! ### Semaphore used as a mutex -/

theorem filter_notMem_snoc_of_notMem (L : List SyncThreadNode) (t : SyncThreadNode) :
    ∀ l : List SyncThreadNode, t ∉ l →
      (l.filter fun x => decide (x ∉ L ++ [t])) = (l.filter fun x => decide (x ∉ L)) := by
  intro l ht
  apply List.filter_congr
  intro x hx
  have : x ≠ t := fun h => ht (h ▸ hx)
  simp [this]

theorem filter_notMem_snoc_length (L : List SyncThreadNode) (t : SyncThreadNode) (htL : t ∉ L) :
    ∀ l : List SyncThreadNode, l.Nodup → t ∈ l →
      (l.filter fun x => decide (x ∉ L ++ [t])).length + 1 =
        (l.filter fun x => decide (x ∉ L)).length := by
  intro l
  induction l with
  | nil => intro _ h; simp at h
  | cons a l ih =>
    intro hnd ht
    rw [List.nodup_cons] at hnd
    by_cases hat : a = t
    · subst hat
      rw [List.filter_cons_of_neg (by simp), List.filter_cons_of_pos (by simpa using htL),
        filter_notMem_snoc_of_notMem L a l hnd.1, List.length_cons]
    · have htl : t ∈ l := by
        rcases List.mem_cons.mp ht with h | h
        · exact absurd h.symm hat
        · exact h
      have := ih hnd.2 htl
      by_cases haL : a ∈ L
      · rw [List.filter_cons_of_neg (by simp [haL]), List.filter_cons_of_neg (by simp [haL])]
        exact this
      · rw [List.filter_cons_of_pos (by simp [haL, hat]),
          List.filter_cons_of_pos (by simpa using haL), List.length_cons, List.length_cons]
        omega

theorem MutexInv_start (env : Env) (okey : ObjectKey) (reg : Registry) (habs : reg okey = none)
    (hslot : env.get okey 0 = 1) : MutexInv env okey (mutexStart reg) := by
  have hrec : semaphoreRecord env reg okey = ⟨SyncKind.Semaphore, 1, 1, []⟩ := by
    simp [semaphoreRecord, habs, hslot, toInt32]
  constructor <;> simp [mutexStart, hrec, holders]

theorem semaphoreRecord_update (env : Env) (reg : Registry) (key : ObjectKey) (n : SyncNode) :
    semaphoreRecord env (Function.update reg key (some n)) key = n := by
  simp [semaphoreRecord]

theorem semaphoreRecord_present (env : Env) (reg : Registry) (key : ObjectKey) (n : SyncNode)
    (h : reg key = some n) : semaphoreRecord env reg key = n := by
  simp [semaphoreRecord, h]

theorem SemaphoreMsg_fst (env : Env) (reg : Registry) (t : SyncThreadNode) (key : ObjectKey)
    (n : SyncNode) (hn : semaphoreRecord env reg key = n) (v : Int)
    (hv : wrap32 (n.val - 1) = v) :
    (SemaphoreMsg env reg t.machine key t.thread_id).1 key =
      some ⟨n.Kind, v, n.data, if v ≥ 0 then n.waitlist else n.waitlist ++ [t]⟩ ∧
    (SemaphoreMsg env reg t.machine key t.thread_id).2 = if v ≥ 0 then [t] else [] := by
  subst hn hv
  rw [SemaphoreMsg_eq]
  split <;> simp

theorem mutexStep_enter_inv (env : Env) (okey : ObjectKey) (s s2 : MutexSys)
    (t : SyncThreadNode) (hinv : MutexInv env okey s)
    (hstep : mutexStep env okey s (MutexOp.enter t) = some s2)
    (hb : s2.entered.length < 2147483648) : MutexInv env okey s2 := by
  simp only [mutexStep] at hstep
  split at hstep
  · exact absurd hstep (by simp)
  rename_i hte
  have hs2 := (Option.some.inj hstep).symm
  subst hs2
  simp only [List.length_append, List.length_singleton] at hb
  have htw : t ∉ s.woken := fun h => hte (hinv.woken_entered t h)
  have htl : t ∉ s.left := fun h => htw (hinv.left_woken t h)
  have htq : t ∉ (semaphoreRecord env s.sync_data okey).waitlist :=
    fun h => hte (hinv.queue_entered t h)
  have hcons := hinv.conserve
  have hnn := hinv.nonneg
  have hlow := hinv.lower
  have hqe := hinv.queue_entered
  have hqw := hinv.queue_woken
  have hqn := hinv.queue_nodup
  simp only [SyncNode.waitqueue] at hcons hnn hqe hqw hqn
  have hw : wrap32 ((semaphoreRecord env s.sync_data okey).val - 1) =
      (semaphoreRecord env s.sync_data okey).val - 1 :=
    wrap32_of_range _ (by omega) (by omega)
  obtain ⟨h1, h2⟩ := SemaphoreMsg_fst env s.sync_data t okey _ rfl _ hw
  generalize (SemaphoreMsg env s.sync_data t.machine okey t.thread_id) = r at h1 h2 ⊢
  obtain ⟨reg2, trace⟩ := r
  simp only at h1 h2
  have hrec := semaphoreRecord_present env reg2 okey _ h1
  generalize semaphoreRecord env s.sync_data okey = n at *
  by_cases hge : n.val - 1 ≥ 0
  · simp only [hge, if_true] at h2 hrec
    subst h2
    have hh : (holders ⟨reg2, s.entered ++ [t], s.woken ++ [t], s.left⟩).length =
        (holders s).length + 1 := by
      simp [holders, List.filter_append, htl]
    constructor
    · intro h; simp [h1] at h
    · intro x hx; simp only [List.mem_append]; exact Or.inl (hinv.left_woken x hx)
    · intro x hx
      simp only [List.mem_append, List.mem_singleton] at hx ⊢
      rcases hx with hx | hx
      · exact Or.inl (hinv.woken_entered x hx)
      · exact Or.inr hx
    · intro x hx
      simp only [hrec, SyncNode.waitqueue] at hx
      simp only [List.mem_append]; exact Or.inl (hqe x hx)
    · intro x hx
      simp only [hrec, SyncNode.waitqueue] at hx
      simp only [List.mem_append, List.mem_singleton, not_or]
      exact ⟨hqw x hx, fun h => htq (h ▸ hx)⟩
    · exact List.Nodup.append hinv.woken_nodup (List.nodup_singleton t)
        (fun a ha hat => htw ((List.mem_singleton.mp hat) ▸ ha))
    · simpa [hrec] using hqn
    · rw [hh]; simp only [hrec, SyncNode.waitqueue]; push_cast; omega
    · simp only [hrec, SyncNode.waitqueue]; omega
    · simp only [hrec, List.length_append, List.length_singleton]
      push_cast; omega
  · simp only [hge, if_false] at h2 hrec
    subst h2
    have hh : (holders ⟨reg2, s.entered ++ [t], s.woken ++ [], s.left⟩).length =
        (holders s).length := by
      simp [holders]
    constructor
    · intro h; simp [h1] at h
    · intro x hx; simpa using hinv.left_woken x hx
    · intro x hx
      simp only [List.append_nil] at hx
      simp only [List.mem_append]; exact Or.inl (hinv.woken_entered x hx)
    · intro x hx
      simp only [hrec, SyncNode.waitqueue, List.mem_append, List.mem_singleton] at hx
      simp only [List.mem_append, List.mem_singleton]
      rcases hx with hx | hx
      · exact Or.inl (hqe x hx)
      · exact Or.inr hx
    · intro x hx
      simp only [hrec, SyncNode.waitqueue, List.mem_append, List.mem_singleton] at hx
      simp only [List.append_nil]
      rcases hx with hx | hx
      · exact hqw x hx
      · exact hx ▸ htw
    · simpa using hinv.woken_nodup
    · simp only [hrec, SyncNode.waitqueue]
      exact List.Nodup.append hqn (List.nodup_singleton t) (fun a ha hat => htq ((List.mem_singleton.mp hat) ▸ ha))
    · rw [hh]
      simp only [hrec, SyncNode.waitqueue, List.length_append, List.length_singleton]
      push_cast; omega
    · simp only [hrec, SyncNode.waitqueue, List.length_append, List.length_singleton]
      push_cast; omega
    · simp only [hrec, List.length_append, List.length_singleton]
      push_cast; omega

theorem SemaphoreLeaveMsg_cases (env : Env) (reg : Registry) (src : Int) (key : ObjectKey)
    (tid : Int) (n : SyncNode) (h : reg key = some n) (v : Int) (hv : wrap32 (n.val + 1) = v) :
    ((SemaphoreLeaveMsg env reg src key tid).1 key = some ⟨n.Kind, v, n.data, n.waitlist⟩ ∧
        (SemaphoreLeaveMsg env reg src key tid).2 = [] ∧ (v < 0 ∨ n.waitlist = [])) ∨
      (∃ th rest, n.waitlist = th :: rest ∧ 0 ≤ v ∧
        (SemaphoreLeaveMsg env reg src key tid).1 key = some ⟨n.Kind, v, n.data, rest⟩ ∧
        (SemaphoreLeaveMsg env reg src key tid).2 = [th]) := by
  subst hv
  rw [SemaphoreLeaveMsg_present env reg src key tid n h]
  by_cases hge : wrap32 (n.val + 1) ≥ 0
  · rw [if_pos hge]
    cases hq : n.waitlist with
    | nil => left; simp [hq]
    | cons th rest => right; exact ⟨th, rest, rfl, hge, by simp [hq], by simp⟩
  · rw [if_neg hge]
    left
    exact ⟨by simp, rfl, Or.inl (not_le.mp hge)⟩

theorem mutexStep_leave_inv (env : Env) (okey : ObjectKey) (s s2 : MutexSys)
    (t : SyncThreadNode) (hinv : MutexInv env okey s)
    (hstep : mutexStep env okey s (MutexOp.leave t) = some s2)
    (hb : s2.entered.length < 2147483648) : MutexInv env okey s2 := by
  simp only [mutexStep] at hstep
  split at hstep
  swap
  · exact absurd hstep (by simp)
  rename_i hcond
  obtain ⟨htw, htl⟩ := hcond
  have hs2 := (Option.some.inj hstep).symm
  subst hs2
  simp only at hb
  obtain ⟨n, hn⟩ : ∃ n, s.sync_data okey = some n := by
    cases hk : s.sync_data okey with
    | none => have := hinv.absent hk; rw [this] at htw; simp at htw
    | some n => exact ⟨n, rfl⟩
  have hrec0 := semaphoreRecord_present env s.sync_data okey n hn
  have hcons := hinv.conserve
  have hnn := hinv.nonneg
  have hlow := hinv.lower
  have hqe := hinv.queue_entered
  have hqw := hinv.queue_woken
  have hqn := hinv.queue_nodup
  simp only [SyncNode.waitqueue, hrec0] at hcons hnn hqe hqw hqn hlow
  have hhold : 1 ≤ (holders s).length := by
    have : t ∈ holders s := by simp [holders, htw, htl]
    exact List.length_pos_of_mem this
  have hw : wrap32 (n.val + 1) = n.val + 1 := wrap32_of_range _ (by omega) (by omega)
  have hfilter := filter_notMem_snoc_length s.left t htl s.woken hinv.woken_nodup htw
  rcases SemaphoreLeaveMsg_cases env s.sync_data t.machine okey t.thread_id n hn _ hw with
    ⟨h1, h2, _⟩ | ⟨th, rest, hq, hv, h1, h2⟩
  · generalize (SemaphoreLeaveMsg env s.sync_data t.machine okey t.thread_id) = r at h1 h2 ⊢
    obtain ⟨reg2, trace⟩ := r
    simp only at h1 h2
    subst h2
    have hrec := semaphoreRecord_present env reg2 okey _ h1
    have hh : (holders ⟨reg2, s.entered, s.woken ++ [], s.left ++ [t]⟩).length + 1 =
        (holders s).length := by
      simpa [holders] using hfilter
    constructor
    · intro h; simp [h1] at h
    · intro x hx
      simp only [List.mem_append, List.mem_singleton, List.append_nil] at hx ⊢
      rcases hx with hx | hx
      · exact hinv.left_woken x hx
      · exact hx ▸ htw
    · intro x hx; simp only [List.append_nil] at hx; exact hinv.woken_entered x hx
    · intro x hx; simp only [hrec, SyncNode.waitqueue] at hx; exact hqe x hx
    · intro x hx
      simp only [hrec, SyncNode.waitqueue] at hx
      simp only [List.append_nil]; exact hqw x hx
    · simpa using hinv.woken_nodup
    · simpa [hrec] using hqn
    · simp only [hrec, SyncNode.waitqueue]; omega
    · simp only [hrec, SyncNode.waitqueue]; omega
    · simp only [hrec]; omega
  · generalize (SemaphoreLeaveMsg env s.sync_data t.machine okey t.thread_id) = r at h1 h2 ⊢
    obtain ⟨reg2, trace⟩ := r
    simp only at h1 h2
    subst h2
    have hrec := semaphoreRecord_present env reg2 okey _ h1
    rw [hq] at hqe hqw hqn hcons hnn
    rw [List.nodup_cons] at hqn
    have hthw : th ∉ s.woken := hqw th (List.mem_cons_self _ _)
    have hthl : th ∉ s.left := fun h => hthw (hinv.left_woken th h)
    have htht : th ≠ t := fun h => hthw (h ▸ htw)
    have hh : (holders ⟨reg2, s.entered, s.woken ++ [th], s.left ++ [t]⟩).length =
        (holders s).length := by
      have : (holders ⟨reg2, s.entered, s.woken ++ [th], s.left ++ [t]⟩) =
          (s.woken.filter fun x => decide (x ∉ s.left ++ [t])) ++ [th] := by
        simp only [holders, List.filter_append]
        rw [List.filter_cons_of_pos (by simp [hthl, htht])]
        simp
      rw [this, List.length_append, List.length_singleton]
      simpa [holders] using hfilter
    simp only [List.length_cons] at hcons hnn
    constructor
    · intro h; simp [h1] at h
    · intro x hx
      simp only [List.mem_append, List.mem_singleton] at hx ⊢
      rcases hx with hx | hx
      · exact Or.inl (hinv.left_woken x hx)
      · exact Or.inl (hx ▸ htw)
    · intro x hx
      simp only [List.mem_append, List.mem_singleton] at hx
      rcases hx with hx | hx
      · exact hinv.woken_entered x hx
      · exact hx ▸ hqe th (List.mem_cons_self _ _)
    · intro x hx
      simp only [hrec, SyncNode.waitqueue] at hx
      exact hqe x (List.mem_cons_of_mem _ hx)
    · intro x hx
      simp only [hrec, SyncNode.waitqueue] at hx
      simp only [List.mem_append, List.mem_singleton, not_or]
      exact ⟨hqw x (List.mem_cons_of_mem _ hx), fun h => hqn.1 (h ▸ hx)⟩
    · exact List.Nodup.append hinv.woken_nodup (List.nodup_singleton th)
        (fun a ha hat => hthw ((List.mem_singleton.mp hat) ▸ ha))
    · simpa [hrec] using hqn.2
    · rw [hh]; simp only [hrec, SyncNode.waitqueue]; push_cast at hcons ⊢; omega
    · simp only [hrec, SyncNode.waitqueue]; push_cast at hnn ⊢; omega
    · simp only [hrec]; omega

theorem mutexStep_entered_le (env : Env) (okey : ObjectKey) (s s2 : MutexSys) (op : MutexOp)
    (hstep : mutexStep env okey s op = some s2) : s.entered.length ≤ s2.entered.length := by
  cases op with
  | enter t =>
    simp only [mutexStep] at hstep
    split at hstep
    · exact absurd hstep (by simp)
    · have := (Option.some.inj hstep).symm; subst this; simp
  | leave t =>
    simp only [mutexStep] at hstep
    split at hstep
    · have := (Option.some.inj hstep).symm; subst this; simp
    · exact absurd hstep (by simp)

theorem mutexRun_entered_le (env : Env) (okey : ObjectKey) (ops : List MutexOp) :
    ∀ s s2 : MutexSys, mutexRun env okey s ops = some s2 →
      s.entered.length ≤ s2.entered.length := by
  induction ops with
  | nil => intro s s2 h; simp only [mutexRun] at h; rw [Option.some.inj h]
  | cons op rest ih =>
    intro s s2 h
    simp only [mutexRun] at h
    cases hs : mutexStep env okey s op with
    | none => rw [hs] at h; exact absurd h (by simp)
    | some s1 =>
      rw [hs] at h
      exact le_trans (mutexStep_entered_le env okey s s1 op hs) (ih s1 s2 h)

theorem mutexRun_inv (env : Env) (okey : ObjectKey) (ops : List MutexOp) :
    ∀ s s2 : MutexSys, MutexInv env okey s → mutexRun env okey s ops = some s2 →
      s2.entered.length < 2147483648 → MutexInv env okey s2 := by
  induction ops with
  | nil => intro s s2 hinv h _; simp only [mutexRun] at h; rw [← Option.some.inj h]; exact hinv
  | cons op rest ih =>
    intro s s2 hinv h hb
    simp only [mutexRun] at h
    cases hs : mutexStep env okey s op with
    | none => rw [hs] at h; exact absurd h (by simp)
    | some s1 =>
      rw [hs] at h
      have hb1 : s1.entered.length < 2147483648 :=
        lt_of_le_of_lt (mutexRun_entered_le env okey rest s1 s2 h) hb
      have hinv1 : MutexInv env okey s1 := by
        cases op with
        | enter t => exact mutexStep_enter_inv env okey s s1 t hinv hs hb1
        | leave t => exact mutexStep_leave_inv env okey s s1 t hinv hs hb1
      exact ih s1 s2 hinv1 h hb

/-- C5: a semaphore on a fresh key whose store slot 0 holds 1, used by threads that
each send their enter at most once and their leave at most once and only after
having been woken. After every schedule of such messages (every reachable state of
every interleaving) at most one thread has been woken and has not yet sent its
leave. The number of threads that have entered is below `2^31`, the range of the
`int` value. -/
theorem semaphore_mutex_exclusion (env : Env) (sync_data : Registry) (okey : ObjectKey)
    (ops : List MutexOp) (s : MutexSys) (habs : sync_data okey = none)
    (hslot : env.get okey 0 = 1)
    (hrun : mutexRun env okey (mutexStart sync_data) ops = some s)
    (hb : s.entered.length < 2147483648) :
    (holders s).length ≤ 1 ∧
      ∀ a b, a ∈ s.woken → a ∉ s.left → b ∈ s.woken → b ∉ s.left → a = b := by
  have hinv := mutexRun_inv env okey ops _ s (MutexInv_start env okey sync_data habs hslot) hrun hb
  have hc := hinv.conserve
  have hn := hinv.nonneg
  have hle : (holders s).length ≤ 1 := by omega
  refine ⟨hle, ?_⟩
  intro a b ha1 ha2 hb1 hb2
  have hma : a ∈ holders s := by simp [holders, ha1, ha2]
  have hmb : b ∈ holders s := by simp [holders, hb1, hb2]
  match hl : holders s, hle, hma, hmb with
  | [], _, hma, _ => simp at hma
  | [x], _, hma, hmb =>
    rw [List.mem_singleton.mp hma, List.mem_singleton.mp hmb]
  | _ :: _ :: _, hle, _, _ => simp at hle

/-- C5, on a schedule of three threads: `a` enters and holds, `b` queues, `a` leaves
and `b` is woken, `c` queues, `b` leaves and `c` is woken; one holder at the end. -/
theorem semaphore_mutex_exclusion_witness :
    ∃ s, mutexRun (constEnv 1) 7 (mutexStart emptyRegistry)
          [MutexOp.enter ⟨0, 1⟩, MutexOp.enter ⟨1, 2⟩, MutexOp.leave ⟨0, 1⟩,
            MutexOp.enter ⟨1, 3⟩, MutexOp.leave ⟨1, 2⟩] = some s ∧
      s.entered.length < 2147483648 ∧ s.woken = [⟨0, 1⟩, ⟨1, 2⟩, ⟨1, 3⟩] ∧
      (holders s).length ≤ 1 := by
  have hsome : (mutexRun (constEnv 1) 7 (mutexStart emptyRegistry)
      [MutexOp.enter ⟨0, 1⟩, MutexOp.enter ⟨1, 2⟩, MutexOp.leave ⟨0, 1⟩,
        MutexOp.enter ⟨1, 3⟩, MutexOp.leave ⟨1, 2⟩]).isSome = true := by decide
  obtain ⟨s, hs⟩ := Option.isSome_iff_exists.mp hsome
  have he : (mutexRun (constEnv 1) 7 (mutexStart emptyRegistry)
      [MutexOp.enter ⟨0, 1⟩, MutexOp.enter ⟨1, 2⟩, MutexOp.leave ⟨0, 1⟩,
        MutexOp.enter ⟨1, 3⟩, MutexOp.leave ⟨1, 2⟩]).map (fun s => (s.entered.length, s.woken)) =
      some (3, [⟨0, 1⟩, ⟨1, 2⟩, ⟨1, 3⟩]) := by decide
  rw [hs] at he
  simp only [Option.map_some', Option.some.injEq, Prod.mk.injEq] at he
  exact ⟨s, hs, by omega, he.2,
    (semaphore_mutex_exclusion (constEnv 1) emptyRegistry 7 _ s rfl rfl hs (by omega)).1⟩

/-- C6, the code at the failing schedule: slot 0 holds 1 and the three enters arrive
before the first leave. The first thread is woken, the other two are queued with
value -2; the leave of the first thread raises the value to -1, which is not `≥ 0`,
so nobody is woken. Only one thread has been woken, two are still queued, and none
of the three threads can send anything more. -/
theorem semaphore_mutex_completion_fails :
    (mutexRun (constEnv 1) 7 (mutexStart emptyRegistry)
        [MutexOp.enter ⟨0, 1⟩, MutexOp.enter ⟨1, 2⟩, MutexOp.enter ⟨1, 3⟩,
          MutexOp.leave ⟨0, 1⟩]).map (fun s => (s.sync_data 7, s.woken, s.left)) =
      some (some ⟨SyncKind.Semaphore, -1, 1, [⟨1, 2⟩, ⟨1, 3⟩]⟩, [⟨0, 1⟩], [⟨0, 1⟩]) ∧
    ∀ op ∈ [MutexOp.enter ⟨0, 1⟩, MutexOp.enter ⟨1, 2⟩, MutexOp.enter ⟨1, 3⟩,
        MutexOp.leave ⟨0, 1⟩, MutexOp.leave ⟨1, 2⟩, MutexOp.leave ⟨1, 3⟩],
      (mutexRun (constEnv 1) 7 (mutexStart emptyRegistry)
        ([MutexOp.enter ⟨0, 1⟩, MutexOp.enter ⟨1, 2⟩, MutexOp.enter ⟨1, 3⟩,
          MutexOp.leave ⟨0, 1⟩] ++ [op])).isNone = true := by
  decide

/-! ### Semaphore: sequences of calls -/

theorem SemaphoreMsg_absent (env : Env) (reg : Registry) (src : Int) (key : ObjectKey)
    (tid : Int) :
    SemaphoreMsg env reg src key tid =
      SemaphoreMsg env (Function.update reg key (some (semaphoreRecord env reg key)))
        src key tid := by
  rw [SemaphoreMsg_eq, SemaphoreMsg_eq env (Function.update reg key _), semaphoreRecord_update]
  simp

/-- The accounting of a run on a key whose record exists and whose value stays
inside the 32-bit range: `data` and `Kind` are kept, the sum value + queue length +
threads woken grows by one per leave, and value `≥ -|queue|` is preserved. -/
theorem runSem_present (env : Env) (key : ObjectKey) (ops : List SemCall) :
    ∀ (reg : Registry) (n : SyncNode), reg key = some n →
      -2147483648 < n.val - (ops.length : Int) → n.val + (ops.length : Int) < 2147483648 →
      ∃ n2, (runSem env key reg ops).1 key = some n2 ∧ n2.data = n.data ∧ n2.Kind = n.Kind ∧
        n2.val + (n2.waitlist.length : Int) + ((runSem env key reg ops).2.length : Int) =
          n.val + (n.waitlist.length : Int) + ((ops.countP SemCall.isLeave : Nat) : Int) ∧
        (-(n.waitlist.length : Int) ≤ n.val → -(n2.waitlist.length : Int) ≤ n2.val) := by
  induction ops with
  | nil => intro reg n h _ _; exact ⟨n, by simpa [runSem] using h, rfl, rfl, by simp [runSem], id⟩
  | cons c rest ih =>
    intro reg n h hlo hhi
    simp only [List.length_cons] at hlo hhi
    push_cast at hlo hhi
    cases c with
    | enter src tid =>
      have hw : wrap32 (n.val - 1) = n.val - 1 := wrap32_of_range _ (by omega) (by omega)
      obtain ⟨h1, h2⟩ := SemaphoreMsg_fst env reg ⟨src, tid⟩ key n
        (semaphoreRecord_present env reg key n h) _ hw
      simp only at h1 h2
      obtain ⟨n2, g1, g2, g3, g4, g5⟩ := ih _ _ h1 (by simp only; omega) (by simp only; omega)
      refine ⟨n2, by simpa [runSem, semCall] using g1, g2, g3, ?_, ?_⟩
      · simp only [runSem, semCall, List.length_append, h2]
        simp only [List.countP_cons, SemCall.isLeave] at g4 ⊢
        by_cases hv : n.val - 1 ≥ 0
        · simp only [hv, if_true, List.length_singleton] at g4 ⊢
          push_cast; omega
        · simp only [hv, if_false, List.length_append, List.length_singleton,
            List.length_nil] at g4 ⊢
          push_cast at g4 ⊢; omega
      · intro hI
        apply g5
        by_cases hv : n.val - 1 ≥ 0
        · simp only [hv, if_true]; omega
        · simp only [hv, if_false, List.length_append, List.length_singleton]
          push_cast; omega
    | leave src tid =>
      have hw : wrap32 (n.val + 1) = n.val + 1 := wrap32_of_range _ (by omega) (by omega)
      rcases SemaphoreLeaveMsg_cases env reg src key tid n h _ hw with
        ⟨h1, h2, _⟩ | ⟨th, tl, hq, _, h1, h2⟩
      · obtain ⟨n2, g1, g2, g3, g4, g5⟩ := ih _ _ h1 (by simp only; omega) (by simp only; omega)
        refine ⟨n2, by simpa [runSem, semCall] using g1, g2, g3, ?_, ?_⟩
        · simp only [runSem, semCall, List.length_append, h2]
          simp only [List.countP_cons, SemCall.isLeave] at g4 ⊢
          simp only [List.length_nil] at g4 ⊢
          push_cast at g4 ⊢; omega
        · intro hI; apply g5; simp only; omega
      · obtain ⟨n2, g1, g2, g3, g4, g5⟩ := ih _ _ h1 (by simp only; omega) (by simp only; omega)
        refine ⟨n2, by simpa [runSem, semCall] using g1, g2, g3, ?_, ?_⟩
        · simp only [runSem, semCall, List.length_append, h2]
          simp only [List.countP_cons, SemCall.isLeave, hq, List.length_cons,
            List.length_singleton, List.length_nil] at g4 ⊢
          push_cast at g4 ⊢; omega
        · intro hI; apply g5
          simp only [hq, List.length_cons] at hI
          push_cast at hI
          dsimp only
          omega

/-- The record the first call of a run materializes on an absent key. -/
theorem runSem_absent (env : Env) (key : ObjectKey) (reg : Registry) (c : SemCall)
    (rest : List SemCall) (habs : reg key = none) :
    ∃ d : Int, -2147483648 ≤ d ∧ d < 2147483648 ∧
      runSem env key reg (c :: rest) =
        runSem env key (Function.update reg key (some ⟨SyncKind.Semaphore, d, d, []⟩))
          (c :: rest) := by
  cases c with
  | enter src tid =>
    refine ⟨toInt32 (env.get key 0), (toInt32_range _).1, (toInt32_range _).2, ?_⟩
    simp only [runSem, semCall]
    rw [SemaphoreMsg_absent env reg src key tid]
    simp [semaphoreRecord, habs]
  | leave src tid =>
    refine ⟨toInt32 (env.deref (env.get key 0)), (toInt32_range _).1, (toInt32_range _).2, ?_⟩
    simp only [runSem, semCall]
    rw [SemaphoreLeaveMsg_absent env reg src key tid habs]

/-- No call changes the `data` field of an existing record. -/
theorem runSem_data (env : Env) (key : ObjectKey) (ops : List SemCall) :
    ∀ (reg : Registry) (n : SyncNode), reg key = some n →
      ∃ n2, (runSem env key reg ops).1 key = some n2 ∧ n2.data = n.data := by
  induction ops with
  | nil => intro reg n h; exact ⟨n, by simpa [runSem] using h, rfl⟩
  | cons c rest ih =>
    intro reg n h
    cases c with
    | enter src tid =>
      obtain ⟨h1, _⟩ := SemaphoreMsg_fst env reg ⟨src, tid⟩ key n
        (semaphoreRecord_present env reg key n h) _ rfl
      obtain ⟨n2, g1, g2⟩ := ih _ _ h1
      exact ⟨n2, by simpa [runSem, semCall] using g1, g2⟩
    | leave src tid =>
      rcases SemaphoreLeaveMsg_cases env reg src key tid n h _ rfl with
        ⟨h1, _, _⟩ | ⟨th, tl, _, _, h1, _⟩
      · obtain ⟨n2, g1, g2⟩ := ih _ _ h1
        exact ⟨n2, by simpa [runSem, semCall] using g1, g2⟩
      · obtain ⟨n2, g1, g2⟩ := ih _ _ h1
        exact ⟨n2, by simpa [runSem, semCall] using g1, g2⟩

/-- C7, counterexample: slot 0 holds 1 and one thread enters; the value is 0 and the
queue is empty, so value + |waitqueue| is 0 and not the initial value 1. Moreover,
with slot 0 holding 0, three enters followed by four leaves end with value 1 and a
thread still queued. -/
theorem semaphore_conservation_counterexample :
    ((runSem (constEnv 1) 7 emptyRegistry [SemCall.enter 0 1]).1 7 =
        some ⟨SyncKind.Semaphore, 0, 1, []⟩ ∧
      ¬ ((0 : Int) + (([] : List SyncThreadNode).length : Int) = 1)) ∧
    (runSem (constEnv 0) 7 emptyRegistry
        [SemCall.enter 0 1, SemCall.enter 1 2, SemCall.enter 1 3, SemCall.leave 0 9,
          SemCall.leave 0 9, SemCall.leave 0 9, SemCall.leave 0 9]).1 7 =
      some ⟨SyncKind.Semaphore, 1, 0, [⟨1, 3⟩]⟩ := by
  decide

/-- C7, amended: after every sequence of `SemaphoreMsg` and `SemaphoreLeaveMsg`
calls on one key that was absent before, the record satisfies
value + |waitqueue| = initial - (threads woken so far - leave calls so far),
where initial is the record's `data` field; in particular value + |waitqueue| =
initial whenever every woken thread has sent its leave. The sequence is short
enough for the 32-bit value not to overflow (initial ± number of calls in range). -/
theorem semaphore_conservation (env : Env) (sync_data : Registry) (b_id : ObjectKey)
    (ops : List SemCall) (node : SyncNode) (habs : sync_data b_id = none)
    (hnode : (runSem env b_id sync_data ops).1 b_id = some node)
    (hlo : -2147483648 < node.data - (ops.length : Int))
    (hhi : node.data + (ops.length : Int) < 2147483648) :
    node.val + (node.waitqueue.length : Int) =
      node.data - (((runSem env b_id sync_data ops).2.length : Int) -
        ((ops.countP SemCall.isLeave : Nat) : Int)) := by
  cases ops with
  | nil => simp [runSem, habs] at hnode
  | cons c rest =>
    obtain ⟨d, _, _, hrun⟩ := runSem_absent env b_id sync_data c rest habs
    rw [hrun] at hnode ⊢
    obtain ⟨n1, f1, f2⟩ := runSem_data env b_id (c :: rest) _
      ⟨SyncKind.Semaphore, d, d, []⟩ (Function.update_same _ _ _)
    rw [hnode] at f1
    have hd : node.data = d := by rw [Option.some.inj f1]; exact f2
    obtain ⟨n2, g1, _, _, g4, _⟩ := runSem_present env b_id (c :: rest) _
      ⟨SyncKind.Semaphore, d, d, []⟩ (Function.update_same _ _ _)
      (by rw [← hd]; exact hlo) (by rw [← hd]; exact hhi)
    rw [hnode] at g1
    have hn2 := Option.some.inj g1
    subst hn2
    simp only [List.length_nil, SyncNode.waitqueue] at g4 ⊢
    rw [hd]
    push_cast at g4 ⊢
    omega

/-- C7, amended, with slot 0 holding 1: two threads enter and the first leaves; two
threads have been woken, one leave has been sent, and 0 + 0 = 1 - (2 - 1). -/
theorem semaphore_conservation_witness :
    (0 : Int) + (([] : List SyncThreadNode).length : Int) =
      1 - (((runSem (constEnv 1) 7 emptyRegistry
          [SemCall.enter 0 1, SemCall.enter 1 2, SemCall.leave 0 1]).2.length : Int) -
        (([SemCall.enter 0 1, SemCall.enter 1 2, SemCall.leave 0 1].countP
          SemCall.isLeave : Nat) : Int)) :=
  semaphore_conservation (constEnv 1) emptyRegistry 7
    [SemCall.enter 0 1, SemCall.enter 1 2, SemCall.leave 0 1]
    ⟨SyncKind.Semaphore, 0, 1, []⟩ rfl (by decide) (by decide) (by decide)

/-- C8, counterexample: slot 0 holds `0xFFFFFFFF`, which reads as -1; the first
enter creates the record with value -1, decrements it to -2 and queues the caller:
the value -2 is below -|waitqueue| = -1. -/
theorem semaphore_value_bound_counterexample :
    (runSem (constEnv 4294967295) 7 emptyRegistry [SemCall.enter 0 1]).1 7 =
        some ⟨SyncKind.Semaphore, -2, -1, [⟨0, 1⟩]⟩ ∧
      ¬ ((-2 : Int) ≥ -(([⟨0, 1⟩] : List SyncThreadNode).length : Int)) := by
  decide

/-- C8, amended: for every semaphore record reached by a sequence of `SemaphoreMsg`
and `SemaphoreLeaveMsg` calls on a key that was absent before, if the value the
record was created with (its `data` field) is non-negative, then
value `≥ -|waitqueue|` holds after every call. The sequence is short enough for the
32-bit value not to overflow (initial + number of calls below `2^31`). -/
theorem semaphore_value_bound (env : Env) (sync_data : Registry) (b_id : ObjectKey)
    (ops : List SemCall) (node : SyncNode) (habs : sync_data b_id = none)
    (hnode : (runSem env b_id sync_data ops).1 b_id = some node)
    (hinit : 0 ≤ node.data)
    (hhi : node.data + (ops.length : Int) < 2147483648) :
    node.val ≥ -(node.waitqueue.length : Int) := by
  cases ops with
  | nil => simp [runSem, habs] at hnode
  | cons c rest =>
    obtain ⟨d, _, _, hrun⟩ := runSem_absent env b_id sync_data c rest habs
    rw [hrun] at hnode
    obtain ⟨n1, f1, f2⟩ := runSem_data env b_id (c :: rest) _
      ⟨SyncKind.Semaphore, d, d, []⟩ (Function.update_same _ _ _)
    rw [hnode] at f1
    have hd : node.data = d := by rw [Option.some.inj f1]; exact f2
    obtain ⟨n2, g1, _, _, _, g5⟩ := runSem_present env b_id (c :: rest) _
      ⟨SyncKind.Semaphore, d, d, []⟩ (Function.update_same _ _ _)
      (by dsimp only; omega) (by dsimp only; omega)
    rw [hnode] at g1
    have hn2 := Option.some.inj g1
    subst hn2
    simp only [SyncNode.waitqueue]
    exact g5 (by simp only [List.length_nil]; omega)

/-- C8, amended, with slot 0 holding 0: after three enters and one leave the value
is -2 and three threads are queued. -/
theorem semaphore_value_bound_witness :
    (-2 : Int) ≥ -(([⟨0, 1⟩, ⟨1, 2⟩, ⟨1, 3⟩] : List SyncThreadNode).length : Int) :=
  semaphore_value_bound (constEnv 0) emptyRegistry 7
    [SemCall.enter 0 1, SemCall.enter 1 2, SemCall.enter 1 3, SemCall.leave 0 9]
    ⟨SyncKind.Semaphore, -2, 0, [⟨0, 1⟩, ⟨1, 2⟩, ⟨1, 3⟩]⟩ rfl (by decide) (by decide)
    (by decide)


/-! ### Event -/

theorem drainWaitqueue_eq (q trace : List SyncThreadNode) :
    drainWaitqueue q trace = ([], trace ++ q) := by
  induction q generalizing trace with
  | nil => simp [drainWaitqueue]
  | cons th rest ih => simp [drainWaitqueue, ih, RcWakeRemoteThread]

theorem CreateEventNode_fst (env : Env) (reg : Registry) (key : ObjectKey) :
    (CreateEventNode env reg key).1 key = some (CreateEventNode env reg key).2 := by
  unfold CreateEventNode
  cases h : reg key <;> simp [h]

/-- C9: `EventWaitMsg(src, key, tid)`. On an absent key the record is materialized
with auto_reset (`data`) = store slot 0, signaled (`val`) = store slot 2, both
converted to `int`, and an empty queue; on a present key the record found is used.
If signaled is set the trace is exactly the caller, the queue is unchanged and
signaled is cleared when auto_reset is set and kept otherwise; if signaled is not
set the trace is empty and the caller is appended at the tail of the queue. -/
theorem EventWaitMsg_contract (env : Env) (sync_data : Registry) (src : Int) (b_id : ObjectKey)
    (thread_id : Int) :
    (sync_data b_id = none →
      eventRecord env sync_data b_id =
        ⟨SyncKind.Event, toInt32 (env.get b_id 2), toInt32 (env.get b_id 0), []⟩) ∧
    (∀ n, sync_data b_id = some n → eventRecord env sync_data b_id = n) ∧
    ((eventRecord env sync_data b_id).val ≠ 0 →
      (EventWaitMsg env sync_data src b_id thread_id).2 = [⟨src, thread_id⟩] ∧
      ((eventRecord env sync_data b_id).data ≠ 0 →
        (EventWaitMsg env sync_data src b_id thread_id).1 b_id =
          some { eventRecord env sync_data b_id with val := 0 }) ∧
      ((eventRecord env sync_data b_id).data = 0 →
        (EventWaitMsg env sync_data src b_id thread_id).1 b_id =
          some (eventRecord env sync_data b_id))) ∧
    ((eventRecord env sync_data b_id).val = 0 →
      (EventWaitMsg env sync_data src b_id thread_id).2 = [] ∧
      (EventWaitMsg env sync_data src b_id thread_id).1 b_id =
        some { eventRecord env sync_data b_id with
                waitlist := (eventRecord env sync_data b_id).waitqueue ++
                  [⟨src, thread_id⟩] }) := by
  refine ⟨fun h => by simp [eventRecord, CreateEventNode, h],
    fun n h => by simp [eventRecord, CreateEventNode, h], ?_, ?_⟩
  · intro hsig
    simp only [eventRecord] at hsig ⊢
    refine ⟨?_, ?_, ?_⟩
    · by_cases hauto : (CreateEventNode env sync_data b_id).2.data = 0
      · simp [EventWaitMsg, hsig, hauto, RcWakeRemoteThread]
      · simp [EventWaitMsg, hsig, hauto, RcWakeRemoteThread]
    · intro hauto
      simp [EventWaitMsg, hsig, hauto]
    · intro hman
      simp [EventWaitMsg, hsig, hman, CreateEventNode_fst]
  · intro hsig
    simp only [eventRecord] at hsig ⊢
    simp [EventWaitMsg, hsig]

/-- C9, on a fresh key of a signaled auto-reset event: the caller is woken and the
record created is left unsignaled with an empty queue. -/
theorem EventWaitMsg_contract_witness :
    (EventWaitMsg (eventEnv 1 1) emptyRegistry 1 7 4).2 = [⟨1, 4⟩] ∧
      (EventWaitMsg (eventEnv 1 1) emptyRegistry 1 7 4).1 7 =
        some ⟨SyncKind.Event, 0, 1, []⟩ := by
  have h := (EventWaitMsg_contract (eventEnv 1 1) emptyRegistry 1 7 4).2.2.1 (by decide)
  exact ⟨h.1, (h.2.1 (by decide)).trans (by decide)⟩

/-- C10: `SetEventMsg(src, key)` on the record found under the key or materialized
from the store. Auto-reset with an empty queue: the event ends signaled and nobody
is woken. Auto-reset with a non-empty queue: the event ends unsignaled, exactly the
head of the queue is removed and woken, the rest of the queue is unchanged.
Manual-reset: every queued waiter is woken in queue order, the queue ends empty and
the event ends signaled. -/
theorem SetEventMsg_contract (env : Env) (sync_data : Registry) (src : Int) (b_id : ObjectKey) :
    ((eventRecord env sync_data b_id).data ≠ 0 →
      (eventRecord env sync_data b_id).waitqueue = [] →
      (SetEventMsg env sync_data src b_id).1 b_id =
        some { eventRecord env sync_data b_id with val := 1 } ∧
      (SetEventMsg env sync_data src b_id).2 = []) ∧
    (∀ th rest, (eventRecord env sync_data b_id).data ≠ 0 →
      (eventRecord env sync_data b_id).waitqueue = th :: rest →
      (SetEventMsg env sync_data src b_id).1 b_id =
        some { eventRecord env sync_data b_id with val := 0, waitlist := rest } ∧
      (SetEventMsg env sync_data src b_id).2 = [th]) ∧
    ((eventRecord env sync_data b_id).data = 0 →
      (SetEventMsg env sync_data src b_id).1 b_id =
        some { eventRecord env sync_data b_id with val := 1, waitlist := [] } ∧
      (SetEventMsg env sync_data src b_id).2 = (eventRecord env sync_data b_id).waitqueue) := by
  simp only [eventRecord, SyncNode.waitqueue]
  refine ⟨?_, ?_, ?_⟩
  · intro hauto hq
    simp [SetEventMsg, hauto, hq]
  · intro th rest hauto hq
    simp [SetEventMsg, hauto, hq, RcWakeRemoteThread]
  · intro hman
    simp [SetEventMsg, hman, drainWaitqueue_eq]

/-- C10, on a manual-reset event with two queued waiters: both are woken in queue
order, the queue ends empty and the event ends signaled. -/
theorem SetEventMsg_contract_witness :
    (SetEventMsg (eventEnv 0 0)
        (singleRegistry 7 ⟨SyncKind.Event, 0, 0, [⟨0, 2⟩, ⟨1, 3⟩]⟩) 0 7).1 7 =
        some ⟨SyncKind.Event, 1, 0, []⟩ ∧
      (SetEventMsg (eventEnv 0 0)
        (singleRegistry 7 ⟨SyncKind.Event, 0, 0, [⟨0, 2⟩, ⟨1, 3⟩]⟩) 0 7).2 =
        [⟨0, 2⟩, ⟨1, 3⟩] := by
  have h := (SetEventMsg_contract (eventEnv 0 0)
    (singleRegistry 7 ⟨SyncKind.Event, 0, 0, [⟨0, 2⟩, ⟨1, 3⟩]⟩) 0 7).2.2 (by decide)
  exact ⟨h.1.trans (by decide), h.2.trans (by decide)⟩

/-! ### Event: key-level description of the three calls -/

theorem eventRecord_present (env : Env) (reg : Registry) (key : ObjectKey) (n : SyncNode)
    (h : reg key = some n) : eventRecord env reg key = n := by
  simp [eventRecord, CreateEventNode, h]

theorem eventRecord_update (env : Env) (reg : Registry) (key : ObjectKey) (n : SyncNode) :
    eventRecord env (Function.update reg key (some n)) key = n :=
  eventRecord_present env _ key n (Function.update_same _ _ _)

theorem EventWaitMsg_key (env : Env) (reg : Registry) (src : Int) (key : ObjectKey) (tid : Int)
    (n : SyncNode) (hn : eventRecord env reg key = n) :
    (EventWaitMsg env reg src key tid).1 key =
        some ⟨n.Kind, if n.val ≠ 0 ∧ n.data ≠ 0 then 0 else n.val, n.data,
          if n.val ≠ 0 then n.waitlist else n.waitlist ++ [⟨src, tid⟩]⟩ ∧
      (EventWaitMsg env reg src key tid).2 = if n.val ≠ 0 then [⟨src, tid⟩] else [] := by
  subst hn
  cases h : reg key with
  | none =>
    simp only [eventRecord, EventWaitMsg, CreateEventNode, h, RcWakeRemoteThread,
      SyncNode.waitqueue]
    by_cases hv : toInt32 (env.get key 2) = 0
    · simp [hv]
    · by_cases hd : toInt32 (env.get key 0) = 0
      · simp [hv, hd]
      · simp [hv, hd]
  | some n =>
    obtain ⟨K, v, d, w⟩ := n
    simp only [eventRecord, EventWaitMsg, CreateEventNode, h, RcWakeRemoteThread,
      SyncNode.waitqueue]
    by_cases hv : v = 0
    · simp [hv]
    · by_cases hd : d = 0
      · simp [hv, hd, h]
      · simp [hv, hd]

theorem SetEventMsg_key (env : Env) (reg : Registry) (src : Int) (key : ObjectKey)
    (n : SyncNode) (hn : eventRecord env reg key = n) :
    (SetEventMsg env reg src key).1 key =
        some ⟨n.Kind, if n.data ≠ 0 ∧ n.waitlist ≠ [] then 0 else 1, n.data,
          if n.data ≠ 0 then n.waitlist.tail else []⟩ ∧
      (SetEventMsg env reg src key).2 = if n.data ≠ 0 then n.waitlist.take 1 else n.waitlist := by
  subst hn
  cases h : reg key with
  | none =>
    simp only [eventRecord, SetEventMsg, CreateEventNode, h, RcWakeRemoteThread,
      SyncNode.waitqueue, drainWaitqueue_eq]
    by_cases hd : toInt32 (env.get key 0) = 0
    · simp [hd]
    · simp [hd]
  | some n =>
    obtain ⟨K, v, d, w⟩ := n
    simp only [eventRecord, SetEventMsg, CreateEventNode, h, RcWakeRemoteThread,
      SyncNode.waitqueue, drainWaitqueue_eq]
    by_cases hd : d = 0
    · simp [hd]
    · cases w with
      | nil => simp [hd]
      | cons th rest => simp [hd]

theorem ResetEventMsg_key (env : Env) (reg : Registry) (src : Int) (key : ObjectKey)
    (n : SyncNode) (hn : eventRecord env reg key = n) :
    (ResetEventMsg env reg src key).1 key = some ⟨n.Kind, 0, n.data, n.waitlist⟩ ∧
      (ResetEventMsg env reg src key).2 = [] := by
  subst hn
  simp [ResetEventMsg, eventRecord]

theorem runEvent_append (env : Env) (key : ObjectKey) (reg : Registry) (l1 l2 : List EvCall) :
    runEvent env key reg (l1 ++ l2) =
      ((runEvent env key (runEvent env key reg l1).1 l2).1,
        (runEvent env key reg l1).2 ++ (runEvent env key (runEvent env key reg l1).1 l2).2) := by
  induction l1 generalizing reg with
  | nil => simp [runEvent]
  | cons c rest ih => simp [runEvent, ih, List.append_assoc]

/-- C11: `ResetEventMsg(src, key)`, on the record found under the key or materialized
from the store: the trace is empty, the record is left with signaled cleared and
with the same queue, auto_reset flag and kind; and whatever the store holds by then,
an `EventWaitMsg` arriving next on that key wakes nobody and appends its caller at
the tail of that queue. -/
theorem ResetEventMsg_contract (env : Env) (sync_data : Registry) (src : Int)
    (b_id : ObjectKey) :
    (ResetEventMsg env sync_data src b_id).2 = [] ∧
    (ResetEventMsg env sync_data src b_id).1 b_id =
      some { eventRecord env sync_data b_id with val := 0 } ∧
    ∀ (env2 : Env) (src2 thread_id2 : Int),
      (EventWaitMsg env2 (ResetEventMsg env sync_data src b_id).1 src2 b_id thread_id2).2 = [] ∧
      (EventWaitMsg env2 (ResetEventMsg env sync_data src b_id).1 src2 b_id thread_id2).1 b_id =
        some { eventRecord env sync_data b_id with
                val := 0,
                waitlist := (eventRecord env sync_data b_id).waitqueue ++
                  [⟨src2, thread_id2⟩] } := by
  obtain ⟨h1, h2⟩ := ResetEventMsg_key env sync_data src b_id _ rfl
  refine ⟨h2, h1, ?_⟩
  intro env2 src2 tid2
  obtain ⟨g1, g2⟩ := EventWaitMsg_key env2 (ResetEventMsg env sync_data src b_id).1 src2 b_id
    tid2 _ (eventRecord_present env2 _ b_id _ h1)
  simp only [ne_eq, not_true_eq_false, false_and, if_false] at g1 g2
  exact ⟨g2, g1⟩

/-- C11, on a signaled manual-reset event with one queued thread: the reset clears
the flag and keeps the queue, and the next wait is queued behind it. -/
theorem ResetEventMsg_contract_witness :
    (ResetEventMsg (eventEnv 0 1) (singleRegistry 7 ⟨SyncKind.Event, 1, 0, [⟨0, 2⟩]⟩) 0 7).1 7 =
        some ⟨SyncKind.Event, 0, 0, [⟨0, 2⟩]⟩ ∧
      (EventWaitMsg (eventEnv 0 1)
        (ResetEventMsg (eventEnv 0 1) (singleRegistry 7 ⟨SyncKind.Event, 1, 0, [⟨0, 2⟩]⟩) 0 7).1
        1 7 3).1 7 = some ⟨SyncKind.Event, 0, 0, [⟨0, 2⟩, ⟨1, 3⟩]⟩ := by
  have h := ResetEventMsg_contract (eventEnv 0 1)
    (singleRegistry 7 ⟨SyncKind.Event, 1, 0, [⟨0, 2⟩]⟩) 0 7
  exact ⟨h.2.1.trans (by decide), (h.2.2 (eventEnv 0 1) 1 3).2.trans (by decide)⟩

/-! ### Event: sequences of calls -/

theorem evCall_key (env : Env) (key : ObjectKey) (reg : Registry) (c : EvCall) :
    ∃ n2, (evCall env key reg c).1 key = some n2 ∧
      n2.data = (eventRecord env reg key).data ∧ n2.Kind = (eventRecord env reg key).Kind := by
  cases c with
  | wait src tid => exact ⟨_, (EventWaitMsg_key env reg src key tid _ rfl).1, rfl, rfl⟩
  | set src => exact ⟨_, (SetEventMsg_key env reg src key _ rfl).1, rfl, rfl⟩
  | reset src => exact ⟨_, (ResetEventMsg_key env reg src key _ rfl).1, rfl, rfl⟩

/-- After any single event call the record is unsignaled, or its queue is empty, or
it is manual-reset. -/
theorem evCall_signaled (env : Env) (key : ObjectKey) (reg : Registry) (c : EvCall) :
    ∃ n2, (evCall env key reg c).1 key = some n2 ∧
      (n2.val ≠ 0 → n2.waitlist = [] ∨ n2.data = 0) := by
  cases c with
  | wait src tid =>
    refine ⟨_, (EventWaitMsg_key env reg src key tid _ rfl).1, ?_⟩
    intro hv
    simp only at hv ⊢
    by_cases hd : (eventRecord env reg key).data = 0
    · exact Or.inr hd
    · by_cases hv0 : (eventRecord env reg key).val = 0
      · simp [hv0] at hv
      · simp [hv0, hd] at hv
  | set src =>
    refine ⟨_, (SetEventMsg_key env reg src key _ rfl).1, ?_⟩
    intro hv
    simp only at hv ⊢
    by_cases hd : (eventRecord env reg key).data = 0
    · exact Or.inr hd
    · left
      by_cases hq : (eventRecord env reg key).waitlist = []
      · simp [hd, hq]
      · simp [hd, hq] at hv
  | reset src =>
    refine ⟨_, (ResetEventMsg_key env reg src key _ rfl).1, ?_⟩
    intro hv
    simp at hv

/-- A signaled manual-reset event with an empty queue stays so under waits and sets. -/
theorem runEvent_manual_signaled (env : Env) (key : ObjectKey) (ops : List EvCall) :
    ∀ (reg : Registry) (n : SyncNode), reg key = some n → n.val ≠ 0 → n.data = 0 →
      n.waitlist = [] → (∀ c ∈ ops, c.isReset = false) →
      ∃ n2, (runEvent env key reg ops).1 key = some n2 ∧ n2.val ≠ 0 ∧ n2.data = 0 ∧
        n2.waitlist = [] := by
  induction ops with
  | nil => intro reg n h hv hd hq _; exact ⟨n, by simpa [runEvent] using h, hv, hd, hq⟩
  | cons c rest ih =>
    intro reg n h hv hd hq hops
    have hrest : ∀ c ∈ rest, c.isReset = false := fun c hc => hops c (List.mem_cons_of_mem _ hc)
    have hrec := eventRecord_present env reg key n h
    cases c with
    | wait src tid =>
      obtain ⟨g1, _⟩ := EventWaitMsg_key env reg src key tid n hrec
      simp only [hv, hd, ne_eq, not_false_eq_true, not_true_eq_false, and_false, if_false,
        if_true] at g1
      obtain ⟨n2, f1, f2⟩ := ih _ _ g1 hv rfl hq hrest
      exact ⟨n2, by simpa [runEvent, evCall] using f1, f2⟩
    | set src =>
      obtain ⟨g1, _⟩ := SetEventMsg_key env reg src key n hrec
      simp only [hd, ne_eq, not_true_eq_false, false_and, if_false] at g1
      obtain ⟨n2, f1, f2⟩ := ih _ _ g1 (by simp) rfl rfl hrest
      exact ⟨n2, by simpa [runEvent, evCall] using f1, f2⟩
    | reset src =>
      have := hops (EvCall.reset src) (List.mem_cons_self _ _)
      simp [EvCall.isReset] at this

/-- C13: on a manual-reset event (the record found under the key or materialized)
with `w` queued waiters, one `SetEventMsg` wakes exactly those `w` waiters, in queue
order; and after any further waits and sets on that key with no reset among them,
an `EventWaitMsg` wakes its caller, leaves the record as it is and leaves the wait
set empty. -/
theorem manual_event_broadcast (env : Env) (sync_data : Registry) (src : Int)
    (b_id : ObjectKey) (hman : (eventRecord env sync_data b_id).data = 0) :
    (SetEventMsg env sync_data src b_id).2 = (eventRecord env sync_data b_id).waitqueue ∧
    (SetEventMsg env sync_data src b_id).2.length =
      (eventRecord env sync_data b_id).waitqueue.length ∧
    ∀ (ops : List EvCall), (∀ c ∈ ops, c.isReset = false) →
      ∀ (env2 : Env) (src2 thread_id2 : Int),
        (EventWaitMsg env2 (runEvent env2 b_id (SetEventMsg env sync_data src b_id).1 ops).1
            src2 b_id thread_id2).2 = [⟨src2, thread_id2⟩] ∧
        (EventWaitMsg env2 (runEvent env2 b_id (SetEventMsg env sync_data src b_id).1 ops).1
            src2 b_id thread_id2).1 b_id =
          (runEvent env2 b_id (SetEventMsg env sync_data src b_id).1 ops).1 b_id ∧
        waitset (EventWaitMsg env2
            (runEvent env2 b_id (SetEventMsg env sync_data src b_id).1 ops).1
            src2 b_id thread_id2).1 b_id = [] := by
  obtain ⟨h1, h2⟩ := SetEventMsg_key env sync_data src b_id _ rfl
  simp only [hman, ne_eq, not_true_eq_false, false_and, if_false] at h1 h2
  refine ⟨h2, by rw [h2], ?_⟩
  intro ops hops env2 src2 tid2
  obtain ⟨n2, f1, f2, f3, f4⟩ := runEvent_manual_signaled env2 b_id ops _ _ h1 (by simp) rfl rfl
    hops
  obtain ⟨g1, g2⟩ := EventWaitMsg_key env2 _ src2 b_id tid2 n2
    (eventRecord_present env2 _ b_id n2 f1)
  obtain ⟨K, v, d, w⟩ := n2
  simp only at f2 f3 f4
  subst f3 f4
  simp only [f2, ne_eq, not_false_eq_true, not_true_eq_false, and_false, if_false,
    if_true] at g1 g2
  refine ⟨g2, ?_, ?_⟩
  · rw [g1, f1]
  · simp [waitset, g1]

/-- C13, on a manual-reset event with two queued threads: the set wakes both; after
one more wait and one more set, a further wait wakes its caller. -/
theorem manual_event_broadcast_witness :
    (SetEventMsg (eventEnv 0 0)
        (singleRegistry 7 ⟨SyncKind.Event, 0, 0, [⟨0, 2⟩, ⟨1, 3⟩]⟩) 0 7).2 =
        [⟨0, 2⟩, ⟨1, 3⟩] ∧
      (EventWaitMsg (eventEnv 0 0)
        (runEvent (eventEnv 0 0) 7
          (SetEventMsg (eventEnv 0 0)
            (singleRegistry 7 ⟨SyncKind.Event, 0, 0, [⟨0, 2⟩, ⟨1, 3⟩]⟩) 0 7).1
          [EvCall.wait 1 4, EvCall.set 0]).1 1 7 5).2 = [⟨1, 5⟩] := by
  have h := manual_event_broadcast (eventEnv 0 0)
    (singleRegistry 7 ⟨SyncKind.Event, 0, 0, [⟨0, 2⟩, ⟨1, 3⟩]⟩) 0 7 (by decide)
  exact ⟨h.1.trans (by decide),
    (h.2.2 [EvCall.wait 1 4, EvCall.set 0] (by decide) (eventEnv 0 0) 1 5).1⟩

/-- C16: after every call of every sequence of `EventWaitMsg`, `SetEventMsg` and
`ResetEventMsg` calls on one key, from any registry, the record under the key
satisfies: if it is signaled then its waitqueue is empty or it is not auto-reset. -/
theorem event_signaled_invariant (env : Env) (sync_data : Registry) (b_id : ObjectKey)
    (ops : List EvCall) (c : EvCall) :
    ∃ node, (runEvent env b_id sync_data (ops ++ [c])).1 b_id = some node ∧
      (node.val ≠ 0 → node.waitqueue = [] ∨ node.data = 0) := by
  obtain ⟨n2, h1, h2⟩ := evCall_signaled env b_id (runEvent env b_id sync_data ops).1 c
  refine ⟨n2, ?_, h2⟩
  rw [runEvent_append]
  simpa [runEvent] using h1

/-- The accounting of sets on an auto-reset event whose flag is 0 or 1 and whose
queue is empty while it is signaled: every set wakes one thread, or raises the
flag, or is absorbed by a flag already raised; every wait woken lowers the flag. -/
theorem runEvent_auto (env : Env) (key : ObjectKey) (ops : List EvCall) :
    ∀ (reg : Registry), (eventRecord env reg key).data ≠ 0 →
      ((eventRecord env reg key).val = 0 ∨
        ((eventRecord env reg key).val = 1 ∧ (eventRecord env reg key).waitlist = [])) →
      (∀ c ∈ ops, c.isReset = false) →
      ((runEvent env key reg ops).2.length : Int) + (absorbedSets env key reg ops : Int) +
          (eventRecord env (runEvent env key reg ops).1 key).val =
        ((ops.countP EvCall.isSet : Nat) : Int) + (eventRecord env reg key).val ∧
      ((eventRecord env (runEvent env key reg ops).1 key).val = 0 ∨
        (eventRecord env (runEvent env key reg ops).1 key).val = 1) := by
  induction ops with
  | nil =>
    intro reg _ hv _
    refine ⟨by simp [runEvent, absorbedSets], ?_⟩
    rcases hv with hv | hv
    · exact Or.inl (by simpa [runEvent] using hv)
    · exact Or.inr (by simpa [runEvent] using hv.1)
  | cons c rest ih =>
    intro reg hd hv hops
    have hrest : ∀ c ∈ rest, c.isReset = false := fun c hc => hops c (List.mem_cons_of_mem _ hc)
    generalize hn : eventRecord env reg key = n at hd hv
    obtain ⟨K, v, d, w⟩ := n
    simp only at hd hv
    cases c with
    | wait src tid =>
      obtain ⟨g1, g2⟩ := EventWaitMsg_key env reg src key tid _ hn
      have hrec := eventRecord_present env _ key _ g1
      simp only at g1 g2 hrec
      rcases hv with hv | ⟨hv, hw⟩
      · subst hv
        simp only [ne_eq, not_true_eq_false, false_and, if_false] at g2 hrec
        obtain ⟨i1, i2⟩ := ih (EventWaitMsg env reg src key tid).1 (by rw [hrec]; exact hd)
          (by rw [hrec]; exact Or.inl rfl) hrest
        rw [hrec] at i1
        refine ⟨?_, by simpa [runEvent, evCall] using i2⟩
        simp only [runEvent, evCall, absorbedSets, EvCall.isSet, g2, List.countP_cons,
          List.length_append, List.length_nil] at i1 ⊢
        simp only [hn]
        push_cast at i1 ⊢
        simp at i1 ⊢
        omega
      · subst hv hw
        simp only [ne_eq, one_ne_zero, not_false_eq_true, hd, and_self, if_true] at g2 hrec
        obtain ⟨i1, i2⟩ := ih (EventWaitMsg env reg src key tid).1 (by rw [hrec]; exact hd)
          (by rw [hrec]; exact Or.inl rfl) hrest
        rw [hrec] at i1
        refine ⟨?_, by simpa [runEvent, evCall] using i2⟩
        simp only [runEvent, evCall, absorbedSets, EvCall.isSet, g2, List.countP_cons,
          List.length_append, List.length_singleton] at i1 ⊢
        simp only [hn]
        push_cast at i1 ⊢
        simp at i1 ⊢
        omega
    | set src =>
      obtain ⟨g1, g2⟩ := SetEventMsg_key env reg src key _ hn
      have hrec := eventRecord_present env _ key _ g1
      simp only [ne_eq, hd, not_false_eq_true, true_and, if_true] at g1 g2 hrec
      cases w with
      | nil =>
        simp only [not_true_eq_false, if_false, List.tail_nil, List.take_nil] at g2 hrec
        obtain ⟨i1, i2⟩ := ih (SetEventMsg env reg src key).1 (by rw [hrec]; exact hd)
          (by rw [hrec]; exact Or.inr ⟨rfl, rfl⟩) hrest
        rw [hrec] at i1
        refine ⟨?_, by simpa [runEvent, evCall] using i2⟩
        simp only [runEvent, evCall, absorbedSets, EvCall.isSet, g2, List.countP_cons,
          List.length_append, List.length_nil, hn] at i1 ⊢
        rcases hv with hv | ⟨hv, _⟩
        · subst hv
          push_cast at i1 ⊢
          simp at i1 ⊢
          omega
        · subst hv
          push_cast at i1 ⊢
          simp at i1 ⊢
          omega
      | cons th tl =>
        have hv0 : v = 0 := by
          rcases hv with hv | ⟨_, hw⟩
          · exact hv
          · simp at hw
        subst hv0
        simp only [ne_eq, not_false_eq_true, if_true, List.tail_cons, reduceCtorEq] at g2 hrec
        obtain ⟨i1, i2⟩ := ih (SetEventMsg env reg src key).1 (by rw [hrec]; exact hd)
          (by rw [hrec]; exact Or.inl rfl) hrest
        rw [hrec] at i1
        refine ⟨?_, by simpa [runEvent, evCall] using i2⟩
        simp only [runEvent, evCall, absorbedSets, EvCall.isSet, g2, List.countP_cons,
          List.length_append, hn] at i1 ⊢
        push_cast at i1 ⊢
        simp at i1 ⊢
        omega
    | reset src =>
      have := hops (EvCall.reset src) (List.mem_cons_self _ _)
      simp [EvCall.isReset] at this

/-- C12, counterexample: on an auto-reset event that starts unsignaled, two sets
followed by two waits wake one waiter: the second set finds the flag already raised
and the second wait is queued. One waiter woken, two `SetEventMsg` calls. -/
theorem auto_event_exclusivity_counterexample :
    (runEvent (eventEnv 1 0) 7 emptyRegistry
        [EvCall.set 0, EvCall.set 0, EvCall.wait 1 1, EvCall.wait 1 2]).2 = [⟨1, 1⟩] ∧
      ([⟨1, 1⟩] : List SyncThreadNode).length ≠
        [EvCall.set 0, EvCall.set 0, EvCall.wait 1 1, EvCall.wait 1 2].countP EvCall.isSet := by
  decide

/-- C12, amended: for every sequence of `SetEventMsg` and `EventWaitMsg` calls on
one auto-reset event that is materialized unsignaled by the first of them, the
number of threads woken, plus the number of sets that found the event already
signaled, plus the final value of the signaled flag (0 or 1), equals the number of
`SetEventMsg` calls; in particular the number of threads woken never exceeds the
number of `SetEventMsg` calls. -/
theorem auto_event_set_accounting (env : Env) (sync_data : Registry) (b_id : ObjectKey)
    (ops : List EvCall) (habs : sync_data b_id = none)
    (hauto : toInt32 (env.get b_id 0) ≠ 0) (hunsig : toInt32 (env.get b_id 2) = 0)
    (hops : ∀ c ∈ ops, c.isReset = false) :
    ((runEvent env b_id sync_data ops).2.length : Int) +
        (absorbedSets env b_id sync_data ops : Int) +
        (eventRecord env (runEvent env b_id sync_data ops).1 b_id).val =
      ((ops.countP EvCall.isSet : Nat) : Int) ∧
    ((eventRecord env (runEvent env b_id sync_data ops).1 b_id).val = 0 ∨
      (eventRecord env (runEvent env b_id sync_data ops).1 b_id).val = 1) ∧
    (runEvent env b_id sync_data ops).2.length ≤ ops.countP EvCall.isSet := by
  have hrec : eventRecord env sync_data b_id =
      ⟨SyncKind.Event, 0, toInt32 (env.get b_id 0), []⟩ := by
    simp [eventRecord, CreateEventNode, habs, hunsig]
  obtain ⟨h1, h2⟩ := runEvent_auto env b_id ops sync_data (by rw [hrec]; exact hauto)
    (by rw [hrec]; exact Or.inl rfl) hops
  rw [hrec] at h1
  simp only [add_zero] at h1
  refine ⟨h1, h2, ?_⟩
  rcases h2 with h2 | h2 <;> rw [h2] at h1 <;> omega

/-- C12, amended, on the storm of scenario 3 cut to two waiters: two waits are
queued, two sets wake them, a third set raises the flag and a fourth is absorbed;
2 woken + 1 absorbed + flag 1 = 4 sets. -/
theorem auto_event_set_accounting_witness :
    ((runEvent (eventEnv 1 0) 7 emptyRegistry
          [EvCall.wait 1 1, EvCall.wait 1 2, EvCall.set 0, EvCall.set 0, EvCall.set 0,
            EvCall.set 0]).2.length : Int) +
        (absorbedSets (eventEnv 1 0) 7 emptyRegistry
          [EvCall.wait 1 1, EvCall.wait 1 2, EvCall.set 0, EvCall.set 0, EvCall.set 0,
            EvCall.set 0] : Int) +
        (eventRecord (eventEnv 1 0) (runEvent (eventEnv 1 0) 7 emptyRegistry
          [EvCall.wait 1 1, EvCall.wait 1 2, EvCall.set 0, EvCall.set 0, EvCall.set 0,
            EvCall.set 0]).1 7).val =
      (([EvCall.wait 1 1, EvCall.wait 1 2, EvCall.set 0, EvCall.set 0, EvCall.set 0,
            EvCall.set 0].countP EvCall.isSet : Nat) : Int) ∧
    (runEvent (eventEnv 1 0) 7 emptyRegistry
          [EvCall.wait 1 1, EvCall.wait 1 2, EvCall.set 0, EvCall.set 0, EvCall.set 0,
            EvCall.set 0]).2 = [⟨1, 1⟩, ⟨1, 2⟩] := by
  have h := auto_event_set_accounting (eventEnv 1 0) emptyRegistry 7
    [EvCall.wait 1 1, EvCall.wait 1 2, EvCall.set 0, EvCall.set 0, EvCall.set 0,
      EvCall.set 0] rfl (by decide) (by decide) (by decide)
  exact ⟨h.1, by decide⟩

/-! ### Queue order -/

theorem waitset_semaphoreRecord (env : Env) (reg : Registry) (key : ObjectKey) :
    waitset reg key = (semaphoreRecord env reg key).waitlist := by
  unfold waitset semaphoreRecord
  cases reg key <;> rfl

theorem waitset_eventRecord (env : Env) (reg : Registry) (key : ObjectKey) :
    waitset reg key = (eventRecord env reg key).waitlist := by
  unfold waitset eventRecord CreateEventNode
  cases reg key <;> rfl

theorem waitset_of_some (reg : Registry) (key : ObjectKey) (n : SyncNode)
    (h : reg key = some n) : waitset reg key = n.waitlist := by
  simp [waitset, h]

/-- What one semaphore leave does to the wait set: the trace followed by the new
wait set is the old wait set, and the trace has at most one entry. -/
theorem SemaphoreLeaveMsg_waitset (env : Env) (reg : Registry) (src : Int) (key : ObjectKey)
    (tid : Int) :
    waitset reg key =
      (SemaphoreLeaveMsg env reg src key tid).2 ++
        waitset (SemaphoreLeaveMsg env reg src key tid).1 key := by
  cases h : reg key with
  | none =>
    rw [SemaphoreLeaveMsg_absent env reg src key tid h]
    rcases SemaphoreLeaveMsg_cases env _ src key tid _ (Function.update_same _ _ _) _ rfl with
      ⟨h1, h2, _⟩ | ⟨th, rest, hq, _, _, _⟩
    · rw [h2, waitset_of_some _ key _ h1]; simp [waitset, h]
    · simp at hq
  | some n =>
    rcases SemaphoreLeaveMsg_cases env reg src key tid n h _ rfl with
      ⟨h1, h2, _⟩ | ⟨th, rest, hq, _, h1, h2⟩
    · rw [h2, waitset_of_some _ key _ h1, waitset_of_some _ key _ h]; rfl
    · rw [h2, waitset_of_some _ key _ h1, waitset_of_some _ key _ h, hq]; rfl

theorem semQueueLog_order (env : Env) (key : ObjectKey) (ops : List SemCall) :
    ∀ reg : Registry,
      waitset reg key ++ (semQueueLog env key reg ops).1 =
        (semQueueLog env key reg ops).2 ++ waitset (runSem env key reg ops).1 key := by
  induction ops with
  | nil => intro reg; simp [semQueueLog, runSem]
  | cons c rest ih =>
    intro reg
    cases c with
    | enter src tid =>
      obtain ⟨h1, h2⟩ := SemaphoreMsg_fst env reg ⟨src, tid⟩ key _ rfl _ rfl
      have hw := waitset_of_some _ key _ h1
      have ih2 := ih (SemaphoreMsg env reg src key tid).1
      simp only [semQueueLog, runSem, semCall]
      rw [waitset_semaphoreRecord env reg key]
      simp only at h2 hw
      by_cases hv : wrap32 ((semaphoreRecord env reg key).val - 1) ≥ 0
      · simp only [hv, if_true] at h2 hw
        rw [h2, if_neg (by simp), ← ih2, hw]
      · simp only [hv, if_false] at h2 hw
        rw [h2, if_pos rfl, ← ih2, hw]
        simp
    | leave src tid =>
      have ih2 := ih (SemaphoreLeaveMsg env reg src key tid).1
      simp only [semQueueLog, runSem, semCall]
      rw [List.append_assoc, ← ih2, ← List.append_assoc,
        ← SemaphoreLeaveMsg_waitset env reg src key tid]

theorem evQueueLog_order (env : Env) (key : ObjectKey) (ops : List EvCall) :
    ∀ reg : Registry,
      waitset reg key ++ (evQueueLog env key reg ops).1 =
        (evQueueLog env key reg ops).2 ++ waitset (runEvent env key reg ops).1 key := by
  induction ops with
  | nil => intro reg; simp [evQueueLog, runEvent]
  | cons c rest ih =>
    intro reg
    cases c with
    | wait src tid =>
      obtain ⟨h1, h2⟩ := EventWaitMsg_key env reg src key tid _ rfl
      have hw := waitset_of_some _ key _ h1
      have ih2 := ih (EventWaitMsg env reg src key tid).1
      simp only [evQueueLog, runEvent, evCall]
      rw [waitset_eventRecord env reg key]
      simp only at hw
      by_cases hv : (eventRecord env reg key).val = 0
      · simp only [hv, ne_eq, not_true_eq_false, if_false] at h2 hw
        rw [h2, if_pos rfl, ← ih2, hw]
        simp
      · simp only [hv, ne_eq, not_false_eq_true, if_true] at h2 hw
        rw [h2, if_neg (by simp), ← ih2, hw]
    | set src =>
      obtain ⟨h1, h2⟩ := SetEventMsg_key env reg src key _ rfl
      have hw := waitset_of_some _ key _ h1
      have ih2 := ih (SetEventMsg env reg src key).1
      simp only [evQueueLog, runEvent, evCall]
      rw [List.append_assoc, ← ih2, ← List.append_assoc, waitset_eventRecord env reg key, h2, hw]
      congr 1
      by_cases hd : (eventRecord env reg key).data = 0
      · simp [hd]
      · simp only [hd, ne_eq, not_false_eq_true, if_true]
        cases (eventRecord env reg key).waitlist <;> simp
    | reset src =>
      obtain ⟨h1, _⟩ := ResetEventMsg_key env reg src key _ rfl
      have hw := waitset_of_some _ key _ h1
      have ih2 := ih (ResetEventMsg env reg src key).1
      simp only [evQueueLog, runEvent, evCall]
      rw [← ih2, hw, waitset_eventRecord env reg key]

theorem take_length_of_append_eq (a b c d : List SyncThreadNode) (h : a ++ b = c ++ d) :
    c = (a ++ b).take c.length := by
  rw [h]; simp

/-- C14: for every sequence of requests on one semaphore, and for every sequence of
requests on one event (auto-reset or not), from any registry: the threads already
in the queue followed by the callers enqueued by the run, in enqueue order, are the
threads woken from the queue, in wake order, followed by the threads still queued.
So the `i`-th thread woken from the queue is the `i`-th thread enqueued: no waiter
is woken from the queue before one enqueued earlier. -/
theorem queue_fifo (env : Env) (sync_data : Registry) (b_id : ObjectKey)
    (sops : List SemCall) (eops : List EvCall) :
    (waitset sync_data b_id ++ (semQueueLog env b_id sync_data sops).1 =
        (semQueueLog env b_id sync_data sops).2 ++
          waitset (runSem env b_id sync_data sops).1 b_id ∧
      (semQueueLog env b_id sync_data sops).2 =
        (waitset sync_data b_id ++ (semQueueLog env b_id sync_data sops).1).take
          (semQueueLog env b_id sync_data sops).2.length) ∧
    (waitset sync_data b_id ++ (evQueueLog env b_id sync_data eops).1 =
        (evQueueLog env b_id sync_data eops).2 ++
          waitset (runEvent env b_id sync_data eops).1 b_id ∧
      (evQueueLog env b_id sync_data eops).2 =
        (waitset sync_data b_id ++ (evQueueLog env b_id sync_data eops).1).take
          (evQueueLog env b_id sync_data eops).2.length) :=
  ⟨⟨semQueueLog_order env b_id sops sync_data,
      take_length_of_append_eq _ _ _ _ (semQueueLog_order env b_id sops sync_data)⟩,
    ⟨evQueueLog_order env b_id eops sync_data,
      take_length_of_append_eq _ _ _ _ (evQueueLog_order env b_id eops sync_data)⟩⟩

/-- C14, with slot 0 holding 1: the first enter is woken at once, the next two are
queued; four leaves wake the two queued threads in the order in which they were
queued. -/
theorem queue_fifo_witness :
    (semQueueLog (constEnv 1) 7 emptyRegistry
        [SemCall.enter 0 1, SemCall.enter 1 2, SemCall.enter 1 3, SemCall.leave 0 1,
          SemCall.leave 0 1, SemCall.leave 1 2, SemCall.leave 1 3]).2 =
      (waitset emptyRegistry 7 ++ (semQueueLog (constEnv 1) 7 emptyRegistry
        [SemCall.enter 0 1, SemCall.enter 1 2, SemCall.enter 1 3, SemCall.leave 0 1,
          SemCall.leave 0 1, SemCall.leave 1 2, SemCall.leave 1 3]).1).take
        (semQueueLog (constEnv 1) 7 emptyRegistry
          [SemCall.enter 0 1, SemCall.enter 1 2, SemCall.enter 1 3, SemCall.leave 0 1,
            SemCall.leave 0 1, SemCall.leave 1 2, SemCall.leave 1 3]).2.length ∧
    semQueueLog (constEnv 1) 7 emptyRegistry
        [SemCall.enter 0 1, SemCall.enter 1 2, SemCall.enter 1 3, SemCall.leave 0 1,
          SemCall.leave 0 1, SemCall.leave 1 2, SemCall.leave 1 3] =
      ([⟨1, 2⟩, ⟨1, 3⟩], [⟨1, 2⟩, ⟨1, 3⟩]) :=
  ⟨(queue_fifo (constEnv 1) emptyRegistry 7
      [SemCall.enter 0 1, SemCall.enter 1 2, SemCall.enter 1 3, SemCall.leave 0 1,
        SemCall.leave 0 1, SemCall.leave 1 2, SemCall.leave 1 3] []).1.2, by decide⟩

/-! ### The Sync Manager as a whole -/

theorem BarrierMsg_eq (env : Env) (reg : Registry) (src : Int) (key : ObjectKey) (tid : Int) :
    BarrierMsg env reg src key tid =
      if wrap32 ((barrierRecord env reg key).val + 1) ≥ (barrierRecord env reg key).data then
        (Function.update reg key
          (some ⟨(barrierRecord env reg key).Kind, 0, (barrierRecord env reg key).data, []⟩),
          (⟨src, tid⟩ : SyncThreadNode) :: (barrierRecord env reg key).waitlist)
      else
        (Function.update reg key
          (some ⟨(barrierRecord env reg key).Kind, wrap32 ((barrierRecord env reg key).val + 1),
            (barrierRecord env reg key).data,
            (barrierRecord env reg key).waitlist ++ [⟨src, tid⟩]⟩), []) := by
  cases h : reg key with
  | none =>
    rw [BarrierMsg_absent env reg src key tid h,
      BarrierMsg_present env _ src key tid _ (Function.update_same _ _ _)]
    simp
  | some n =>
    rw [BarrierMsg_present env reg src key tid n h]
    simp [barrierRecord, h]

/-- Every operation leaves the records of the other keys alone. -/
theorem syncStep_other (env : Env) (reg : Registry) (op : SyncOp) (k : ObjectKey)
    (hk : k ≠ op.key) : (syncStep env reg op).1 k = reg k := by
  cases op with
  | barrier src key tid =>
    simp only [SyncOp.key] at hk
    simp only [syncStep]
    rw [BarrierMsg_eq]
    split <;> simp [Function.update_noteq hk]
  | semEnter src key tid =>
    simp only [SyncOp.key] at hk
    simp only [syncStep]
    rw [SemaphoreMsg_eq]
    split <;> simp [Function.update_noteq hk]
  | semLeave src key tid =>
    simp only [SyncOp.key] at hk
    simp only [syncStep, SemaphoreLeaveMsg]
    split
    · split <;> simp [Function.update_noteq hk]
    · simp [Function.update_noteq hk]
  | eventWait src key tid =>
    simp only [SyncOp.key] at hk
    simp only [syncStep, EventWaitMsg, CreateEventNode]
    cases reg key <;> simp only <;> split <;> try split
    all_goals simp [Function.update_noteq hk]
  | eventSet src key =>
    simp only [SyncOp.key] at hk
    simp only [syncStep, SetEventMsg, CreateEventNode]
    cases reg key <;> simp only <;> split <;> try split
    all_goals simp [Function.update_noteq hk]
  | eventReset src key =>
    simp only [SyncOp.key] at hk
    simp only [syncStep, ResetEventMsg, CreateEventNode]
    cases reg key <;> simp [Function.update_noteq hk]

theorem syncStepDefined_some (env : Env) (reg : Registry) (op : SyncOp)
    (r : Registry × List SyncThreadNode) (h : syncStepDefined env reg op = some r) :
    kindAgrees reg op = true ∧ r = syncStep env reg op := by
  unfold syncStepDefined at h
  split at h
  · rename_i hk
    simp only [Option.some.injEq] at h
    exact ⟨hk, h.symm⟩
  · exact absurd h (by simp)

/-- A run in which every operation meets a record of its own kind is the run of the
dispatch. -/
theorem runSyncDefined_eq (ops : List (Env × SyncOp)) :
    ∀ (reg : Registry) (r : Registry × List (ObjectKey × SyncThreadNode)),
      runSyncDefined reg ops = some r → r = runSync reg ops := by
  induction ops with
  | nil =>
    intro reg r h
    simp only [runSyncDefined, Option.some.injEq] at h
    rw [← h]
    rfl
  | cons p rest ih =>
    intro reg r h
    obtain ⟨env, op⟩ := p
    unfold runSyncDefined at h
    cases h1 : syncStepDefined env reg op with
    | none => rw [h1] at h; exact absurd h (by simp)
    | some r1 =>
      rw [h1] at h
      simp only [] at h
      cases h2 : runSyncDefined r1.1 rest with
      | none => rw [h2] at h; exact absurd h (by simp)
      | some r2 =>
        rw [h2] at h
        simp only [Option.some.injEq] at h
        have e1 := (syncStepDefined_some env reg op r1 h1).2
        have e2 := ih r1.1 r2 h2
        rw [← h, e2, e1]
        rfl

/-- On a record whose count is the length of its waitlist, and whose waitlist is
shorter than the threshold or empty, a run of arrivals keeps both facts and the
threshold. -/
theorem runBarrier_inv (env : Env) (key : ObjectKey) (arrivals : List SyncThreadNode) :
    ∀ (reg : Registry) (n : SyncNode), reg key = some n → n.data < 2147483648 →
      n.val = (n.waitlist.length : Int) →
      ((n.waitlist.length : Int) < n.data ∨ n.waitlist = []) →
      ∃ n2, (runBarrier env key reg arrivals).1 key = some n2 ∧ n2.data = n.data ∧
        n2.val = (n2.waitlist.length : Int) ∧
        ((n2.waitlist.length : Int) < n2.data ∨ n2.waitlist = []) := by
  induction arrivals with
  | nil => intro reg n h _ hv hw; exact ⟨n, by simpa [runBarrier] using h, rfl, hv, hw⟩
  | cons th rest ih =>
    intro reg n h hd hv hw
    have hwrap : wrap32 (n.val + 1) = n.val + 1 := by
      apply wrap32_of_range
      · omega
      · rcases hw with hw | hw
        · omega
        · rw [hv, hw]; simp
    have hstep := BarrierMsg_present env reg th.machine key th.thread_id n h
    rw [hwrap] at hstep
    simp only [runBarrier]
    by_cases hge : n.val + 1 ≥ n.data
    · rw [if_pos hge] at hstep
      obtain ⟨n2, f1, f2, f3⟩ := ih (BarrierMsg env reg th.machine key th.thread_id).1
        ⟨n.Kind, 0, n.data, []⟩ (by rw [hstep]; simp) hd rfl (Or.inr rfl)
      exact ⟨n2, f1, f2, f3⟩
    · rw [if_neg hge] at hstep
      obtain ⟨n2, f1, f2, f3⟩ := ih (BarrierMsg env reg th.machine key th.thread_id).1
        ⟨n.Kind, n.val + 1, n.data, n.waitlist ++ [⟨th.machine, th.thread_id⟩]⟩
        (by rw [hstep]; simp) hd (by simp only [List.length_append, List.length_singleton];
                                     push_cast; omega)
        (Or.inl (by simp only [List.length_append, List.length_singleton]; push_cast; omega))
      exact ⟨n2, f1, f2, f3⟩

/-- C17, counterexample: slot 0 holds `0xFFFFFFFF`, which reads as the threshold -1;
the first arrival trips the barrier at once and leaves an empty waitlist, and
|waitlist| = 0 is not `≤ -1`. -/
theorem barrier_waitlist_bound_counterexample :
    (runBarrier (constEnv 4294967295) 7 emptyRegistry [⟨0, 1⟩]).1 7 =
        some ⟨SyncKind.Barrier, 0, -1, []⟩ ∧
      ¬ ((([] : List SyncThreadNode).length : Int) ≤ -1) := by
  decide

/-- C17, amended: for every barrier record reached by a sequence of `BarrierMsg`
calls on a key that was absent before, if the threshold read from store slot 0 (the
`data` field) is non-negative then |waitlist| `≤` threshold after every call; the
count equals |waitlist|, and for a threshold of at least 1 the waitlist is strictly
shorter than the threshold. -/
theorem barrier_waitlist_bound (env : Env) (sync_data : Registry) (b_id : ObjectKey)
    (arrivals : List SyncThreadNode) (node : SyncNode) (habs : sync_data b_id = none)
    (hnode : (runBarrier env b_id sync_data arrivals).1 b_id = some node)
    (hthr : 0 ≤ node.data) :
    (node.waitlist.length : Int) ≤ node.data ∧ node.val = (node.waitlist.length : Int) ∧
      (1 ≤ node.data → (node.waitlist.length : Int) < node.data) := by
  cases arrivals with
  | nil => simp [runBarrier, habs] at hnode
  | cons th rest =>
    have h0 : runBarrier env b_id sync_data (th :: rest) =
        runBarrier env b_id (Function.update sync_data b_id
          (some (barrierRecord env sync_data b_id))) (th :: rest) := by
      simp only [runBarrier]
      rw [BarrierMsg_absent env sync_data th.machine b_id th.thread_id habs]
    have hrec : barrierRecord env sync_data b_id =
        ⟨SyncKind.Barrier, 0, toInt32 (env.get b_id 0), []⟩ := by
      simp [barrierRecord, habs]
    rw [h0, hrec] at hnode
    obtain ⟨n2, f1, f2, f3, f4⟩ := runBarrier_inv env b_id (th :: rest) _
      ⟨SyncKind.Barrier, 0, toInt32 (env.get b_id 0), []⟩ (Function.update_same _ _ _)
      (toInt32_range _).2 rfl (Or.inr rfl)
    rw [hnode] at f1
    have := Option.some.inj f1
    subst this
    refine ⟨?_, f3, ?_⟩
    · rcases f4 with f4 | f4
      · omega
      · rw [f4]; simpa using hthr
    · intro h1
      rcases f4 with f4 | f4
      · exact f4
      · rw [f4]; simp only [List.length_nil]; push_cast; omega

/-- C17, amended, with threshold 3 and five arrivals: the barrier has tripped once
and two threads wait. -/
theorem barrier_waitlist_bound_witness :
    (([⟨1, 4⟩, ⟨1, 5⟩] : List SyncThreadNode).length : Int) ≤ 3 :=
  (barrier_waitlist_bound (constEnv 3) emptyRegistry 7
    [⟨0, 1⟩, ⟨1, 2⟩, ⟨1, 3⟩, ⟨1, 4⟩, ⟨1, 5⟩] ⟨SyncKind.Barrier, 2, 3, [⟨1, 4⟩, ⟨1, 5⟩]⟩
    rfl (by decide) (by decide)).1

/-! ### Materialization and persistence -/

/-- On a key that is present no operation looks at the store. -/
theorem syncStep_env (env1 env2 : Env) (reg : Registry) (op : SyncOp) (n : SyncNode)
    (h : reg op.key = some n) : syncStep env1 reg op = syncStep env2 reg op := by
  cases op with
  | barrier src key tid =>
    simp only [SyncOp.key] at h
    simp only [syncStep]
    rw [BarrierMsg_present env1 reg src key tid n h, BarrierMsg_present env2 reg src key tid n h]
  | semEnter src key tid =>
    simp only [SyncOp.key] at h
    simp only [syncStep]
    rw [SemaphoreMsg_eq, SemaphoreMsg_eq env2, semaphoreRecord_present env1 reg key n h,
      semaphoreRecord_present env2 reg key n h]
  | semLeave src key tid =>
    simp only [SyncOp.key] at h
    simp only [syncStep]
    rw [SemaphoreLeaveMsg_present env1 reg src key tid n h,
      SemaphoreLeaveMsg_present env2 reg src key tid n h]
  | eventWait src key tid =>
    simp only [SyncOp.key] at h
    simp [syncStep, EventWaitMsg, CreateEventNode, h]
  | eventSet src key =>
    simp only [SyncOp.key] at h
    simp [syncStep, SetEventMsg, CreateEventNode, h]
  | eventReset src key =>
    simp only [SyncOp.key] at h
    simp [syncStep, ResetEventMsg, CreateEventNode, h]

/-- No operation removes a record or changes its kind or its `data` field. -/
theorem syncStep_keeps (env : Env) (reg : Registry) (op : SyncOp) (k : ObjectKey)
    (n : SyncNode) (h : reg k = some n) :
    ∃ n2, (syncStep env reg op).1 k = some n2 ∧ n2.Kind = n.Kind ∧ n2.data = n.data := by
  by_cases hk : k = op.key
  · subst hk
    cases op with
    | barrier src key tid =>
      simp only [SyncOp.key] at h
      simp only [syncStep, SyncOp.key]
      rw [BarrierMsg_present env reg src key tid n h]
      split
      · exact ⟨_, Function.update_same _ _ _, rfl, rfl⟩
      · exact ⟨_, Function.update_same _ _ _, rfl, rfl⟩
    | semEnter src key tid =>
      simp only [SyncOp.key] at h
      obtain ⟨h1, _⟩ := SemaphoreMsg_fst env reg ⟨src, tid⟩ key n
        (semaphoreRecord_present env reg key n h) _ rfl
      exact ⟨_, h1, rfl, rfl⟩
    | semLeave src key tid =>
      simp only [SyncOp.key] at h
      rcases SemaphoreLeaveMsg_cases env reg src key tid n h _ rfl with
        ⟨h1, _, _⟩ | ⟨th, rest, _, _, h1, _⟩
      · exact ⟨_, h1, rfl, rfl⟩
      · exact ⟨_, h1, rfl, rfl⟩
    | eventWait src key tid =>
      simp only [SyncOp.key] at h
      exact ⟨_, (EventWaitMsg_key env reg src key tid n
        (eventRecord_present env reg key n h)).1, rfl, rfl⟩
    | eventSet src key =>
      simp only [SyncOp.key] at h
      exact ⟨_, (SetEventMsg_key env reg src key n
        (eventRecord_present env reg key n h)).1, rfl, rfl⟩
    | eventReset src key =>
      simp only [SyncOp.key] at h
      exact ⟨_, (ResetEventMsg_key env reg src key n
        (eventRecord_present env reg key n h)).1, rfl, rfl⟩
  · exact ⟨n, by rw [syncStep_other env reg op k hk]; exact h, rfl, rfl⟩

theorem runSync_keeps (ops : List (Env × SyncOp)) :
    ∀ (reg : Registry) (k : ObjectKey) (n : SyncNode), reg k = some n →
      ∃ n2, (runSync reg ops).1 k = some n2 ∧ n2.Kind = n.Kind ∧ n2.data = n.data := by
  induction ops with
  | nil => intro reg k n h; exact ⟨n, by simpa [runSync] using h, rfl, rfl⟩
  | cons p rest ih =>
    intro reg k n h
    obtain ⟨env, op⟩ := p
    obtain ⟨n1, h1, h2, h3⟩ := syncStep_keeps env reg op k n h
    obtain ⟨n2, g1, g2, g3⟩ := ih _ k n1 h1
    exact ⟨n2, by simpa [runSync] using g1, g2.trans h2, g3.trans h3⟩

/-- After an operation its key is in the registry. -/
theorem syncStep_key_present (env : Env) (reg : Registry) (op : SyncOp) :
    (syncStep env reg op).1 op.key ≠ none := by
  cases op with
  | barrier src key tid =>
    simp only [syncStep, SyncOp.key]
    rw [BarrierMsg_eq]
    split <;> simp
  | semEnter src key tid =>
    simp only [syncStep, SyncOp.key]
    rw [(SemaphoreMsg_fst env reg ⟨src, tid⟩ key _ rfl _ rfl).1]
    simp
  | semLeave src key tid =>
    simp only [syncStep, SyncOp.key, SemaphoreLeaveMsg]
    split
    · split <;> simp
    · simp
  | eventWait src key tid =>
    simp only [syncStep, SyncOp.key]
    rw [(EventWaitMsg_key env reg src key tid _ rfl).1]
    simp
  | eventSet src key =>
    simp only [syncStep, SyncOp.key]
    rw [(SetEventMsg_key env reg src key _ rfl).1]
    simp
  | eventReset src key =>
    simp only [syncStep, SyncOp.key]
    rw [(ResetEventMsg_key env reg src key _ rfl).1]
    simp

/-- On an absent key every operation but `SemaphoreLeaveMsg` acts as on the record
built from the store at that moment. -/
theorem syncStep_materialized (env : Env) (reg : Registry) (op : SyncOp)
    (h : reg op.key = none) (hl : ∀ src k tid, op ≠ SyncOp.semLeave src k tid) :
    syncStep env reg op =
      syncStep env (Function.update reg op.key (some (materializedRecord env op))) op := by
  cases op with
  | barrier src key tid =>
    simp only [SyncOp.key] at h
    simp only [syncStep, SyncOp.key, materializedRecord, SyncOp.Kind]
    rw [BarrierMsg_absent env reg src key tid h]
    simp [barrierRecord, h]
  | semEnter src key tid =>
    simp only [SyncOp.key] at h
    simp only [syncStep, SyncOp.key, materializedRecord, SyncOp.Kind]
    rw [SemaphoreMsg_absent env reg src key tid]
    simp [semaphoreRecord, h]
  | semLeave src key tid => exact absurd rfl (hl src key tid)
  | eventWait src key tid =>
    simp only [SyncOp.key] at h
    simp [syncStep, SyncOp.key, materializedRecord, SyncOp.Kind, EventWaitMsg, CreateEventNode, h]
  | eventSet src key =>
    simp only [SyncOp.key] at h
    simp [syncStep, SyncOp.key, materializedRecord, SyncOp.Kind, SetEventMsg, CreateEventNode, h]
  | eventReset src key =>
    simp only [SyncOp.key] at h
    simp [syncStep, SyncOp.key, materializedRecord, SyncOp.Kind, ResetEventMsg, CreateEventNode, h]

/-- After an operation that met no record or a record of its own kind, the record
under its key has the kind of the operation. -/
theorem syncStep_kind (env : Env) (reg : Registry) (op : SyncOp)
    (h : kindAgrees reg op = true) :
    ∃ n, (syncStep env reg op).1 op.key = some n ∧ n.Kind = op.Kind := by
  unfold kindAgrees at h
  cases hr : reg op.key with
  | some n0 =>
    rw [hr] at h
    simp only [decide_eq_true_eq] at h
    obtain ⟨n2, h1, h2, _⟩ := syncStep_keeps env reg op op.key n0 hr
    exact ⟨n2, h1, h2.trans h⟩
  | none =>
    have hcreated : ∃ n0 : SyncNode, n0.Kind = op.Kind ∧
        syncStep env reg op = syncStep env (Function.update reg op.key (some n0)) op := by
      cases op with
      | semLeave src key tid =>
        simp only [SyncOp.key] at hr
        exact ⟨_, rfl, SemaphoreLeaveMsg_absent env reg src key tid hr⟩
      | barrier src key tid =>
        exact ⟨_, rfl, syncStep_materialized env reg _ hr (fun _ _ _ hc => by cases hc)⟩
      | semEnter src key tid =>
        exact ⟨_, rfl, syncStep_materialized env reg _ hr (fun _ _ _ hc => by cases hc)⟩
      | eventWait src key tid =>
        exact ⟨_, rfl, syncStep_materialized env reg _ hr (fun _ _ _ hc => by cases hc)⟩
      | eventSet src key =>
        exact ⟨_, rfl, syncStep_materialized env reg _ hr (fun _ _ _ hc => by cases hc)⟩
      | eventReset src key =>
        exact ⟨_, rfl, syncStep_materialized env reg _ hr (fun _ _ _ hc => by cases hc)⟩
    obtain ⟨n0, hk0, hstep⟩ := hcreated
    obtain ⟨n2, h1, h2, _⟩ := syncStep_keeps env (Function.update reg op.key (some n0)) op
      op.key n0 (Function.update_same _ _ _)
    rw [hstep]
    exact ⟨n2, h1, h2.trans hk0⟩

/-- A discipline under which a run is defined: every key has one kind, the records
of the registry have the kind of their key and every operation has the kind of its
key. -/
theorem runSyncDefined_of_kinds (kinds : ObjectKey → SyncKind) (ops : List (Env × SyncOp)) :
    ∀ reg : Registry, (∀ k n, reg k = some n → n.Kind = kinds k) →
      (∀ p ∈ ops, p.2.Kind = kinds p.2.key) →
      runSyncDefined reg ops = some (runSync reg ops) := by
  induction ops with
  | nil => intro reg _ _; rfl
  | cons p rest ih =>
    intro reg hreg hops
    obtain ⟨env, op⟩ := p
    have hop : op.Kind = kinds op.key := hops (env, op) (List.mem_cons_self _ _)
    have hagree : kindAgrees reg op = true := by
      unfold kindAgrees
      cases hr : reg op.key with
      | none => rfl
      | some n => simp only [decide_eq_true_eq]; rw [hreg _ n hr, hop]
    have hstep : syncStepDefined env reg op = some (syncStep env reg op) := by
      unfold syncStepDefined
      rw [if_pos hagree]
    have hreg2 : ∀ k n, (syncStep env reg op).1 k = some n → n.Kind = kinds k := by
      intro k n hk
      by_cases hkey : k = op.key
      · subst hkey
        obtain ⟨n2, h1, h2⟩ := syncStep_kind env reg op hagree
        rw [h1] at hk
        simp only [Option.some.injEq] at hk
        rw [← hk, h2, hop]
      · rw [syncStep_other env reg op k hkey] at hk
        exact hreg k n hk
    have hrest := ih (syncStep env reg op).1 hreg2
      (fun q hq => hops q (List.mem_cons_of_mem _ hq))
    unfold runSyncDefined
    rw [hstep]
    simp only []
    rw [hrest]
    rfl

/-- C18 (divergence of the code, and what holds beside it). Key 4 is absent, its
store slot 0 holds 3 and the memory word at address 3 is 10: `SemaphoreLeaveMsg`
creates the record with initial value 10 and value 11, where the record built from
the store has initial value 3 and would get value 4. In general the leave path
creates its record from the memory word at the address given by slot 0. Every other
operation on an absent key acts as on the record built from the store values of
that moment (threshold, initial value and auto_reset from slot 0, signaled from slot
2, empty wait set). An operation that finds a record of its own kind does not depend
on the store. Through every sequence of operations that each meet no record or a
record of their own kind, with any store contents at each call, a record once
present stays present with the same kind and the same `data` field, and after each
operation the record under its key has the operation's kind. -/
theorem lazy_materialization :
    (syncStep ⟨fun _ _ => 3, fun _ => 10⟩ emptyRegistry (SyncOp.semLeave 0 4 1)).1 4 =
      some ⟨SyncKind.Semaphore, 11, 10, []⟩ ∧
    (syncStep ⟨fun _ _ => 3, fun _ => 10⟩
      (Function.update emptyRegistry 4
        (some (materializedRecord ⟨fun _ _ => 3, fun _ => 10⟩ (SyncOp.semLeave 0 4 1))))
      (SyncOp.semLeave 0 4 1)).1 4 = some ⟨SyncKind.Semaphore, 4, 3, []⟩ ∧
    (∀ (env : Env) (reg : Registry) (src : Int) (k : ObjectKey) (tid : Int), reg k = none →
      SemaphoreLeaveMsg env reg src k tid =
        SemaphoreLeaveMsg env (Function.update reg k
          (some ⟨SyncKind.Semaphore, toInt32 (env.deref (env.get k 0)),
            toInt32 (env.deref (env.get k 0)), []⟩)) src k tid) ∧
    (∀ (env : Env) (reg : Registry) (op : SyncOp), reg op.key = none →
      (∀ src k tid, op ≠ SyncOp.semLeave src k tid) →
      syncStep env reg op =
        syncStep env (Function.update reg op.key (some (materializedRecord env op))) op) ∧
    (∀ (env1 env2 : Env) (reg : Registry) (op : SyncOp) (n : SyncNode),
      reg op.key = some n → n.Kind = op.Kind → syncStep env1 reg op = syncStep env2 reg op) ∧
    (∀ (env : Env) (reg : Registry) (op : SyncOp) (r : Registry × List SyncThreadNode),
      syncStepDefined env reg op = some r →
      ∃ n, r.1 op.key = some n ∧ n.Kind = op.Kind) ∧
    (∀ (reg : Registry) (ops : List (Env × SyncOp))
      (r : Registry × List (ObjectKey × SyncThreadNode)) (k : ObjectKey) (n : SyncNode),
      runSyncDefined reg ops = some r → reg k = some n →
      ∃ n2, r.1 k = some n2 ∧ n2.Kind = n.Kind ∧ n2.data = n.data) ∧
    (∃ r, runSyncDefined emptyRegistry
        [(constEnv 3, SyncOp.semEnter 0 7 1), (constEnv 0, SyncOp.semEnter 1 7 2),
          (constEnv 9, SyncOp.semLeave 1 7 2)] = some r ∧
      r.1 7 = some ⟨SyncKind.Semaphore, 2, 3, []⟩) := by
  refine ⟨by decide, by decide, SemaphoreLeaveMsg_absent, syncStep_materialized,
    fun env1 env2 reg op n h _ => syncStep_env env1 env2 reg op n h, ?_, ?_,
    ⟨_, rfl, by decide⟩⟩
  · intro env reg op r h
    obtain ⟨hk, hr⟩ := syncStepDefined_some env reg op r h
    rw [hr]
    exact syncStep_kind env reg op hk
  · intro reg ops r k n h hk
    rw [runSyncDefined_eq ops reg r h]
    exact runSync_keeps ops reg k n hk

/-- C19, the code at the failing input: key 7 is absent, its store slot 0 holds 5
and the memory word at address 5 is 0. `SemaphoreMsg` materializes initial = value =
5, the low 32 bits of slot 0; `SemaphoreLeaveMsg` materializes initial = value = 0,
the word at address 5, and then raises the value to 1. In general the leave path
takes its initial value from the memory word at the address given by slot 0. -/
theorem SemaphoreLeaveMsg_materialization_differs :
    semaphoreRecord (constEnv 5) emptyRegistry 7 = ⟨SyncKind.Semaphore, 5, 5, []⟩ ∧
    (SemaphoreLeaveMsg (constEnv 5) emptyRegistry 0 7 1).1 7 =
      some ⟨SyncKind.Semaphore, 1, 0, []⟩ ∧
    (SemaphoreLeaveMsg (constEnv 5) emptyRegistry 0 7 1).1 7 ≠
      some ⟨SyncKind.Semaphore, wrap32 (5 + 1), 5, []⟩ ∧
    ∀ (env : Env) (reg : Registry) (src : Int) (k : ObjectKey) (tid : Int), reg k = none →
      ∃ v, (SemaphoreLeaveMsg env reg src k tid).1 k =
        some ⟨SyncKind.Semaphore, v, toInt32 (env.deref (env.get k 0)), []⟩ := by
  refine ⟨by decide, by decide, by decide, ?_⟩
  intro env reg src k tid h
  rw [SemaphoreLeaveMsg_absent env reg src k tid h]
  rcases SemaphoreLeaveMsg_cases env _ src k tid _ (Function.update_same _ _ _) _ rfl with
    ⟨h1, _, _⟩ | ⟨th, rest, hq, _, _, _⟩
  · exact ⟨_, h1⟩
  · simp at hq

/-! ### Handshake -/

theorem dec32_enc32 (n : Nat) : dec32 (enc32 n) = n % 4294967296 := by
  simp only [enc32, dec32]; omega

theorem enc32_length (n : Nat) : (enc32 n).length = 4 := rfl

theorem toU32_lt (p : Int) : toU32 p < 4294967296 := by
  unfold toU32; omega

theorem toInt32_toU32 (p : Int) (h1 : -2147483648 ≤ p) (h2 : p < 2147483648) :
    toInt32 (toU32 p) = p := by
  unfold toInt32 toU32
  split <;> omega

theorem toInt32_dec32_enc32_toU32 (p : Int) (h1 : -2147483648 ≤ p) (h2 : p < 2147483648) :
    toInt32 (dec32 (enc32 (toU32 p))) = p := by
  rw [dec32_enc32, Nat.mod_eq_of_lt (toU32_lt p), toInt32_toU32 p h1 h2]

theorem RcRecv_append (a rest : List Nat) (n : Nat) (h : a.length = n) :
    RcRecv (a ++ rest) n = some (a, rest) := by
  subst h
  simp [RcRecv]

theorem takeWhile_nonzero (h rest : List Nat) (h0 : 0 ∉ h) :
    (h ++ [0] ++ rest).takeWhile (fun b => decide (b ≠ 0)) = h := by
  induction h with
  | nil => simp
  | cons a l ih =>
    have ha : a ≠ 0 := fun e => h0 (e ▸ List.mem_cons_self _ _)
    have hl : 0 ∉ l := fun e => h0 (List.mem_cons_of_mem _ e)
    simp only [List.cons_append, List.takeWhile_cons, ha, ne_eq, not_false_eq_true,
      decide_True, if_true]
    rw [ih hl]

theorem sendEntry_short (host : List Nat) (port : Int) (hl : host.length ≤ 254) :
    sendEntry host port =
      (enc32 (host.length + 1) ++ (host ++ [0]) ++ enc32 (toU32 port), host) := by
  have hmod : (host.length + 1) % 4294967296 = host.length + 1 := Nat.mod_eq_of_lt (by omega)
  simp only [sendEntry, hmod]
  rw [if_neg (by omega)]
  rw [List.take_of_length_le (by simp)]

theorem recvEntry_sendEntry (buf rest host : List Nat) (port : Int) (hl : host.length ≤ 254)
    (h0 : 0 ∉ host) (h1 : -2147483648 ≤ port) (h2 : port < 2147483648) :
    recvEntry buf ((sendEntry host port).1 ++ rest) =
      Recv.ok ((host, port), (host ++ [0]) ++ buf.drop (host.length + 1), rest) := by
  rw [sendEntry_short host port hl]
  simp only [List.append_assoc]
  unfold recvEntry
  rw [RcRecv_append _ _ 4 (enc32_length _)]
  simp only [dec32_enc32]
  have hmod : (host.length + 1) % 4294967296 = host.length + 1 := Nat.mod_eq_of_lt (by omega)
  rw [hmod, if_neg (by omega)]
  have hsplit : host ++ ([0] ++ (enc32 (toU32 port) ++ rest)) =
      (host ++ [0]) ++ (enc32 (toU32 port) ++ rest) := by simp
  rw [hsplit, RcRecv_append _ _ (host.length + 1) (by simp)]
  simp only
  rw [RcRecv_append _ _ 4 (enc32_length _)]
  simp only
  rw [takeWhile_nonzero host _ h0, toInt32_dec32_enc32_toU32 port h1 h2]
  simp

theorem recvTable_sendTable (hosts : List (List Nat)) :
    ∀ (ports : List Int) (buf rest : List Nat), ports.length = hosts.length →
      (∀ h ∈ hosts, h.length ≤ 254 ∧ 0 ∉ h) →
      (∀ p ∈ ports, -2147483648 ≤ p ∧ p < 2147483648) →
      (sendTable hosts ports).2 = hosts ∧
      ∃ buf2, recvTable hosts.length buf ((sendTable hosts ports).1 ++ rest) =
        Recv.ok (hosts.zip ports, buf2, rest) := by
  induction hosts with
  | nil => intro ports buf rest _ _ _; exact ⟨rfl, buf, by simp [sendTable, recvTable]⟩
  | cons host hosts ih =>
    intro ports buf rest hlen hh hp
    cases ports with
    | nil => simp at hlen
    | cons port ports =>
      have hhost := hh host (List.mem_cons_self _ _)
      have hport := hp port (List.mem_cons_self _ _)
      obtain ⟨i1, buf2, i2⟩ := ih ports ((host ++ [0]) ++ buf.drop (host.length + 1)) rest
        (by simpa using hlen) (fun h hm => hh h (List.mem_cons_of_mem _ hm))
        (fun p hm => hp p (List.mem_cons_of_mem _ hm))
      refine ⟨?_, buf2, ?_⟩
      · simp only [sendTable, List.headD_cons, List.tail_cons, i1]
        rw [sendEntry_short host port hhost.1]
      · simp only [sendTable, List.headD_cons, List.tail_cons, List.length_cons, recvTable,
          List.append_assoc]
        rw [recvEntry_sendEntry buf _ host port hhost.1 hhost.2 hport.1 hport.2]
        simp only
        rw [i2]
        simp

theorem MasterInfo_recv (mi : MasterInfo) (rest : List Nat) :
    RcRecv (mi.bytes ++ rest) 32 = some (mi.bytes, rest) :=
  RcRecv_append _ _ 32 rfl

theorem MasterInfo_ofBytes (mi : MasterInfo) :
    (MasterInfo.ofBytes mi.bytes).magic = toInt32 (toU32 mi.magic) ∧
      (MasterInfo.ofBytes mi.bytes).num_mem_server = mi.num_mem_server % 4294967296 ∧
      (MasterInfo.ofBytes mi.bytes).num_nodes = mi.num_nodes % 4294967296 ∧
      (MasterInfo.ofBytes mi.bytes).localport = toInt32 (toU32 mi.localport) := by
  have e : ∀ n, dec32 [n % 256, n / 256 % 256, n / 65536 % 256, n / 16777216 % 256] =
      n % 4294967296 := fun n => dec32_enc32 n
  refine ⟨?_, ?_, ?_, ?_⟩ <;>
    simp [MasterInfo.ofBytes, MasterInfo.bytes, enc32, e, Nat.mod_eq_of_lt (toU32_lt _)]

theorem slaveHello_recv :
    RcRecv slaveHello 4 = some (slaveHello, []) ∧ toInt32 (dec32 slaveHello) = RC_MAGIC_SLAVE := by
  decide

theorem handshake_tables (hosts : List (List Nat)) (ports : List Int)
    (memhosts : List (List Nat)) (memports : List Int) (node_id backty cachety : Nat)
    (checkpoint : Int) (master buf0 : List Nat)
    (hN : 1 ≤ hosts.length) (hN32 : hosts.length < 4294967296)
    (hM32 : memhosts.length < 4294967296)
    (hlen : ports.length = hosts.length) (hmlen : memports.length = memhosts.length)
    (hnames : ∀ h ∈ hosts.tail, h.length ≤ 254 ∧ 0 ∉ h)
    (hmnames : ∀ h ∈ memhosts, h.length ≤ 254 ∧ 0 ∉ h)
    (hports : ∀ p ∈ ports, -2147483648 ≤ p ∧ p < 2147483648)
    (hmports : ∀ p ∈ memports, -2147483648 ≤ p ∧ p < 2147483648) :
    (RcMasterHello slaveHello hosts ports memhosts memports node_id backty cachety
        checkpoint).1 = 0 ∧
    (RcMasterHello slaveHello hosts ports memhosts memports node_id backty cachety
        checkpoint).2.2 = (hosts, memhosts) ∧
    (RcSlaveHandshake master buf0
        (RcMasterHello slaveHello hosts ports memhosts memports node_id backty cachety
          checkpoint).2.1).tables =
      Recv.ok (hosts.length, master :: hosts.tail, ports, memhosts, memports) := by
  obtain ⟨host0, hostsT, rfl⟩ : ∃ a l, hosts = a :: l := by
    cases hosts with
    | nil => simp at hN
    | cons a l => exact ⟨a, l, rfl⟩
  obtain ⟨port0, portsT, rfl⟩ : ∃ a l, ports = a :: l := by
    cases ports with
    | nil => simp at hlen
    | cons a l => exact ⟨a, l, rfl⟩
  simp only [List.tail_cons] at hnames
  have hlenT : portsT.length = hostsT.length := by simpa using hlen
  have hp0 := hports port0 (List.mem_cons_self _ _)
  have hpT : ∀ p ∈ portsT, -2147483648 ≤ p ∧ p < 2147483648 :=
    fun p hm => hports p (List.mem_cons_of_mem _ hm)
  have hcnt : (host0 :: hostsT).length % 4294967296 = hostsT.length + 1 := by
    rw [Nat.mod_eq_of_lt hN32]; simp
  have hmcnt : memhosts.length % 4294967296 = memhosts.length := Nat.mod_eq_of_lt hM32
  have htake : ((host0 :: hostsT).take (hostsT.length + 1)).drop 1 = hostsT := by simp
  have hdrop : (host0 :: hostsT).drop (hostsT.length + 1) = [] := by simp
  have hello : RcMasterHello slaveHello (host0 :: hostsT) (port0 :: portsT) memhosts memports
      node_id backty cachety checkpoint =
      (0, (⟨RC_MAGIC_MASTER, memhosts.length, hostsT.length + 1, node_id, port0, backty,
            cachety, checkpoint⟩ : MasterInfo).bytes ++ (sendTable hostsT portsT).1 ++
          (sendTable memhosts memports).1,
        [host0] ++ (sendTable hostsT portsT).2 ++ [], (sendTable memhosts memports).2 ++ []) := by
    simp only [RcMasterHello, slaveHello_recv.1, slaveHello_recv.2, ne_eq, not_true_eq_false,
      if_false, hcnt, hmcnt, htake, hdrop, List.headD_cons, List.drop_succ_cons, List.drop_zero,
      List.take_length, List.drop_length, List.take_succ_cons, List.take_zero]
  obtain ⟨t1, buf1, r1⟩ := recvTable_sendTable hostsT portsT buf0 (sendTable memhosts memports).1
    hlenT hnames hpT
  obtain ⟨t2, buf2, r2⟩ := recvTable_sendTable memhosts memports buf1 [] hmlen hmnames hmports
  rw [hello]
  refine ⟨rfl, by simp [t1, t2], ?_⟩
  simp only [RcSlaveHandshake, List.append_assoc]
  rw [MasterInfo_recv]
  obtain ⟨m1, m2, m3, m4⟩ := MasterInfo_ofBytes
    ⟨RC_MAGIC_MASTER, memhosts.length, hostsT.length + 1, node_id, port0, backty, cachety,
      checkpoint⟩
  simp only at m1 m2 m3 m4
  rw [Nat.mod_eq_of_lt hM32] at m2
  rw [Nat.mod_eq_of_lt (by simpa using hN32)] at m3
  rw [toInt32_toU32 port0 hp0.1 hp0.2] at m4
  have m1b : toInt32 (toU32 RC_MAGIC_MASTER) = RC_MAGIC_MASTER := by decide
  rw [m1b] at m1
  simp only [m1, m2, m3, m4, ne_eq, not_true_eq_false, if_false, Nat.add_sub_cancel]
  rw [r1]
  simp only
  rw [← List.append_nil (sendTable memhosts memports).1, r2]
  simp only [Recv.tables, List.length_cons]
  have hz1 : (hostsT.zip portsT).map (fun e => e.1) = hostsT := by
    rw [show (fun e : List Nat × Int => e.1) = Prod.fst from rfl,
      List.map_fst_zip _ _ (by omega)]
  have hz2 : (hostsT.zip portsT).map (fun e => e.2) = portsT := by
    rw [show (fun e : List Nat × Int => e.2) = Prod.snd from rfl,
      List.map_snd_zip _ _ (by omega)]
  have hz3 : (memhosts.zip memports).map (fun e => e.1) = memhosts := by
    rw [show (fun e : List Nat × Int => e.1) = Prod.fst from rfl,
      List.map_fst_zip _ _ (by omega)]
  have hz4 : (memhosts.zip memports).map (fun e => e.2) = memports := by
    rw [show (fun e : List Nat × Int => e.2) = Prod.snd from rfl,
      List.map_snd_zip _ _ (by omega)]
  rw [hz1, hz2, hz3, hz4]
  rfl

/-- C20: handshake round trip. The master holds a table of `N ≥ 1` nodes and a
memory-server table (hosts and ports of equal lengths, counts and ports in the range
of their C types); every host name sent (indices `1..N-1` and all memory servers)
has no NUL byte and at most 254 bytes. Then `RcMasterHello`, answered by the
`SlaveInfo` that `RcSlave` sends, returns 0 and leaves its tables as they were, and
the handshake of `RcSlave` fed with the bytes sent succeeds with `num_nodes = N`,
hosts `1..N-1` and all ports equal to the master's (entry 0 of the hosts is the peer
address of the connection), and the same memory-server table. The decoded tables do
not depend on the node id, the backend and cache selectors, the checkpoint or the
previous contents of the receive buffer, so a second handshake against the same
master yields the same tables. -/
theorem handshake_round_trip (hosts : List (List Nat)) (ports : List Int)
    (memhosts : List (List Nat)) (memports : List Int) (node_id backty cachety : Nat)
    (checkpoint : Int) (master buf0 : List Nat)
    (hN : 1 ≤ hosts.length) (hN32 : hosts.length < 4294967296)
    (hM32 : memhosts.length < 4294967296)
    (hlen : ports.length = hosts.length) (hmlen : memports.length = memhosts.length)
    (hnames : ∀ h ∈ hosts.tail, h.length ≤ 254 ∧ 0 ∉ h)
    (hmnames : ∀ h ∈ memhosts, h.length ≤ 254 ∧ 0 ∉ h)
    (hports : ∀ p ∈ ports, -2147483648 ≤ p ∧ p < 2147483648)
    (hmports : ∀ p ∈ memports, -2147483648 ≤ p ∧ p < 2147483648) :
    (RcMasterHello slaveHello hosts ports memhosts memports node_id backty cachety
        checkpoint).1 = 0 ∧
    (RcMasterHello slaveHello hosts ports memhosts memports node_id backty cachety
        checkpoint).2.2 = (hosts, memhosts) ∧
    (RcSlaveHandshake master buf0
        (RcMasterHello slaveHello hosts ports memhosts memports node_id backty cachety
          checkpoint).2.1).tables =
      Recv.ok (hosts.length, master :: hosts.tail, ports, memhosts, memports) ∧
    ∀ (node_id2 backty2 cachety2 : Nat) (checkpoint2 : Int) (buf2 : List Nat),
      (RcSlaveHandshake master buf2
          (RcMasterHello slaveHello hosts ports memhosts memports node_id2 backty2 cachety2
            checkpoint2).2.1).tables =
        (RcSlaveHandshake master buf0
          (RcMasterHello slaveHello hosts ports memhosts memports node_id backty cachety
            checkpoint).2.1).tables := by
  obtain ⟨h1, h2, h3⟩ := handshake_tables hosts ports memhosts memports node_id backty cachety
    checkpoint master buf0 hN hN32 hM32 hlen hmlen hnames hmnames hports hmports
  refine ⟨h1, h2, h3, ?_⟩
  intro node_id2 backty2 cachety2 checkpoint2 buf2
  rw [h3]
  exact (handshake_tables hosts ports memhosts memports node_id2 backty2 cachety2
    checkpoint2 master buf2 hN hN32 hM32 hlen hmlen hnames hmnames hports hmports).2.2

/-- C20, on a cluster of three nodes and one memory server: the slave decodes three
nodes, the two peer names and all three ports of the master, and the memory server. -/
theorem handshake_round_trip_witness :
    (RcSlaveHandshake [49, 48, 46, 48, 46, 48, 46, 49] [7, 7, 7]
        (RcMasterHello slaveHello [[109], [110, 49], [110, 50]] [9000, 9001, -3]
          [[109, 99]] [11211] 1 0 0 (-1)).2.1).tables =
      Recv.ok (3, [[49, 48, 46, 48, 46, 48, 46, 49], [110, 49], [110, 50]], [9000, 9001, -3],
        [[109, 99]], [11211]) :=
  (handshake_round_trip [[109], [110, 49], [110, 50]] [9000, 9001, -3] [[109, 99]] [11211]
    1 0 0 (-1) [49, 48, 46, 48, 46, 48, 46, 49] [7, 7, 7] (by decide) (by decide) (by decide)
    (by decide) (by decide) (by decide) (by decide) (by decide) (by decide)).2.2.1

/-! ### Independence of primitives -/

theorem runRestart_locked (hosts : List (List Nat)) (ports : List Int) (num_nodes : Nat)
    (calls : List ((Nat → Bool) × List (List Nat) × List Int)) :
    runRestart hosts ports num_nodes 1 calls =
      calls.map fun c => ⟨1, [], c.2.1, c.2.2, none⟩ := by
  induction calls with
  | nil => simp [runRestart]
  | cons c rest ih => simp [runRestart, RestartCluster, ih]

/-- C25: in any sequence of `RestartCluster` calls in one process (the lock starts
at 0), the first call sends the `Restart` packet on the socket of every node
`1..num_nodes-1` and invokes the process-restart facility with its exclusion lists;
every later call sends nothing, does not invoke it, and leaves its exclusion lists
as they were; and after every call the lock is 1. -/
theorem restart_lock_once (hosts : List (List Nat)) (ports : List Int) (num_nodes : Nat)
    (c : (Nat → Bool) × List (List Nat) × List Int)
    (calls : List ((Nat → Bool) × List (List Nat) × List Int)) :
    runRestart hosts ports num_nodes 0 (c :: calls) =
        RestartCluster hosts ports num_nodes c.1 0 c.2.1 c.2.2 ::
          calls.map (fun d => ⟨1, [], d.2.1, d.2.2, none⟩) ∧
    (RestartCluster hosts ports num_nodes c.1 0 c.2.1 c.2.2).sent =
      List.range' 1 (num_nodes - 1) ∧
    (RestartCluster hosts ports num_nodes c.1 0 c.2.1 c.2.2).restarted =
      some ((RestartCluster hosts ports num_nodes c.1 0 c.2.1 c.2.2).excludes_ip,
        (RestartCluster hosts ports num_nodes c.1 0 c.2.1 c.2.2).excludes_ports) ∧
    ∀ o ∈ runRestart hosts ports num_nodes 0 (c :: calls), o.restart_lock = 1 := by
  have h1 : runRestart hosts ports num_nodes 0 (c :: calls) =
      RestartCluster hosts ports num_nodes c.1 0 c.2.1 c.2.2 ::
        calls.map (fun d => ⟨1, [], d.2.1, d.2.2, none⟩) := by
    simp only [runRestart]
    rw [show (RestartCluster hosts ports num_nodes c.1 0 c.2.1 c.2.2).restart_lock = 1 from by
      simp [RestartCluster], runRestart_locked]
  refine ⟨h1, by simp [RestartCluster], by simp [RestartCluster], ?_⟩
  intro o ho
  rw [h1] at ho
  rcases List.mem_cons.mp ho with h | h
  · rw [h]; simp [RestartCluster]
  · obtain ⟨d, _, hd⟩ := List.mem_map.mp h
    rw [← hd]

/-- C25, with three nodes of which node 2 cannot be reached: the first call sends to
nodes 1 and 2, excludes node 2 and restarts; the second call does nothing. -/
theorem restart_lock_once_witness :
    runRestart [[109], [110, 49], [110, 50]] [9000, 9001, 9002] 3 0
        [(fun i => decide (i = 2), [], []), (fun _ => true, [[120]], [1])] =
      [⟨1, [1, 2], [[110, 50]], [9002], some ([[110, 50]], [9002])⟩,
        ⟨1, [], [[120]], [1], none⟩] :=
  (restart_lock_once [[109], [110, 49], [110, 50]] [9000, 9001, 9002] 3
    (fun i => decide (i = 2), [], []) [(fun _ => true, [[120]], [1])]).1.trans (by decide)

/-! ### Handshake: the length cap -/

theorem takeWhile_nonzero_append (h x : List Nat) :
    (h ++ [0] ++ x).takeWhile (fun b => decide (b ≠ 0)) =
      h.takeWhile (fun b => decide (b ≠ 0)) := by
  induction h with
  | nil => simp
  | cons a l ih =>
    simp only [List.cons_append, List.takeWhile_cons]
    split
    · rw [ih]
    · rfl

theorem take_set_nul (l : List Nat) (h : 255 ≤ l.length) :
    (l.set 254 0 ++ [0]).take 255 = l.take 254 ++ [0] := by
  rw [List.take_append_of_le_length (by simp; omega)]
  rw [List.set_eq_take_append_cons_drop, if_pos (by omega)]
  rw [List.take_append_eq_append_take]
  have h1 : (l.take 254).length = 254 := by simp; omega
  rw [List.take_of_length_le (by omega), h1]
  simp

/-- The bytes of one table entry, for a name of any length below `2^32 - 1`. -/
theorem sendEntry_bytes (host : List Nat) (port : Int) (hl : host.length + 1 < 4294967296) :
    (sendEntry host port).1 =
      enc32 (min (host.length + 1) 255) ++ (host.take 254 ++ [0]) ++ enc32 (toU32 port) := by
  have hmod : (host.length + 1) % 4294967296 = host.length + 1 := Nat.mod_eq_of_lt hl
  simp only [sendEntry, hmod]
  by_cases hlong : host.length + 1 > 255
  · rw [if_pos hlong]
    simp only
    rw [take_set_nul host (by omega), Nat.min_eq_right (by omega)]
  · rw [if_neg hlong]
    simp only
    rw [List.take_of_length_le (by simp), List.take_of_length_le (by omega),
      Nat.min_eq_left (by omega)]

theorem recvEntry_sendEntry_any (buf rest host : List Nat) (port : Int)
    (hl : host.length + 1 < 4294967296) (h1 : -2147483648 ≤ port) (h2 : port < 2147483648) :
    recvEntry buf ((sendEntry host port).1 ++ rest) =
      Recv.ok (((host.take 254).takeWhile (fun b => decide (b ≠ 0)), port),
        (host.take 254 ++ [0]) ++ buf.drop (min (host.length + 1) 255), rest) := by
  rw [sendEntry_bytes host port hl]
  simp only [List.append_assoc]
  unfold recvEntry
  rw [RcRecv_append _ _ 4 (enc32_length _)]
  simp only [dec32_enc32]
  have hmod : min (host.length + 1) 255 % 4294967296 = min (host.length + 1) 255 :=
    Nat.mod_eq_of_lt (by omega)
  rw [hmod, if_neg (by omega)]
  have hsplit : host.take 254 ++ ([0] ++ (enc32 (toU32 port) ++ rest)) =
      (host.take 254 ++ [0]) ++ (enc32 (toU32 port) ++ rest) := by simp
  rw [hsplit, RcRecv_append _ _ (min (host.length + 1) 255) (by simp; omega)]
  simp only
  rw [RcRecv_append _ _ 4 (enc32_length _)]
  simp only
  rw [takeWhile_nonzero_append, toInt32_dec32_enc32_toU32 port h1 h2]
  simp

/-- C21, counterexample: a host name of 255 bytes whose first byte is NUL. The
record carries its first 254 bytes and a NUL, and the slave decodes the empty name,
not that 254-byte prefix. -/
theorem handshake_cap_counterexample :
    decodedHost (recvEntry [] ((sendEntry (0 :: List.replicate 254 97) 80).1)) = some [] ∧
      (0 :: List.replicate 254 97).take 254 ≠ [] := by
  set_option maxRecDepth 100000 in decide

theorem takeWhile_nonzero_self (h : List Nat) (h0 : 0 ∉ h) :
    h.takeWhile (fun b => decide (b ≠ 0)) = h := by
  have := takeWhile_nonzero h [] h0
  rw [takeWhile_nonzero_append] at this
  exact this

/-- C21, amended: for every host name (shorter than `2^32 - 1` bytes) the len field
`RcMasterHello` sends is min(length + 1, 255), so the slave's `len > 255` check never
rejects the record; for a host name of 255 bytes or more the record carries the
first 254 bytes of the name followed by a NUL; and the slave decodes the first 254
bytes of the name up to their first NUL byte, which is exactly that 254-byte prefix
when it contains no NUL byte. -/
theorem handshake_length_cap (host : List Nat) (port : Int) (buf rest : List Nat)
    (hl : host.length + 1 < 4294967296) (h1 : -2147483648 ≤ port) (h2 : port < 2147483648) :
    (sendEntry host port).1.take 4 = enc32 (min (host.length + 1) 255) ∧
    dec32 ((sendEntry host port).1.take 4) ≤ 255 ∧
    (255 ≤ host.length →
      (sendEntry host port).1 = enc32 255 ++ (host.take 254 ++ [0]) ++ enc32 (toU32 port)) ∧
    decodedHost (recvEntry buf ((sendEntry host port).1 ++ rest)) =
      some ((host.take 254).takeWhile fun b => decide (b ≠ 0)) ∧
    (0 ∉ host.take 254 →
      decodedHost (recvEntry buf ((sendEntry host port).1 ++ rest)) = some (host.take 254)) := by
  have hb := sendEntry_bytes host port hl
  have htake : (sendEntry host port).1.take 4 = enc32 (min (host.length + 1) 255) := by
    rw [hb, List.append_assoc, List.take_append_of_le_length (by simp [enc32_length])]
    exact List.take_of_length_le (by simp [enc32_length])
  have hr := recvEntry_sendEntry_any buf rest host port hl h1 h2
  refine ⟨htake, ?_, ?_, ?_, ?_⟩
  · rw [htake, dec32_enc32, Nat.mod_eq_of_lt (by omega)]; omega
  · intro hlong
    rw [hb, Nat.min_eq_right (by omega)]
  · rw [hr]; rfl
  · intro h0
    rw [hr]
    simp only [decodedHost]
    rw [takeWhile_nonzero_self _ h0]

/-- C21, amended, on a name of 300 bytes without NUL: the len field is 255 and the
slave decodes the first 254 bytes. -/
theorem handshake_length_cap_witness :
    (sendEntry (List.replicate 300 97) 80).1.take 4 = [255, 0, 0, 0] ∧
      decodedHost (recvEntry [] ((sendEntry (List.replicate 300 97) 80).1 ++ [])) =
        some (List.replicate 254 97) := by
  have h := handshake_length_cap (List.replicate 300 97) 80 [] []
    (by rw [List.length_replicate]; decide) (by decide) (by decide)
  refine ⟨h.1.trans (by rw [List.length_replicate]; decide), (h.2.2.2.2 ?_).trans ?_⟩
  · rw [List.take_replicate, List.mem_replicate]; decide
  · rw [List.take_replicate]; rfl

/-! ### Command packets and the slave loop -/

theorem toU32_toInt32 (n : Nat) : toU32 (toInt32 n) = n % 4294967296 := by
  unfold toU32 toInt32
  split <;> omega

theorem dec64_enc64 (n : Nat) : dec64 (enc64 n) = n % 18446744073709551616 := by
  have h : dec64 (enc64 n) =
      dec32 (enc32 (n % 4294967296)) + 4294967296 * dec32 (enc32 (n / 4294967296)) := rfl
  rw [h, dec32_enc32, dec32_enc32]
  omega

theorem RcCommandPack_bytes_length (c : RcCommandPack) : c.bytes.length = 24 := rfl

theorem RcCommandPack_ofBytes_bytes (c : RcCommandPack) (h0 : c.cmd < 4294967296)
    (h1 : c.param < 4294967296) (h2 : c.param2 < 4294967296)
    (h3 : c.param3 < 18446744073709551616) (h4 : c.param4 < 4294967296) :
    RcCommandPack.ofBytes c.bytes = c := by
  obtain ⟨a, b, d, e, f⟩ := c
  have h : RcCommandPack.ofBytes (RcCommandPack.bytes ⟨a, b, d, e, f⟩) =
      ⟨dec32 (enc32 a), dec32 (enc32 b), dec32 (enc32 d), dec64 (enc64 e), dec32 (enc32 f)⟩ := rfl
  simp only at h0 h1 h2 h3 h4
  rw [h, dec32_enc32, dec32_enc32, dec32_enc32, dec32_enc32, dec64_enc64, Nat.mod_eq_of_lt h0,
    Nat.mod_eq_of_lt h1, Nat.mod_eq_of_lt h2, Nat.mod_eq_of_lt h3, Nat.mod_eq_of_lt h4]

theorem RcCommandPack_recv (c : RcCommandPack) (rest : List Nat) :
    RcRecv (c.bytes ++ rest) 24 = some (c.bytes, rest) :=
  RcRecv_append _ _ 24 rfl

theorem slaveLoop_fuel (fuel : Nat) : ∀ stream : List Nat, stream.length < fuel →
    slaveLoop fuel stream = slaveLoop (stream.length + 1) stream := by
  induction fuel using Nat.strong_induction_on with
  | _ fuel ih =>
    intro stream hlt
    cases fuel with
    | zero => omega
    | succ f =>
      have key : ∀ s : List Nat, s.length < stream.length →
          slaveLoop f s = slaveLoop stream.length s := by
        intro s hs
        rw [ih f (by omega) s (by omega), ih stream.length (by omega) s hs]
      unfold slaveLoop
      cases hr : RcRecv stream 24 with
      | none => rfl
      | some p =>
        obtain ⟨hdr, s1⟩ := p
        have h24 : 24 ≤ stream.length ∧ s1 = stream.drop 24 := by
          unfold RcRecv at hr
          split at hr
          · simp only [Option.some.injEq, Prod.mk.injEq] at hr
            exact ⟨by assumption, hr.2.symm⟩
          · exact absurd hr (by simp)
        have hs1 : s1.length < stream.length := by
          rw [h24.2, List.length_drop]; omega
        have hnil : ([] : List Nat).length < stream.length := by
          simp only [List.length_nil]; omega
        simp only []
        rw [key s1 hs1, key [] hnil]
        cases hp : RcRecv s1 (RcCommandPack.ofBytes hdr).param4 with
        | none => rfl
        | some q =>
          obtain ⟨data, s2⟩ := q
          have hs2 : s2.length < stream.length := by
            unfold RcRecv at hp
            split at hp
            · simp only [Option.some.injEq, Prod.mk.injEq] at hp
              rw [← hp.2, List.length_drop]; omega
            · exact absurd hp (by simp)
          simp only []
          rw [key s2 hs2]

theorem slaveLoop_nil (fuel : Nat) : slaveLoop (fuel + 1) [] = ⟨[], LoopExit.socketError⟩ := rfl

theorem slaveLoop_short (fuel : Nat) (stream : List Nat) (h : stream.length < 24) :
    slaveLoop (fuel + 1) stream = ⟨[], LoopExit.socketError⟩ := by
  have hr : RcRecv stream 24 = none := by
    unfold RcRecv
    rw [if_neg (by omega)]
  unfold slaveLoop
  rw [hr]

theorem RcRecv_length (stream : List Nat) (n : Nat) (data s2 : List Nat)
    (h : RcRecv stream n = some (data, s2)) : stream = data ++ s2 ∧ data.length = n := by
  unfold RcRecv at h
  split at h
  · simp only [Option.some.injEq, Prod.mk.injEq] at h
    rw [← h.1, ← h.2]
    exact ⟨(List.take_append_drop n stream).symm, by rw [List.length_take]; omega⟩
  · exact absurd h (by simp)

/-- The equation of the slave loop: what it does with a command header at the front
of the stream. -/
theorem RcSlaveMainLoop_cons (c : RcCommandPack) (rest : List Nat) (h0 : c.cmd < 4294967296)
    (h1 : c.param < 4294967296) (h2 : c.param2 < 4294967296)
    (h3 : c.param3 < 18446744073709551616) (h4 : c.param4 < 4294967296) :
    RcSlaveMainLoop (c.bytes ++ rest) =
      if c.cmd = RcCmdClose then ⟨[], LoopExit.close⟩
      else if c.cmd = RcCmdCreateThread then
        if c.param4 ≠ 0 then
          if c.param4 > 2048 then RcSlaveMainLoop rest
          else
            match RcRecv rest c.param4 with
            | none => ⟨[], LoopExit.socketError⟩
            | some (data, s2) =>
              (RcSlaveMainLoop s2).after
                (SlaveAction.ThThreadEntryObject (toInt32 c.param) c.param2 c.param3 data)
        else (RcSlaveMainLoop rest).after (SlaveAction.ThThreadEntry (toInt32 c.param) c.param2 c.param3)
      else if c.cmd = RcCmdWakeSync then
        (RcSlaveMainLoop rest).after (SlaveAction.RcSetRemoteEvent (toInt32 c.param))
      else if c.cmd = RcCmdAlive then (RcSlaveMainLoop rest).after (SlaveAction.RcSend c)
      else if c.cmd = RcCmdRestart then
        (RcSlaveMainLoop rest).after SlaveAction.RestartCurrentProcess
      else RcSlaveMainLoop rest := by
  have hlen : (c.bytes ++ rest).length = rest.length + 23 + 1 := by
    rw [List.length_append, RcCommandPack_bytes_length]; omega
  have key : ∀ s : List Nat, s.length ≤ rest.length →
      slaveLoop (rest.length + 23 + 1) s = RcSlaveMainLoop s := fun s hs =>
    slaveLoop_fuel _ s (by omega)
  unfold RcSlaveMainLoop
  rw [hlen]
  unfold slaveLoop
  rw [RcCommandPack_recv]
  simp only [RcCommandPack_ofBytes_bytes c h0 h1 h2 h3 h4]
  rw [key rest (le_refl _), slaveLoop_nil]
  cases hp : RcRecv rest c.param4 with
  | none => rfl
  | some q =>
    obtain ⟨data, s2⟩ := q
    have hs2 : s2.length ≤ rest.length := by
      rw [(RcRecv_length _ _ _ _ hp).1, List.length_append]; omega
    simp only []
    rw [key s2 hs2]
    rfl

theorem RcSlaveMainLoop_oversized (c : RcCommandPack) (rest : List Nat)
    (h1 : c.param < 4294967296) (h2 : c.param2 < 4294967296)
    (h3 : c.param3 < 18446744073709551616) (h4 : c.param4 < 4294967296)
    (hc : c.cmd = RcCmdCreateThread) (hbig : 2048 < c.param4) :
    RcSlaveMainLoop (c.bytes ++ rest) = RcSlaveMainLoop rest := by
  rw [RcSlaveMainLoop_cons c rest (by rw [hc]; decide) h1 h2 h3 h4, hc,
    if_neg (by decide), if_pos rfl, if_pos (by omega), if_pos hbig]

theorem RcSlaveMainLoop_plain (c : RcCommandPack) (rest : List Nat)
    (h1 : c.param < 4294967296) (h2 : c.param2 < 4294967296)
    (h3 : c.param3 < 18446744073709551616)
    (hc : c.cmd = RcCmdCreateThread) (hz : c.param4 = 0) :
    RcSlaveMainLoop (c.bytes ++ rest) =
      (RcSlaveMainLoop rest).after (SlaveAction.ThThreadEntry (toInt32 c.param) c.param2 c.param3) := by
  rw [RcSlaveMainLoop_cons c rest (by rw [hc]; decide) h1 h2 h3 (by rw [hz]; decide), hc,
    if_neg (by decide), if_pos rfl, if_neg (by omega)]

theorem RcSlaveMainLoop_object (c : RcCommandPack) (data rest : List Nat)
    (h1 : c.param < 4294967296) (h2 : c.param2 < 4294967296)
    (h3 : c.param3 < 18446744073709551616)
    (hc : c.cmd = RcCmdCreateThread) (hpos : 0 < c.param4) (hle : c.param4 ≤ 2048)
    (hd : data.length = c.param4) :
    RcSlaveMainLoop (c.bytes ++ (data ++ rest)) =
      (RcSlaveMainLoop rest).after
        (SlaveAction.ThThreadEntryObject (toInt32 c.param) c.param2 c.param3 data) := by
  rw [RcSlaveMainLoop_cons c _ (by rw [hc]; decide) h1 h2 h3 (by omega), hc,
    if_neg (by decide), if_pos rfl, if_pos (by omega), if_neg (by omega),
    RcRecv_append data rest c.param4 hd]

theorem RcSlaveMainLoop_shortPayload (c : RcCommandPack) (rest : List Nat)
    (h1 : c.param < 4294967296) (h2 : c.param2 < 4294967296)
    (h3 : c.param3 < 18446744073709551616)
    (hc : c.cmd = RcCmdCreateThread) (hpos : 0 < c.param4) (hle : c.param4 ≤ 2048)
    (hshort : rest.length < c.param4) :
    RcSlaveMainLoop (c.bytes ++ rest) = ⟨[], LoopExit.socketError⟩ := by
  have hr : RcRecv rest c.param4 = none := by
    unfold RcRecv
    rw [if_neg (by omega)]
  rw [RcSlaveMainLoop_cons c _ (by rw [hc]; decide) h1 h2 h3 (by omega), hc,
    if_neg (by decide), if_pos rfl, if_pos (by omega), if_neg (by omega), hr]

theorem RcSlaveMainLoop_close (c : RcCommandPack) (rest : List Nat)
    (h1 : c.param < 4294967296) (h2 : c.param2 < 4294967296)
    (h3 : c.param3 < 18446744073709551616) (h4 : c.param4 < 4294967296)
    (hc : c.cmd = RcCmdClose) :
    RcSlaveMainLoop (c.bytes ++ rest) = ⟨[], LoopExit.close⟩ := by
  rw [RcSlaveMainLoop_cons c rest (by rw [hc]; decide) h1 h2 h3 h4, hc, if_pos rfl]

theorem RcSlaveMainLoop_zeros (k : Nat) (rest : List Nat) :
    RcSlaveMainLoop (List.replicate (24 * k) 0 ++ rest) = RcSlaveMainLoop rest := by
  induction k with
  | zero => rfl
  | succ k ih =>
    have h : List.replicate (24 * (k + 1)) 0 ++ rest =
        (⟨0, 0, 0, 0, 0⟩ : RcCommandPack).bytes ++ (List.replicate (24 * k) 0 ++ rest) := by
      rw [show 24 * (k + 1) = 24 + 24 * k from by ring, List.replicate_add, List.append_assoc]
      rfl
    rw [h, RcSlaveMainLoop_cons _ _ (by decide) (by decide) (by decide) (by decide) (by decide),
      if_neg (by decide), if_neg (by decide), if_neg (by decide), if_neg (by decide),
      if_neg (by decide), ih]

/-- C23 (divergence of the code): an oversized `CreateThread` header leaves the `switch`
before its payload is read, so the payload is parsed as command headers. With a payload
of 2049 bytes that begins with a plain `CreateThread` packet and a `Close` packet, the
loop spawns a thread and closes; with a payload of 2049 zero bytes it reads 85 unknown
commands and a header that straddles the following `WakeSync` packet, then ends on a
short read. In both runs the `WakeSync` that follows the payload is never dispatched,
while the loop fed that packet alone dispatches it. -/
theorem oversized_payload_desync :
    (RcCreateThread 7 8 9 ++ (⟨RcCmdClose, 0, 0, 0, 0⟩ : RcCommandPack).bytes ++
        List.replicate 2001 0).length = 2049 ∧
      RcSlaveMainLoop ((⟨RcCmdCreateThread, 1, 2, 3, 2049⟩ : RcCommandPack).bytes ++
        (RcCreateThread 7 8 9 ++ (⟨RcCmdClose, 0, 0, 0, 0⟩ : RcCommandPack).bytes ++
          List.replicate 2001 0) ++
        (⟨RcCmdWakeSync, 5, 0, 0, 0⟩ : RcCommandPack).bytes) =
      ⟨[SlaveAction.ThThreadEntry 7 8 9], LoopExit.close⟩ ∧
      RcSlaveMainLoop ((⟨RcCmdCreateThread, 1, 2, 3, 2049⟩ : RcCommandPack).bytes ++
        List.replicate 2049 0 ++ (⟨RcCmdWakeSync, 5, 0, 0, 0⟩ : RcCommandPack).bytes) =
      ⟨[], LoopExit.socketError⟩ ∧
      RcSlaveMainLoop (⟨RcCmdWakeSync, 5, 0, 0, 0⟩ : RcCommandPack).bytes =
      ⟨[SlaveAction.RcSetRemoteEvent 5], LoopExit.socketError⟩ := by
  refine ⟨?_, ?_, ?_, by decide⟩
  · rw [List.length_append, List.length_replicate]; rfl
  · have hs : RcCreateThread 7 8 9 = (⟨RcCmdCreateThread, 7, 8, 9, 0⟩ : RcCommandPack).bytes := by
      decide
    rw [hs, List.append_assoc, List.append_assoc, List.append_assoc,
      RcSlaveMainLoop_oversized _ _ (by decide) (by decide) (by decide) (by decide) rfl
        (by decide),
      RcSlaveMainLoop_plain _ _ (by decide) (by decide) (by decide) rfl rfl,
      RcSlaveMainLoop_close _ _ (by decide) (by decide) (by decide) (by decide) rfl]
    rfl
  · rw [List.append_assoc,
      RcSlaveMainLoop_oversized _ _ (by decide) (by decide) (by decide) (by decide) rfl
        (by decide),
      show (2049 : Nat) = 24 * 85 + 9 from rfl, List.replicate_add, List.append_assoc,
      RcSlaveMainLoop_zeros]
    decide

theorem slaveLoop_shortPayload (fuel : Nat) (c : RcCommandPack) (rest : List Nat)
    (h1 : c.param < 4294967296) (h2 : c.param2 < 4294967296)
    (h3 : c.param3 < 18446744073709551616)
    (hc : c.cmd = RcCmdCreateThread) (hpos : 0 < c.param4) (hle : c.param4 ≤ 2048)
    (hshort : rest.length < c.param4) :
    slaveLoop (fuel + 2) (c.bytes ++ rest) = ⟨[], LoopExit.socketError⟩ := by
  have hr : RcRecv rest c.param4 = none := by
    unfold RcRecv
    rw [if_neg (by omega)]
  unfold slaveLoop
  rw [RcCommandPack_recv]
  simp only [RcCommandPack_ofBytes_bytes c (by rw [hc]; decide) h1 h2 h3 (by omega)]
  rw [hc, if_neg (by decide), if_pos rfl, if_pos (by omega), if_neg (by omega), hr]
  rfl

theorem RcSlaveHandshakeStream_tables (master buf0 stream : List Nat) :
    RcSlaveHandshake master buf0 stream =
      match RcSlaveHandshakeStream master buf0 stream with
      | Recv.error e => Recv.error e
      | Recv.ok (t, _) => Recv.ok t := by
  unfold RcSlaveHandshake RcSlaveHandshakeStream
  cases h : RcRecv stream 32 with
  | none => rfl
  | some p =>
    obtain ⟨mib, s1⟩ := p
    simp only []
    by_cases hm : (MasterInfo.ofBytes mib).magic ≠ RC_MAGIC_MASTER
    · rw [if_pos hm, if_pos hm]
    · rw [if_neg hm, if_neg hm]
      cases h1 : recvTable ((MasterInfo.ofBytes mib).num_nodes - 1) buf0 s1 with
      | error e => rfl
      | ok r =>
        obtain ⟨peers, buf1, s2⟩ := r
        simp only []
        cases h2 : recvTable (MasterInfo.ofBytes mib).num_mem_server buf1 s2 with
        | error e => rfl
        | ok r2 =>
          obtain ⟨mems, buf2, s3⟩ := r2
          rfl

theorem RcSlave_of_error (master buf0 stream : List Nat) (dataReady : Bool) (e : Nat)
    (h : RcSlaveHandshake master buf0 stream = Recv.error e) :
    RcSlave master buf0 dataReady stream = none := by
  rw [RcSlaveHandshakeStream_tables] at h
  unfold RcSlave
  cases hs : RcSlaveHandshakeStream master buf0 stream with
  | error e1 => rfl
  | ok r =>
    obtain ⟨t, rest⟩ := r
    rw [hs] at h
    exact absurd h (by simp)

theorem RcSlave_enters_loop (master buf0 stream rest : List Nat) (t : SlaveTables)
    (h : RcSlaveHandshakeStream master buf0 stream = Recv.ok (t, rest)) :
    RcSlave master buf0 true stream = some (RcSlaveMainLoop rest) := by
  unfold RcSlave
  rw [h]
  rfl

theorem RcSlaveHandshake_short (master buf0 stream : List Nat) (h : stream.length < 32) :
    RcSlaveHandshake master buf0 stream = Recv.error 0 := by
  have hr : RcRecv stream 32 = none := by
    unfold RcRecv
    rw [if_neg (by omega)]
  unfold RcSlaveHandshake
  rw [hr]

theorem RcSlaveHandshake_magic (master buf0 stream : List Nat)
    (h : (MasterInfo.ofBytes (stream.take 32)).magic ≠ RC_MAGIC_MASTER) :
    RcSlaveHandshake master buf0 stream = Recv.error 0 := by
  unfold RcSlaveHandshake
  cases hr : RcRecv stream 32 with
  | none => rfl
  | some p =>
    obtain ⟨mib, s1⟩ := p
    have hm : mib = stream.take 32 := by
      unfold RcRecv at hr
      split at hr
      · simp only [Option.some.injEq, Prod.mk.injEq] at hr
        exact hr.1.symm
      · exact absurd hr (by simp)
    simp only []
    rw [hm, if_pos h]

/-- C22, counterexample: for `idx = 2^32 - 1` the worker does not get `idx`. Both
forms of `RcCreateThread` send the 32 bits of `idx`, and the thread entries take
them as `int index`: the worker's index is `-1`. -/
theorem createThread_index_counterexample :
    RcSlaveMainLoop (RcCreateThread 4294967295 6 7) =
        ⟨[SlaveAction.ThThreadEntry (-1) 6 7], LoopExit.socketError⟩ ∧
      (RcCreateThreadData 4294967295 6 7 [1, 2, 3] 3).map RcSlaveMainLoop =
        some ⟨[SlaveAction.ThThreadEntryObject (-1) 6 7 [1, 2, 3]], LoopExit.socketError⟩ ∧
      SlaveAction.ThThreadEntry (-1) 6 7 ≠ SlaveAction.ThThreadEntry 4294967295 6 7 := by
  decide

/-- C22, amended: the slave loop fed the bytes that the payload form of
`RcCreateThread` emits for a payload of `len` bytes, `1 ≤ len ≤ 2048`, consumes the 24
bytes of the header and the `len` bytes of the payload (it goes on with what follows
the packet), and makes one call more than the run on what follows: the object-form
worker with `(index, param, okey, data)`. Fed the 24 bytes of the form without payload
it makes one call more than the run on what follows: the plain worker with
`(index, param, okey)`. On the packet alone the run has exactly that one call. The
index is `idx` read as a 32-bit `int`: `idx` below `2^31`, and `idx - 2^32` from
`2^31` on. -/
theorem createThread_round_trip (idx param okey len : Nat) (data rest : List Nat)
    (hi : idx < 4294967296) (hp : param < 4294967296) (hk : okey < 18446744073709551616)
    (h1 : 1 ≤ len) (h2 : len ≤ 2048) (hd : data.length = len) :
    (∃ packet, RcCreateThreadData idx param okey data len = some packet ∧
      packet.length = 24 + len ∧
      RcSlaveMainLoop (packet ++ rest) =
        (RcSlaveMainLoop rest).after
          (SlaveAction.ThThreadEntryObject (toInt32 idx) param okey data) ∧
      (RcSlaveMainLoop packet).actions =
        [SlaveAction.ThThreadEntryObject (toInt32 idx) param okey data]) ∧
    (RcCreateThread idx param okey).length = 24 ∧
    RcSlaveMainLoop (RcCreateThread idx param okey ++ rest) =
      (RcSlaveMainLoop rest).after (SlaveAction.ThThreadEntry (toInt32 idx) param okey) ∧
    (RcSlaveMainLoop (RcCreateThread idx param okey)).actions =
      [SlaveAction.ThThreadEntry (toInt32 idx) param okey] ∧
    (idx < 2147483648 → toInt32 idx = (idx : Int)) ∧
    (2147483648 ≤ idx → toInt32 idx = (idx : Int) - 4294967296) := by
  have hidx : toU32 (toInt32 idx) = idx := by
    rw [toU32_toInt32, Nat.mod_eq_of_lt hi]
  have hparam : toU32 (toInt32 param) = param := by
    rw [toU32_toInt32, Nat.mod_eq_of_lt hp]
  have htake : data.take len = data := List.take_of_length_le (by omega)
  have hobj : ∀ r : List Nat,
      RcSlaveMainLoop ((⟨RcCmdCreateThread, idx, param, okey, len⟩ : RcCommandPack).bytes ++
        (data ++ r)) =
      (RcSlaveMainLoop r).after
        (SlaveAction.ThThreadEntryObject (toInt32 idx) param okey data) :=
    fun r => RcSlaveMainLoop_object ⟨RcCmdCreateThread, idx, param, okey, len⟩ data r hi hp hk
      rfl h1 h2 hd
  have hplain : ∀ r : List Nat,
      RcSlaveMainLoop ((⟨RcCmdCreateThread, idx, param, okey, 0⟩ : RcCommandPack).bytes ++ r) =
      (RcSlaveMainLoop r).after (SlaveAction.ThThreadEntry (toInt32 idx) param okey) :=
    fun r => RcSlaveMainLoop_plain ⟨RcCmdCreateThread, idx, param, okey, 0⟩ r hi hp hk rfl rfl
  have hlow : idx < 2147483648 → toInt32 idx = (idx : Int) := by
    intro h
    unfold toInt32
    rw [Nat.mod_eq_of_lt hi, if_pos h]
  have hhigh : 2147483648 ≤ idx → toInt32 idx = (idx : Int) - 4294967296 := by
    intro h
    unfold toInt32
    rw [Nat.mod_eq_of_lt hi, if_neg (by omega)]
  unfold RcCreateThreadData RcCreateThread
  rw [if_pos h2, hidx, hparam, htake]
  refine ⟨⟨_, rfl, ?_, ?_, ?_⟩, rfl, hplain rest, ?_, hlow, hhigh⟩
  · rw [List.length_append, RcCommandPack_bytes_length, hd]
  · rw [List.append_assoc]
    exact hobj rest
  · have h := hobj []
    rw [List.append_nil] at h
    rw [h]
    rfl
  · have h := hplain []
    rw [List.append_nil] at h
    rw [h]
    rfl

/-- C22, amended, at `idx = 5` with a payload of three bytes and a `Close` packet
behind the packet: one worker with index 5, and the loop goes on with the `Close`. -/
theorem createThread_round_trip_witness :
    (∃ packet, RcCreateThreadData 5 6 7 [1, 2, 3] 3 = some packet ∧ packet.length = 27 ∧
        RcSlaveMainLoop (packet ++ (⟨RcCmdClose, 0, 0, 0, 0⟩ : RcCommandPack).bytes) =
          ⟨[SlaveAction.ThThreadEntryObject 5 6 7 [1, 2, 3]], LoopExit.close⟩) ∧
      RcSlaveMainLoop (RcCreateThread 5 6 7 ++ (⟨RcCmdClose, 0, 0, 0, 0⟩ : RcCommandPack).bytes) =
        ⟨[SlaveAction.ThThreadEntry 5 6 7], LoopExit.close⟩ := by
  obtain ⟨⟨packet, h1, h2, h3, _⟩, _, h5, _⟩ :=
    createThread_round_trip 5 6 7 3 [1, 2, 3] (⟨RcCmdClose, 0, 0, 0, 0⟩ : RcCommandPack).bytes
      (by decide) (by decide) (by decide) (by decide) (by decide) rfl
  exact ⟨⟨packet, h1, h2, h3.trans (by decide)⟩, h5.trans (by decide)⟩

theorem RcRecv_take_short (s : List Nat) (n m : Nat) (h : m < n) :
    RcRecv (s.take m) n = none := by
  unfold RcRecv
  rw [if_neg]
  rw [List.length_take]
  omega

theorem RcRecv_take_ok (s a r : List Nat) (n m : Nat) (h : RcRecv s n = some (a, r))
    (hm : n ≤ m) :
    r.length + n = s.length ∧ RcRecv (s.take m) n = some (a, r.take (m - n)) := by
  unfold RcRecv at h ⊢
  split at h
  · rename_i hn
    simp only [Option.some.injEq, Prod.mk.injEq] at h
    obtain ⟨ha, hr⟩ := h
    refine ⟨by rw [← hr, List.length_drop]; omega, ?_⟩
    rw [if_pos (by rw [List.length_take]; omega), ← ha, ← hr, List.take_take,
      Nat.min_eq_left hm, List.drop_take]
  · exact absurd h (by simp)

/-- A table entry cut short: if `recvEntry` reads an entry from a stream, then on
the stream cut before the end of the entry it reports an error, and on the stream
cut later it reads the same entry. -/
theorem recvEntry_take (buf s : List Nat) (e : List Nat × Int) (b r : List Nat)
    (h : recvEntry buf s = Recv.ok (e, b, r)) (m : Nat) :
    r.length ≤ s.length ∧
    (m < s.length - r.length → ∃ err, recvEntry buf (s.take m) = Recv.error err) ∧
    (s.length - r.length ≤ m →
      recvEntry buf (s.take m) = Recv.ok (e, b, r.take (m - (s.length - r.length)))) := by
  unfold recvEntry at h
  cases h1 : RcRecv s 4 with
  | none => rw [h1] at h; exact absurd h (by simp)
  | some p1 =>
    obtain ⟨lenb, s1⟩ := p1
    rw [h1] at h
    simp only [] at h
    by_cases hbig : dec32 lenb > 255
    · rw [if_pos hbig] at h; exact absurd h (by simp)
    · rw [if_neg hbig] at h
      cases h2 : RcRecv s1 (dec32 lenb) with
      | none => rw [h2] at h; exact absurd h (by simp)
      | some p2 =>
        obtain ⟨data, s2⟩ := p2
        rw [h2] at h
        simp only [] at h
        cases h3 : RcRecv s2 4 with
        | none => rw [h3] at h; exact absurd h (by simp)
        | some p3 =>
          obtain ⟨portb, s3⟩ := p3
          rw [h3] at h
          simp only [Recv.ok.injEq, Prod.mk.injEq] at h
          obtain ⟨he, hb, hr⟩ := h
          subst hr
          have l1 := (RcRecv_take_ok s lenb s1 4 4 h1 (le_refl _)).1
          have l2 := (RcRecv_take_ok s1 data s2 _ _ h2 (le_refl _)).1
          have l3 := (RcRecv_take_ok s2 portb s3 4 4 h3 (le_refl _)).1
          refine ⟨by omega, ?_, ?_⟩
          · intro hm
            unfold recvEntry
            by_cases c1 : m < 4
            · rw [RcRecv_take_short s 4 m c1]; exact ⟨5, rfl⟩
            · rw [(RcRecv_take_ok s lenb s1 4 m h1 (by omega)).2]
              simp only []
              rw [if_neg hbig]
              by_cases c2 : m - 4 < dec32 lenb
              · rw [RcRecv_take_short s1 _ _ c2]; exact ⟨7, rfl⟩
              · rw [(RcRecv_take_ok s1 data s2 _ (m - 4) h2 (by omega)).2]
                simp only []
                rw [RcRecv_take_short s2 4 _ (by omega)]
                exact ⟨8, rfl⟩
          · intro hm
            unfold recvEntry
            rw [(RcRecv_take_ok s lenb s1 4 m h1 (by omega)).2]
            simp only []
            rw [if_neg hbig, (RcRecv_take_ok s1 data s2 _ (m - 4) h2 (by omega)).2]
            simp only []
            rw [(RcRecv_take_ok s2 portb s3 4 _ h3 (by omega)).2]
            simp only [Recv.ok.injEq, Prod.mk.injEq]
            refine ⟨he, hb, ?_⟩
            congr 1
            omega

theorem recvTable_take (n : Nat) : ∀ (buf s : List Nat) (es : List (List Nat × Int))
    (b r : List Nat), recvTable n buf s = Recv.ok (es, b, r) → ∀ m : Nat,
    r.length ≤ s.length ∧
    (m < s.length - r.length → ∃ err, recvTable n buf (s.take m) = Recv.error err) ∧
    (s.length - r.length ≤ m →
      recvTable n buf (s.take m) = Recv.ok (es, b, r.take (m - (s.length - r.length)))) := by
  induction n with
  | zero =>
    intro buf s es b r h m
    simp only [recvTable, Recv.ok.injEq, Prod.mk.injEq] at h
    obtain ⟨h1, h2, h3⟩ := h
    subst h1 h2 h3
    refine ⟨le_refl _, fun hm => by omega, fun _ => ?_⟩
    simp [recvTable]
  | succ n ih =>
    intro buf s es b r h m
    unfold recvTable at h
    cases h1 : recvEntry buf s with
    | error e => rw [h1] at h; exact absurd h (by simp)
    | ok p1 =>
      obtain ⟨entry, buf1, s1⟩ := p1
      rw [h1] at h
      simp only [] at h
      cases h2 : recvTable n buf1 s1 with
      | error e => rw [h2] at h; exact absurd h (by simp)
      | ok p2 =>
        obtain ⟨entries, buf2, s2⟩ := p2
        rw [h2] at h
        simp only [Recv.ok.injEq, Prod.mk.injEq] at h
        obtain ⟨hes, hb, hr⟩ := h
        subst hes hb hr
        obtain ⟨e1, e2, e3⟩ := recvEntry_take buf s entry buf1 s1 h1 m
        obtain ⟨t1, t2, t3⟩ := ih buf1 s1 entries buf2 s2 h2 (m - (s.length - s1.length))
        refine ⟨by omega, ?_, ?_⟩
        · intro hm
          unfold recvTable
          by_cases c1 : m < s.length - s1.length
          · obtain ⟨err, herr⟩ := e2 c1
            rw [herr]; exact ⟨err, rfl⟩
          · rw [e3 (by omega)]
            simp only []
            obtain ⟨err, herr⟩ := t2 (by omega)
            rw [herr]; exact ⟨err, rfl⟩
        · intro hm
          unfold recvTable
          rw [e3 (by omega)]
          simp only []
          rw [t3 (by omega)]
          simp only [Recv.ok.injEq, Prod.mk.injEq, true_and]
          congr 1
          omega

/-- A handshake cut short: if the handshake of `RcSlave` succeeds on a stream, then
on the stream cut anywhere before the end of the bytes it reads it reports an
error. -/
theorem RcSlaveHandshakeStream_take (master buf0 s : List Nat) (t : SlaveTables)
    (r : List Nat) (h : RcSlaveHandshakeStream master buf0 s = Recv.ok (t, r)) (m : Nat)
    (hm : m < s.length - r.length) :
    ∃ err, RcSlaveHandshakeStream master buf0 (s.take m) = Recv.error err := by
  unfold RcSlaveHandshakeStream at h
  cases h1 : RcRecv s 32 with
  | none => rw [h1] at h; exact absurd h (by simp)
  | some p1 =>
    obtain ⟨mib, s1⟩ := p1
    rw [h1] at h
    simp only [] at h
    by_cases hmagic : (MasterInfo.ofBytes mib).magic ≠ RC_MAGIC_MASTER
    · rw [if_pos hmagic] at h; exact absurd h (by simp)
    · rw [if_neg hmagic] at h
      cases h2 : recvTable ((MasterInfo.ofBytes mib).num_nodes - 1) buf0 s1 with
      | error e => rw [h2] at h; exact absurd h (by simp)
      | ok p2 =>
        obtain ⟨peers, buf1, s2⟩ := p2
        rw [h2] at h
        simp only [] at h
        cases h3 : recvTable (MasterInfo.ofBytes mib).num_mem_server buf1 s2 with
        | error e => rw [h3] at h; exact absurd h (by simp)
        | ok p3 =>
          obtain ⟨mems, buf2, s3⟩ := p3
          rw [h3] at h
          simp only [Recv.ok.injEq, Prod.mk.injEq] at h
          obtain ⟨_, hr⟩ := h
          subst hr
          have l1 := (RcRecv_take_ok s mib s1 32 32 h1 (le_refl _)).1
          obtain ⟨a1, a2, a3⟩ := recvTable_take _ buf0 s1 peers buf1 s2 h2 (m - 32)
          obtain ⟨b1, b2, b3⟩ :=
            recvTable_take _ buf1 s2 mems buf2 s3 h3 (m - 32 - (s1.length - s2.length))
          unfold RcSlaveHandshakeStream
          by_cases c1 : m < 32
          · rw [RcRecv_take_short s 32 m c1]; exact ⟨0, rfl⟩
          · rw [(RcRecv_take_ok s mib s1 32 m h1 (by omega)).2]
            simp only []
            rw [if_neg hmagic]
            by_cases c2 : m - 32 < s1.length - s2.length
            · obtain ⟨err, herr⟩ := a2 c2
              rw [herr]; exact ⟨err, rfl⟩
            · rw [a3 (by omega)]
              simp only []
              obtain ⟨err, herr⟩ := b2 (by omega)
              rw [herr]; exact ⟨err, rfl⟩

theorem RcSlave_cut (master buf0 s : List Nat) (dataReady : Bool) (t : SlaveTables)
    (r : List Nat) (h : RcSlaveHandshakeStream master buf0 s = Recv.ok (t, r)) (m : Nat)
    (hm : m < s.length - r.length) :
    RcSlave master buf0 dataReady (s.take m) = none := by
  obtain ⟨err, herr⟩ := RcSlaveHandshakeStream_take master buf0 s t r h m hm
  unfold RcSlave
  rw [herr]

/-- C24: a short read is fatal to the slave. At any iteration of the slave loop, a
stream that ends before the 24 bytes of a command header ends the loop with no call
made; a `CreateThread` header with `1 ≤ param4 ≤ 2048` whose payload is cut short by
the end of the stream ends the loop with no call made (the `break` leaves the `switch`,
and the next header receive on the ended connection is short). In `RcSlave`, a short
read of `MasterInfo` and a wrong magic skip the slave loop; and a connection that
ends anywhere inside the bytes a successful handshake reads (inside `MasterInfo`, or
inside the length, the name or the port of any entry of the two tables) skips the
slave loop, whatever the data sockets do. Every error of the handshake skips the
loop. -/
theorem transport_errors_fatal :
    (∀ (fuel : Nat) (stream : List Nat), stream.length < 24 →
      slaveLoop (fuel + 1) stream = ⟨[], LoopExit.socketError⟩) ∧
    (∀ (fuel : Nat) (c : RcCommandPack) (rest : List Nat), c.param < 4294967296 →
      c.param2 < 4294967296 → c.param3 < 18446744073709551616 →
      c.cmd = RcCmdCreateThread → 0 < c.param4 → c.param4 ≤ 2048 → rest.length < c.param4 →
      slaveLoop (fuel + 2) (c.bytes ++ rest) = ⟨[], LoopExit.socketError⟩) ∧
    (∀ (master buf0 stream : List Nat) (dataReady : Bool), stream.length < 32 →
      RcSlave master buf0 dataReady stream = none) ∧
    (∀ (master buf0 stream : List Nat) (dataReady : Bool),
      (MasterInfo.ofBytes (stream.take 32)).magic ≠ RC_MAGIC_MASTER →
      RcSlave master buf0 dataReady stream = none) ∧
    (∀ (master buf0 stream : List Nat) (dataReady : Bool) (t : SlaveTables)
      (rest : List Nat) (m : Nat),
      RcSlaveHandshakeStream master buf0 stream = Recv.ok (t, rest) →
      m < stream.length - rest.length →
      RcSlave master buf0 dataReady (stream.take m) = none) ∧
    (∀ (master buf0 stream : List Nat) (dataReady : Bool) (e : Nat),
      RcSlaveHandshake master buf0 stream = Recv.error e →
      RcSlave master buf0 dataReady stream = none) :=
  ⟨slaveLoop_short, slaveLoop_shortPayload,
    fun master buf0 stream dataReady h =>
      RcSlave_of_error master buf0 stream dataReady 0 (RcSlaveHandshake_short _ _ _ h),
    fun master buf0 stream dataReady h =>
      RcSlave_of_error master buf0 stream dataReady 0 (RcSlaveHandshake_magic _ _ _ h),
    fun master buf0 stream dataReady t rest m h hm =>
      RcSlave_cut master buf0 stream dataReady t rest h m hm,
    fun master buf0 stream dataReady e h => RcSlave_of_error master buf0 stream dataReady e h⟩

/-- C24, on concrete streams: five bytes where a header is due; a `CreateThread`
header announcing four payload bytes followed by two; three bytes where `MasterInfo`
is due; and the bytes `RcMasterHello` sends for two nodes and one memory server (54
bytes, all of which the handshake reads), cut after 38 bytes, inside the host name
of the first table entry, and after 50 bytes, inside the port of the memory
server. -/
theorem transport_errors_fatal_witness :
    RcSlaveMainLoop [2, 0, 0, 0, 1] = ⟨[], LoopExit.socketError⟩ ∧
      RcSlaveMainLoop ((⟨RcCmdCreateThread, 1, 2, 3, 4⟩ : RcCommandPack).bytes ++ [9, 9]) =
        ⟨[], LoopExit.socketError⟩ ∧
      RcSlave [] [] true [1, 2, 3] = none ∧
      (RcMasterHello slaveHello [[109], [110, 49]] [9000, 9001] [[109, 99]] [11211]
        1 0 0 (-1)).2.1.length = 54 ∧
      RcSlave [49] [] true
        ((RcMasterHello slaveHello [[109], [110, 49]] [9000, 9001] [[109, 99]] [11211]
          1 0 0 (-1)).2.1.take 38) = none ∧
      RcSlave [49] [] true
        ((RcMasterHello slaveHello [[109], [110, 49]] [9000, 9001] [[109, 99]] [11211]
          1 0 0 (-1)).2.1.take 50) = none ∧
      RcSlave [49] [] true
        ((RcMasterHello slaveHello [[109], [110, 49]] [9000, 9001] [[109, 99]] [11211]
          1 0 0 (-1)).2.1 ++ (⟨RcCmdClose, 0, 0, 0, 0⟩ : RcCommandPack).bytes) =
        some ⟨[], LoopExit.close⟩ :=
  ⟨transport_errors_fatal.1 5 [2, 0, 0, 0, 1] (by decide),
    transport_errors_fatal.2.1 25 ⟨RcCmdCreateThread, 1, 2, 3, 4⟩ [9, 9] (by decide) (by decide)
      (by decide) rfl (by decide) (by decide) (by decide),
    transport_errors_fatal.2.2.1 [] [] [1, 2, 3] true (by decide),
    by decide,
    transport_errors_fatal.2.2.2.2.1 [49] [] _ true
      ⟨2, 1, [[49], [110, 49]], [9000, 9001], [[109, 99]], [11211], 0, 0, -1⟩ [] 38 (by decide)
      (by decide),
    transport_errors_fatal.2.2.2.2.1 [49] [] _ true
      ⟨2, 1, [[49], [110, 49]], [9000, 9001], [[109, 99]], [11211], 0, 0, -1⟩ [] 50 (by decide)
      (by decide),
    by decide⟩

end Dogee
